import Mathlib

/-! SQL insert row encoder (`src/sdk/sql_insert_row.cc`).

A shallow embedding of `rtidb::sdk::SQLInsertRow`: the constructor that derives the
index layout, `Init`, the typed `Append*` family, the default-chaining routine
`MakeDefault` and `GetDimensions`.

Conventions of the embedding.

* `std::map<uint32_t, V>` is a key-ordered association list (`StdMap.*`), so that
  iterating the list is iterating the map.
* A member function that returns `bool` and mutates the object returns the pair
  `(result, state after)`.
* `MakeDefault` and the `Append*` family call each other.  Every `Append*` is written
  once with the routine that follows a successful write as an argument (`…K`), and
  `MakeDefault` recurses on a fuel counter that bounds the number of nested
  `MakeDefault` activations; `none` means the fuel ran out.
* What the file uses but does not define (the codec tokens, buffer sizing, the row
  buffer writer, `IsDimension`) is either a field of `External` or a definition
  marked "Modelled from the spec".
-/

namespace rtidb

/-! ## Ordered maps -/

namespace StdMap

/-- The iterator test `m.find(k) != m.end()` together with the value found. -/
def find {α : Type} : List (Nat × α) → Nat → Option α
  | [], _ => none
  | (k1, v1) :: rest, k => if k = k1 then some v1 else find rest k

/-- The assignment `m[k] = v`: overwrite the entry of `k`, or insert it at its place in
key order. -/
def assign {α : Type} : List (Nat × α) → Nat → α → List (Nat × α)
  | [], k, v => [(k, v)]
  | (k1, v1) :: rest, k, v =>
    if k < k1 then (k, v) :: (k1, v1) :: rest
    else if k = k1 then (k, v) :: rest
    else (k1, v1) :: assign rest k v

/-- The keys of the map, in iteration order. -/
def keys {α : Type} (m : List (Nat × α)) : List Nat := m.map Prod.fst

/-- The call `m[k].push_back(x)` on a map of vectors: `m[k]` default-constructs an empty
vector when `k` is absent. -/
def push_back (m : List (Nat × List Nat)) (k x : Nat) : List (Nat × List Nat) :=
  assign m k (((find m k).getD []) ++ [x])

end StdMap

/-! ## Schema metadata and default values -/

/-- The data types of `rtidb::type::DataType` that `MakeDefault` switches on, and `kOther`
for every enumerator that reaches its `default:` label. -/
inductive DataType where
  | kBool | kSmallInt | kInt | kBigInt | kFloat | kDouble | kDate | kTimestamp
  | kVarchar | kString | kOther
  deriving DecidableEq, Repr

/-- One entry of `column_desc_v1`. -/
structure ColumnDesc where
  name : String
  data_type : DataType
  is_ts_col : Bool
  add_ts_idx : Bool
  deriving DecidableEq, Repr

/-- One entry of `column_key`: the column names of an explicit index definition. -/
structure ColumnKey where
  col_name : List String
  deriving DecidableEq, Repr

/-- The part of `rtidb::nameserver::TableInfo` that the encoder reads. -/
structure TableInfo where
  column_desc_v1 : List ColumnDesc
  column_key : List ColumnKey
  deriving DecidableEq, Repr

/-- A default value (`fesql::node::ConstNode`) as seen through the getters that
`MakeDefault` calls; each getter is a field of its own, nothing relates them. -/
structure ConstNode where
  IsNull : Bool
  GetInt : Int
  GetSmallInt : Int
  GetLong : Int
  GetFloat : Nat
  GetDouble : Nat
  GetStr : String
  deriving DecidableEq, Repr

/-- What the file takes from outside and never defines: the two codec tokens
(`fesql::codec::NONETOKEN`, `fesql::codec::EMPTY_STRING`) and the buffer sizing of the
writer (`CalTotalLength`, and whether `SetBuffer` accepts a size). -/
structure External where
  NONETOKEN : String
  EMPTY_STRING : String
  CalTotalLength : Int → Nat
  SetBufferOk : Nat → Bool

/-! ## The row buffer writer -/

/-- A value handed to the row buffer writer, tagged with the writer primitive that
receives it.  Floating point payloads are carried as their bit patterns. -/
inductive Value where
  | null
  | bool (v : Bool)
  | int16 (v : Int)
  | int32 (v : Int)
  | int64 (v : Int)
  | float (bits : Nat)
  | double (bits : Nat)
  | date (v : Int)
  | dateYMD (year month day : Nat)
  | timestamp (v : Int)
  | string (v : String)
  deriving DecidableEq, Repr

/-- Modelled from the spec: the type test of the Row Buffer Writer, whose source
(`codec::RowBuilder`) is not part of the file.  §4.3: "the operand must match the data type
declared for the column at the writer's current append position"; §4.5: a null value is
written "through a dedicated writer primitive" at whatever the current position is.  A
date given by calendar fields is a date operand only with 1900 ≤ year ≤ 9999,
1 ≤ month ≤ 12 and 1 ≤ day ≤ 31: §7 lists the "date-by-fields validation failure" among
the failures of an append, and by §8 `AppendDate(1899, 1, 1)`, `AppendDate(2000, 13, 1)`
and `AppendDate(2000, 1, 32)` fail, with no condition on the column. -/
def Value.fits : Value → DataType → Bool
  | .null, _ => true
  | .bool _, .kBool => true
  | .int16 _, .kSmallInt => true
  | .int32 _, .kInt => true
  | .int64 _, .kBigInt => true
  | .float _, .kFloat => true
  | .double _, .kDouble => true
  | .date _, .kDate => true
  | .dateYMD year month day, .kDate =>
    decide (1900 ≤ year ∧ year ≤ 9999 ∧ 1 ≤ month ∧ month ≤ 12 ∧ 1 ≤ day ∧ day ≤ 31)
  | .timestamp _, .kTimestamp => true
  | .string _, .kVarchar => true
  | .string _, .kString => true
  | _, _ => false

/-- Modelled from the spec: the state of the Row Buffer Writer (`codec::RowBuilder`, not
part of the file): the column descriptors it was built from and the values written so
far, in column order.  The "append position" cursor is the number of values written. -/
structure RowBuilder where
  schema : List ColumnDesc
  buf : List Value
  deriving DecidableEq, Repr

namespace RowBuilder

/-- Modelled from the spec: `CurrentPosition()` of §6 (`GetAppendPos`), the position of
the next column to write. -/
def GetAppendPos (rb : RowBuilder) : Nat := rb.buf.length

/-- Modelled from the spec: `IsComplete()` of §6; the glossary's completeness, "every
column of a row has been assigned a value". -/
def IsComplete (rb : RowBuilder) : Bool := decide (rb.schema.length ≤ rb.buf.length)

/-- Modelled from the spec: the typed append of §4.3 and §6.  It "fails (returns false, no
side effects on buffer or row state)" if the operand does not match the column at the
cursor "or if the row is already complete"; otherwise the value is written and "the writer
advances its cursor".  `none` is the failure. -/
def Append (rb : RowBuilder) (v : Value) : Option RowBuilder :=
  match rb.schema[rb.buf.length]? with
  | some col => if v.fits col.data_type then some { rb with buf := rb.buf ++ [v] } else none
  | none => none

/-- Modelled from the spec: `Bind(buffer, byteCount)` of §6 (`SetBuffer`); §4.2: the chain
that follows starts "at column position 0".  Whether a size is accepted is `SetBufferOk`. -/
def SetBuffer (E : External) (rb : RowBuilder) (size : Nat) : Option RowBuilder :=
  if E.SetBufferOk size then some { rb with buf := [] } else none

end RowBuilder

/-! ## The row encoder -/

/-- The members of `SQLInsertRow` that the operations read or write. -/
structure SQLInsertRow where
  table_info : TableInfo
  default_map : List (Nat × ConstNode)
  default_string_length : Nat
  rb : RowBuilder
  index_map : List (Nat × List Nat)
  raw_dimensions : List (Nat × String)
  ts_set : List Nat
  ts : List Nat
  dimensions : List (String × Nat)
  deriving DecidableEq, Repr

/-- The locals and members that the two constructor loops update. -/
structure CtorState where
  index_cnt : Nat
  ts_set : List Nat
  index_map : List (Nat × List Nat)
  raw_dimensions : List (Nat × String)
  column_name_map : List (String × Nat)
  deriving DecidableEq, Repr

/-- The call `column_name_map.insert(std::make_pair(name, idx))`: `std::map::insert` keeps
the entry of a key that is already present. -/
def nameMapInsert (m : List (String × Nat)) (name : String) (idx : Nat) :
    List (String × Nat) :=
  if (m.lookup name).isSome then m else m ++ [(name, idx)]

/-- The read `column_name_map[column]`: a name that is absent is value-initialised, which
gives position 0. -/
def nameMapAt (m : List (String × Nat)) (name : String) : Nat :=
  (m.lookup name).getD 0

/-- The call `ts_set_.insert(idx)`. -/
def tsSetInsert (s : List Nat) (idx : Nat) : List Nat :=
  if idx ∈ s then s else s ++ [idx]

/-- One iteration of the first constructor loop (lines 61-70), at column `idx`. -/
def ctorColumn (E : External) (st : CtorState) (idx : Nat) (col : ColumnDesc) : CtorState :=
  let st1 : CtorState :=
    if col.is_ts_col then
      { st with ts_set := tsSetInsert st.ts_set idx }
    else if col.add_ts_idx then
      { st with
        index_map := StdMap.push_back st.index_map st.index_cnt idx
        index_cnt := st.index_cnt + 1
        raw_dimensions := StdMap.assign st.raw_dimensions idx E.NONETOKEN }
    else st
  { st1 with column_name_map := nameMapInsert st1.column_name_map col.name idx }

/-- The first constructor loop, from column `idx` on. -/
def ctorColumns (E : External) : List ColumnDesc → Nat → CtorState → CtorState
  | [], _, st => st
  | col :: rest, idx, st => ctorColumns E rest (idx + 1) (ctorColumn E st idx col)

/-- The inner loop of lines 75-79: the column names of the definition `idx`. -/
def ctorKeyColumns (E : External) (idx : Nat) : List String → CtorState → CtorState
  | [], st => st
  | column :: rest, st =>
    ctorKeyColumns E idx rest
      { st with
        index_map := StdMap.push_back st.index_map idx (nameMapAt st.column_name_map column)
        raw_dimensions :=
          StdMap.assign st.raw_dimensions (nameMapAt st.column_name_map column) E.NONETOKEN }

/-- The outer loop of lines 74-80, from definition `idx` on. -/
def ctorKeys (E : External) : List ColumnKey → Nat → CtorState → CtorState
  | [], _, st => st
  | key :: rest, idx, st => ctorKeys E rest (idx + 1) (ctorKeyColumns E idx key.col_name st)

/-- The body of the constructor (lines 59-81). -/
def ctorBody (E : External) (table_info : TableInfo) : CtorState :=
  let st := ctorColumns E table_info.column_desc_v1 0
    { index_cnt := 0, ts_set := [], index_map := [], raw_dimensions := [],
      column_name_map := [] }
  if table_info.column_key.length > 0 then
    ctorKeys E table_info.column_key 0 { st with index_map := [], raw_dimensions := [] }
  else st

/-- The constructor `SQLInsertRow::SQLInsertRow`. -/
def SQLInsertRow.new (E : External) (table_info : TableInfo)
    (default_map : List (Nat × ConstNode)) (default_string_length : Nat) : SQLInsertRow :=
  let st := ctorBody E table_info
  { table_info := table_info
    default_map := default_map
    default_string_length := default_string_length
    rb := { schema := table_info.column_desc_v1, buf := [] }
    index_map := st.index_map
    raw_dimensions := st.raw_dimensions
    ts_set := st.ts_set
    ts := []
    dimensions := [] }

/-! ## Machine integers -/

/-- The conversion of a signed 64-bit value to `uint64_t` (the parameter of `PackTs`). -/
def toUInt64 (v : Int) : Nat := (v % 2 ^ 64).toNat

/-- The conversion of an unsigned 32-bit value to `int32_t`. -/
def toInt32 (n : Nat) : Int :=
  if n % 2 ^ 32 < 2 ^ 31 then ((n % 2 ^ 32 : Nat) : Int) else ((n % 2 ^ 32 : Nat) : Int) - 2 ^ 32

/-- The conversion of an `int32_t` to `uint32_t`, as in `date | (...)` with an unsigned
right operand. -/
def toUInt32 (v : Int) : Nat := (v % 2 ^ 32).toNat

/-- Lines 259-261 of `AppendDate(year, month, day)`: the three assignments to
`int32_t date`, on `uint32_t` operands. -/
def packDate (year month day : Nat) : Int :=
  let date0 := toInt32 ((((year + 2 ^ 32 - 1900) % 2 ^ 32) <<< 16) % 2 ^ 32)
  let date1 := toInt32 (toUInt32 date0 ||| ((((month + 2 ^ 32 - 1) % 2 ^ 32) <<< 8) % 2 ^ 32))
  toInt32 (toUInt32 date1 ||| day)

/-- The string `std::string(val, length)`: the `length` characters that start at the
pointer.  `val` holds the characters at the pointer; memory behind them reads as NUL. -/
def stringAt (val : String) (length : Nat) : String :=
  String.mk ((List.range length).map (fun i => val.data.getD i (Char.ofNat 0)))

/-! ## Operations of the row encoder -/

namespace SQLInsertRow

/-- The member `IsComplete` (line 290). -/
def IsComplete (s : SQLInsertRow) : Bool := s.rb.IsComplete

/-- Modelled from the spec: `IsDimension()`, declared in the header, which is not part of
the file.  §4.3 step 1: "If the current column position belongs to an Index Group". -/
def IsDimension (s : SQLInsertRow) : Bool :=
  s.index_map.any (fun kv => decide (s.rb.GetAppendPos ∈ kv.2))

/-- The member `PackDimension` (lines 96-98). -/
def PackDimension (s : SQLInsertRow) (val : String) : SQLInsertRow :=
  { s with raw_dimensions := StdMap.assign s.raw_dimensions s.rb.GetAppendPos val }

/-- The member `PackTs` (lines 100-106). -/
def PackTs (s : SQLInsertRow) (ts : Nat) : Bool × SQLInsertRow :=
  if s.rb.GetAppendPos ∈ s.ts_set then (true, { s with ts := s.ts ++ [ts] })
  else (false, s)

/-- The inner loop of `GetDimensions` (lines 115-120) over the members of one group.  The
read `raw_dimensions_[idx]` creates an empty entry when `idx` has none. -/
def dimensionKey : List Nat → String → List (Nat × String) → String × List (Nat × String)
  | [], key, raw => (key, raw)
  | idx :: rest, key, raw =>
    let key1 := if key = "" then key else key ++ "|"
    match StdMap.find raw idx with
    | some v => dimensionKey rest (key1 ++ v) raw
    | none => dimensionKey rest (key1 ++ "") (StdMap.assign raw idx "")

/-- The outer loop of `GetDimensions` (lines 113-122) over `index_map_` in key order. -/
def dimensionLoop : List (Nat × List Nat) → List (Nat × String) → List (String × Nat) →
    List (Nat × String) × List (String × Nat)
  | [], raw, dims => (raw, dims)
  | kv :: rest, raw, dims =>
    let r := dimensionKey kv.2 "" raw
    dimensionLoop rest r.2 (dims ++ [(r.1, kv.1)])

/-- The member `GetDimensions` (lines 108-125): the sequence returned and the state after. -/
def GetDimensions (s : SQLInsertRow) : List (String × Nat) × SQLInsertRow :=
  if s.dimensions.length > 0 then (s.dimensions, s)
  else
    let r := dimensionLoop s.index_map s.raw_dimensions s.dimensions
    (r.2, { s with raw_dimensions := r.1, dimensions := r.2 })

/-- The common tail of every `Append*`: `if (rb_.Append…(val)) return MakeDefault(); return
false;`, with `k` standing for `MakeDefault`. -/
def writeThen (k : SQLInsertRow → Option (Bool × SQLInsertRow)) (s : SQLInsertRow)
    (v : Value) : Option (Bool × SQLInsertRow) :=
  match s.rb.Append v with
  | some rb => k { s with rb := rb }
  | none => some (false, s)

/-- The member `AppendBool` (lines 160-168). -/
def AppendBoolK (k : SQLInsertRow → Option (Bool × SQLInsertRow)) (s : SQLInsertRow)
    (val : Bool) : Option (Bool × SQLInsertRow) :=
  let s1 := if s.IsDimension then s.PackDimension (if val then "true" else "false") else s
  writeThen k s1 (.bool val)

/-- The member `AppendInt16` (lines 170-178). -/
def AppendInt16K (k : SQLInsertRow → Option (Bool × SQLInsertRow)) (s : SQLInsertRow)
    (val : Int) : Option (Bool × SQLInsertRow) :=
  let s1 := if s.IsDimension then s.PackDimension (toString val) else s
  writeThen k s1 (.int16 val)

/-- The member `AppendInt32` (lines 180-188). -/
def AppendInt32K (k : SQLInsertRow → Option (Bool × SQLInsertRow)) (s : SQLInsertRow)
    (val : Int) : Option (Bool × SQLInsertRow) :=
  let s1 := if s.IsDimension then s.PackDimension (toString val) else s
  writeThen k s1 (.int32 val)

/-- The member `AppendInt64` (lines 190-199). -/
def AppendInt64K (k : SQLInsertRow → Option (Bool × SQLInsertRow)) (s : SQLInsertRow)
    (val : Int) : Option (Bool × SQLInsertRow) :=
  let s1 := if s.IsDimension then s.PackDimension (toString val) else s
  let s2 := (s1.PackTs (toUInt64 val)).2
  writeThen k s2 (.int64 val)

/-- The member `AppendTimestamp` (lines 201-210). -/
def AppendTimestampK (k : SQLInsertRow → Option (Bool × SQLInsertRow)) (s : SQLInsertRow)
    (val : Int) : Option (Bool × SQLInsertRow) :=
  let s1 := if s.IsDimension then s.PackDimension (toString val) else s
  let s2 := (s1.PackTs (toUInt64 val)).2
  writeThen k s2 (.timestamp val)

/-- The member `AppendFloat` (lines 212-217). -/
def AppendFloatK (k : SQLInsertRow → Option (Bool × SQLInsertRow)) (s : SQLInsertRow)
    (val : Nat) : Option (Bool × SQLInsertRow) :=
  writeThen k s (.float val)

/-- The member `AppendDouble` (lines 219-224). -/
def AppendDoubleK (k : SQLInsertRow → Option (Bool × SQLInsertRow)) (s : SQLInsertRow)
    (val : Nat) : Option (Bool × SQLInsertRow) :=
  writeThen k s (.double val)

/-- The member `AppendString(const std::string&)` (lines 226-238). -/
def AppendStringK (E : External) (k : SQLInsertRow → Option (Bool × SQLInsertRow))
    (s : SQLInsertRow) (val : String) : Option (Bool × SQLInsertRow) :=
  let s1 :=
    if s.IsDimension then
      if val = "" then s.PackDimension E.EMPTY_STRING else s.PackDimension val
    else s
  writeThen k s1 (.string val)

/-- The member `AppendString(const char*, uint32_t)` (lines 240-252); `val` holds the
characters at the pointer, of which the first `length` are read. -/
def AppendStringNK (E : External) (k : SQLInsertRow → Option (Bool × SQLInsertRow))
    (s : SQLInsertRow) (val : String) (length : Nat) : Option (Bool × SQLInsertRow) :=
  let s1 :=
    if s.IsDimension then
      if 0 = length then s.PackDimension E.EMPTY_STRING
      else s.PackDimension (stringAt val length)
    else s
  writeThen k s1 (.string (stringAt val length))

/-- The member `AppendDate(uint32_t, uint32_t, uint32_t)` (lines 254-268). -/
def AppendDateYMDK (k : SQLInsertRow → Option (Bool × SQLInsertRow)) (s : SQLInsertRow)
    (year month day : Nat) : Option (Bool × SQLInsertRow) :=
  if s.IsDimension then
    if year < 1900 ∨ year > 9999 then some (false, s)
    else if month < 1 ∨ month > 12 then some (false, s)
    else if day < 1 ∨ day > 31 then some (false, s)
    else writeThen k (s.PackDimension (toString (packDate year month day)))
      (.dateYMD year month day)
  else writeThen k s (.dateYMD year month day)

/-- The member `AppendDate(int32_t)` (lines 270-278). -/
def AppendDateK (k : SQLInsertRow → Option (Bool × SQLInsertRow)) (s : SQLInsertRow)
    (date : Int) : Option (Bool × SQLInsertRow) :=
  let s1 := if s.IsDimension then s.PackDimension (toString date) else s
  writeThen k s1 (.date date)

/-- The member `AppendNULL` (lines 280-288). -/
def AppendNULLK (E : External) (k : SQLInsertRow → Option (Bool × SQLInsertRow))
    (s : SQLInsertRow) : Option (Bool × SQLInsertRow) :=
  let s1 := if s.IsDimension then s.PackDimension E.NONETOKEN else s
  writeThen k s1 .null

/-- The member `MakeDefault` (lines 127-158).  `fuel` bounds the nested activations of
`MakeDefault`; `none` means it ran out.  A cursor past the last column has no column
descriptor to switch on and is taken to the `default:` label. -/
def MakeDefault (E : External) : Nat → SQLInsertRow → Option (Bool × SQLInsertRow)
  | 0, _ => none
  | fuel + 1, s =>
    match StdMap.find s.default_map s.rb.GetAppendPos with
    | some it =>
      if it.IsNull then AppendNULLK E (MakeDefault E fuel) s
      else
        match (s.table_info.column_desc_v1[s.rb.GetAppendPos]?).map ColumnDesc.data_type with
        | some .kBool => AppendBoolK (MakeDefault E fuel) s (decide (it.GetInt ≠ 0))
        | some .kSmallInt => AppendInt16K (MakeDefault E fuel) s it.GetSmallInt
        | some .kInt => AppendInt32K (MakeDefault E fuel) s it.GetInt
        | some .kBigInt => AppendInt64K (MakeDefault E fuel) s it.GetLong
        | some .kFloat => AppendFloatK (MakeDefault E fuel) s it.GetFloat
        | some .kDouble => AppendDoubleK (MakeDefault E fuel) s it.GetDouble
        | some .kDate => AppendDateK (MakeDefault E fuel) s it.GetInt
        | some .kTimestamp => AppendTimestampK (MakeDefault E fuel) s it.GetLong
        | some .kVarchar => AppendStringK E (MakeDefault E fuel) s it.GetStr
        | some .kString => AppendStringK E (MakeDefault E fuel) s it.GetStr
        | _ => some (false, s)
    | none => some (true, s)

/-- The member `Init` (lines 84-94).  The result of `MakeDefault()` is not read. -/
def Init (E : External) (fuel : Nat) (s : SQLInsertRow) (str_length : Int) :
    Option (Bool × SQLInsertRow) :=
  let row_size := E.CalTotalLength (str_length + s.default_string_length)
  match s.rb.SetBuffer E row_size with
  | none => some (false, s)
  | some rb =>
    match MakeDefault E fuel { s with rb := rb } with
    | some r => some (true, r.2)
    | none => none

/-- The member `AppendBool` as the caller sees it. -/
def AppendBool (E : External) (fuel : Nat) (s : SQLInsertRow) (val : Bool) :
    Option (Bool × SQLInsertRow) := AppendBoolK (MakeDefault E fuel) s val

/-- The member `AppendInt16` as the caller sees it. -/
def AppendInt16 (E : External) (fuel : Nat) (s : SQLInsertRow) (val : Int) :
    Option (Bool × SQLInsertRow) := AppendInt16K (MakeDefault E fuel) s val

/-- The member `AppendInt32` as the caller sees it. -/
def AppendInt32 (E : External) (fuel : Nat) (s : SQLInsertRow) (val : Int) :
    Option (Bool × SQLInsertRow) := AppendInt32K (MakeDefault E fuel) s val

/-- The member `AppendInt64` as the caller sees it. -/
def AppendInt64 (E : External) (fuel : Nat) (s : SQLInsertRow) (val : Int) :
    Option (Bool × SQLInsertRow) := AppendInt64K (MakeDefault E fuel) s val

/-- The member `AppendTimestamp` as the caller sees it. -/
def AppendTimestamp (E : External) (fuel : Nat) (s : SQLInsertRow) (val : Int) :
    Option (Bool × SQLInsertRow) := AppendTimestampK (MakeDefault E fuel) s val

/-- The member `AppendFloat` as the caller sees it. -/
def AppendFloat (E : External) (fuel : Nat) (s : SQLInsertRow) (val : Nat) :
    Option (Bool × SQLInsertRow) := AppendFloatK (MakeDefault E fuel) s val

/-- The member `AppendDouble` as the caller sees it. -/
def AppendDouble (E : External) (fuel : Nat) (s : SQLInsertRow) (val : Nat) :
    Option (Bool × SQLInsertRow) := AppendDoubleK (MakeDefault E fuel) s val

/-- The member `AppendString(const std::string&)` as the caller sees it. -/
def AppendString (E : External) (fuel : Nat) (s : SQLInsertRow) (val : String) :
    Option (Bool × SQLInsertRow) := AppendStringK E (MakeDefault E fuel) s val

/-- The member `AppendString(const char*, uint32_t)` as the caller sees it. -/
def AppendStringN (E : External) (fuel : Nat) (s : SQLInsertRow) (val : String)
    (length : Nat) : Option (Bool × SQLInsertRow) :=
  AppendStringNK E (MakeDefault E fuel) s val length

/-- The member `AppendDate(uint32_t, uint32_t, uint32_t)` as the caller sees it. -/
def AppendDateYMD (E : External) (fuel : Nat) (s : SQLInsertRow) (year month day : Nat) :
    Option (Bool × SQLInsertRow) := AppendDateYMDK (MakeDefault E fuel) s year month day

/-- The member `AppendDate(int32_t)` as the caller sees it. -/
def AppendDate (E : External) (fuel : Nat) (s : SQLInsertRow) (date : Int) :
    Option (Bool × SQLInsertRow) := AppendDateK (MakeDefault E fuel) s date

/-- The member `AppendNULL` as the caller sees it. -/
def AppendNULL (E : External) (fuel : Nat) (s : SQLInsertRow) :
    Option (Bool × SQLInsertRow) := AppendNULLK E (MakeDefault E fuel) s

end SQLInsertRow

/-! ## Calls, reachable states and the notions of the specification -/

/-- One call of the typed `Append*` family, with its operands. -/
inductive AppendCall where
  | AppendBool (val : Bool)
  | AppendInt16 (val : Int)
  | AppendInt32 (val : Int)
  | AppendInt64 (val : Int)
  | AppendTimestamp (val : Int)
  | AppendFloat (val : Nat)
  | AppendDouble (val : Nat)
  | AppendString (val : String)
  | AppendStringN (val : String) (length : Nat)
  | AppendDateYMD (year month day : Nat)
  | AppendDate (date : Int)
  | AppendNULL
  deriving DecidableEq, Repr

namespace AppendCall

/-- The call performed on the row `s`, with `k` run after a successful write. -/
def runK (E : External) (k : SQLInsertRow → Option (Bool × SQLInsertRow))
    (s : SQLInsertRow) : AppendCall → Option (Bool × SQLInsertRow)
  | AppendBool val => SQLInsertRow.AppendBoolK k s val
  | AppendInt16 val => SQLInsertRow.AppendInt16K k s val
  | AppendInt32 val => SQLInsertRow.AppendInt32K k s val
  | AppendInt64 val => SQLInsertRow.AppendInt64K k s val
  | AppendTimestamp val => SQLInsertRow.AppendTimestampK k s val
  | AppendFloat val => SQLInsertRow.AppendFloatK k s val
  | AppendDouble val => SQLInsertRow.AppendDoubleK k s val
  | AppendString val => SQLInsertRow.AppendStringK E k s val
  | AppendStringN val length => SQLInsertRow.AppendStringNK E k s val length
  | AppendDateYMD year month day => SQLInsertRow.AppendDateYMDK k s year month day
  | AppendDate date => SQLInsertRow.AppendDateK k s date
  | AppendNULL => SQLInsertRow.AppendNULLK E k s

/-- The call performed on the row `s` by the caller. -/
def run (E : External) (fuel : Nat) (s : SQLInsertRow) : AppendCall →
    Option (Bool × SQLInsertRow)
  | AppendBool val => SQLInsertRow.AppendBool E fuel s val
  | AppendInt16 val => SQLInsertRow.AppendInt16 E fuel s val
  | AppendInt32 val => SQLInsertRow.AppendInt32 E fuel s val
  | AppendInt64 val => SQLInsertRow.AppendInt64 E fuel s val
  | AppendTimestamp val => SQLInsertRow.AppendTimestamp E fuel s val
  | AppendFloat val => SQLInsertRow.AppendFloat E fuel s val
  | AppendDouble val => SQLInsertRow.AppendDouble E fuel s val
  | AppendString val => SQLInsertRow.AppendString E fuel s val
  | AppendStringN val length => SQLInsertRow.AppendStringN E fuel s val length
  | AppendDateYMD year month day => SQLInsertRow.AppendDateYMD E fuel s year month day
  | AppendDate date => SQLInsertRow.AppendDate E fuel s date
  | AppendNULL => SQLInsertRow.AppendNULL E fuel s

/-- The value that the call hands to the row buffer writer. -/
def value : AppendCall → Value
  | AppendBool val => .bool val
  | AppendInt16 val => .int16 val
  | AppendInt32 val => .int32 val
  | AppendInt64 val => .int64 val
  | AppendTimestamp val => .timestamp val
  | AppendFloat val => .float val
  | AppendDouble val => .double val
  | AppendString val => .string val
  | AppendStringN val length => .string (stringAt val length)
  | AppendDateYMD year month day => .dateYMD year month day
  | AppendDate date => .date date
  | AppendNULL => .null

/-- The string that the call passes to `PackDimension` at an indexed position, if it
passes one. -/
def dimString (E : External) : AppendCall → Option String
  | AppendBool val => some (if val then "true" else "false")
  | AppendInt16 val => some (toString val)
  | AppendInt32 val => some (toString val)
  | AppendInt64 val => some (toString val)
  | AppendTimestamp val => some (toString val)
  | AppendFloat _ => none
  | AppendDouble _ => none
  | AppendString val => some (if val = "" then E.EMPTY_STRING else val)
  | AppendStringN val length => some (if 0 = length then E.EMPTY_STRING else stringAt val length)
  | AppendDateYMD year month day => some (toString (packDate year month day))
  | AppendDate date => some (toString date)
  | AppendNULL => some E.NONETOKEN

/-- The value that the call passes to `PackTs`, if it calls it. -/
def tsValue : AppendCall → Option Nat
  | AppendInt64 val => some (toUInt64 val)
  | AppendTimestamp val => some (toUInt64 val)
  | _ => none

/-- The call returns before it touches anything: the field checks of
`AppendDate(year, month, day)` at an indexed position. -/
def returnsEarly (s : SQLInsertRow) : AppendCall → Bool
  | AppendDateYMD year month day =>
    s.IsDimension &&
      decide ((year < 1900 ∨ year > 9999) ∨ (month < 1 ∨ month > 12) ∨ (day < 1 ∨ day > 31))
  | _ => false

/-- The row as the call leaves it just before it calls the writer. -/
def prepare (E : External) (s : SQLInsertRow) (c : AppendCall) : SQLInsertRow :=
  let s1 :=
    match c.dimString E with
    | some str => if s.IsDimension then s.PackDimension str else s
    | none => s
  match c.tsValue with
  | some t => (s1.PackTs t).2
  | none => s1

end AppendCall

/-- The rows that a caller can hold: built by the constructor for the table `T` and then
driven through `Init`, the `Append*` family and `GetDimensions`, whatever they return. -/
inductive Reachable (E : External) (T : TableInfo) (dm : List (Nat × ConstNode))
    (dsl : Nat) : SQLInsertRow → Prop
  | ctor : Reachable E T dm dsl (SQLInsertRow.new E T dm dsl)
  | Init (s : SQLInsertRow) (fuel : Nat) (str_length : Int) (r : Bool × SQLInsertRow) :
      Reachable E T dm dsl s → SQLInsertRow.Init E fuel s str_length = some r →
      Reachable E T dm dsl r.2
  | Append (s : SQLInsertRow) (fuel : Nat) (c : AppendCall) (r : Bool × SQLInsertRow) :
      Reachable E T dm dsl s → c.run E fuel s = some r → Reachable E T dm dsl r.2
  | GetDimensions (s : SQLInsertRow) :
      Reachable E T dm dsl s → Reachable E T dm dsl (SQLInsertRow.GetDimensions s).2

/-- The dimension source held for position `p`; the empty string when there is none. -/
def SQLInsertRow.source (s : SQLInsertRow) (p : Nat) : String :=
  (StdMap.find s.raw_dimensions p).getD ""

/-- The packed date of §4.3, as the specification writes it:
`((year-1900)<<16) | ((month-1)<<8) | day`. -/
def specPackDate (year month day : Nat) : Nat :=
  ((year - 1900) <<< 16) ||| ((month - 1) <<< 8) ||| day

/-- The canonical string of an appended value, by the rules of §4.3 step 1 and §4.5;
floating point values have none. -/
def canonical (E : External) : Value → Option String
  | .null => some E.NONETOKEN
  | .bool v => some (if v then "true" else "false")
  | .int16 v => some (toString v)
  | .int32 v => some (toString v)
  | .int64 v => some (toString v)
  | .float _ => none
  | .double _ => none
  | .date v => some (toString v)
  | .dateYMD year month day => some (toString (specPackDate year month day))
  | .timestamp v => some (toString v)
  | .string v => some (if v = "" then E.EMPTY_STRING else v)

/-- Sample values for what the file takes from outside, used to evaluate the operations
on concrete rows. -/
def External.sample : External where
  NONETOKEN := "!N@U#L$L%"
  EMPTY_STRING := "!@#$%"
  CalTotalLength := fun n => n.toNat + 6
  SetBufferOk := fun size => decide (0 < size)

/-- The positions of the columns that the legacy path turns into index groups: the flag
`add_ts_idx` is set and the column is not a time column. -/
def legacyIndexColumns : List ColumnDesc → Nat → List Nat
  | [], _ => []
  | col :: rest, idx =>
    if !col.is_ts_col && col.add_ts_idx then idx :: legacyIndexColumns rest (idx + 1)
    else legacyIndexColumns rest (idx + 1)

/-- The positions of the columns whose flag `add_ts_idx` is set. -/
def flaggedIndexColumns : List ColumnDesc → Nat → List Nat
  | [], _ => []
  | col :: rest, idx =>
    if col.add_ts_idx then idx :: flaggedIndexColumns rest (idx + 1)
    else flaggedIndexColumns rest (idx + 1)

/-- Singleton groups with the ids `gid`, `gid + 1`, ... for the given positions. -/
def singletonGroups : List Nat → Nat → List (Nat × List Nat)
  | [], _ => []
  | p :: rest, gid => (gid, [p]) :: singletonGroups rest (gid + 1)

/-- The position of the first column called `name`, and 0 when no column is. -/
def columnPosition : List ColumnDesc → String → Nat
  | [], _ => 0
  | col :: rest, name =>
    if col.name = name then 0
    else if rest.any (fun c => decide (c.name = name)) then columnPosition rest name + 1
    else 0

/-- One group per definition that names at least one column, under the index of the
definition (from `idx` on), holding the positions of its column names in their order. -/
def definedGroups (cols : List ColumnDesc) : List ColumnKey → Nat → List (Nat × List Nat)
  | [], _ => []
  | key :: rest, idx =>
    if key.col_name = [] then definedGroups cols rest (idx + 1)
    else (idx, key.col_name.map (columnPosition cols)) :: definedGroups cols rest (idx + 1)

/-- One group per definition, whether it names a column or not, under the index of the
definition (from `idx` on), holding the positions of its column names in their order. -/
def groupPerDefinition (cols : List ColumnDesc) : List ColumnKey → Nat → List (Nat × List Nat)
  | [], _ => []
  | key :: rest, idx =>
    (idx, key.col_name.map (columnPosition cols)) :: groupPerDefinition cols rest (idx + 1)

/-- The two tables differ at most in the `add_ts_idx` flags of their columns. -/
def sameUpToIndexFlags (T T2 : TableInfo) : Prop :=
  T2.column_key = T.column_key ∧
  T2.column_desc_v1.map (fun c => (c.name, c.data_type, c.is_ts_col)) =
    T.column_desc_v1.map (fun c => (c.name, c.data_type, c.is_ts_col))

/-- The call that `MakeDefault` makes for the default entry `it` at a column of type `ty`
(`none` for a cursor without a column), if it makes one. -/
def defaultCall (it : ConstNode) (ty : Option DataType) : Option AppendCall :=
  if it.IsNull then some .AppendNULL
  else
    match ty with
    | some .kBool => some (.AppendBool (decide (it.GetInt ≠ 0)))
    | some .kSmallInt => some (.AppendInt16 it.GetSmallInt)
    | some .kInt => some (.AppendInt32 it.GetInt)
    | some .kBigInt => some (.AppendInt64 it.GetLong)
    | some .kFloat => some (.AppendFloat it.GetFloat)
    | some .kDouble => some (.AppendDouble it.GetDouble)
    | some .kDate => some (.AppendDate it.GetInt)
    | some .kTimestamp => some (.AppendTimestamp it.GetLong)
    | some .kVarchar => some (.AppendString it.GetStr)
    | some .kString => some (.AppendString it.GetStr)
    | _ => none

/-- What a caller can see of a call: the result, and the cursor, the dimension-source map
and the timestamp sequence of the row after it. -/
def observe (r : Option (Bool × SQLInsertRow)) :
    Option (Bool × Nat × List (Nat × String) × List Nat) :=
  r.map (fun x => (x.1, x.2.rb.GetAppendPos, x.2.raw_dimensions, x.2.ts))

/-- The row after a call, as far as the call returned; the given row otherwise. -/
def rowAfter (s : SQLInsertRow) (r : Option (Bool × SQLInsertRow)) : SQLInsertRow :=
  (r.map Prod.snd).getD s

/-- A table with the single varchar column `k`, a time column, indexed by the explicit
definition [k]. -/
def Sample.timeKeyTable : TableInfo :=
  { column_desc_v1 := [⟨"k", .kVarchar, true, false⟩], column_key := [⟨["k"]⟩] }

/-- The data type of the column at the cursor, as `MakeDefault` reads it. -/
def SQLInsertRow.cursorType (s : SQLInsertRow) : Option DataType :=
  (s.table_info.column_desc_v1[s.rb.GetAppendPos]?).map ColumnDesc.data_type

/-- The row after a write that the writer accepted, just before `MakeDefault` runs. -/
def AppendCall.written (E : External) (s : SQLInsertRow) (c : AppendCall) (rb : RowBuilder) :
    SQLInsertRow :=
  { c.prepare E s with rb := rb }

/-- The position `p` is a member of some index group of the row. -/
def SQLInsertRow.indexed (s : SQLInsertRow) (p : Nat) : Prop :=
  ∃ kv ∈ s.index_map, p ∈ kv.2

/-- What a row built for the table `T` keeps for its whole life: the shared context, the
index layout derived by the constructor, and a dimension-source map whose keys are the
positions that occur in some index group. -/
def RowInvariant (E : External) (T : TableInfo) (dm : List (Nat × ConstNode)) (dsl : Nat)
    (s : SQLInsertRow) : Prop :=
  s.table_info = T ∧ s.default_map = dm ∧ s.default_string_length = dsl ∧
  s.rb.schema = T.column_desc_v1 ∧
  s.index_map = (ctorBody E T).index_map ∧ s.ts_set = (ctorBody E T).ts_set ∧
  (∀ p, p ∈ StdMap.keys s.raw_dimensions ↔ s.indexed p)

/-- Every dimension source held by the row is a non-empty string. -/
def SourcesNonempty (s : SQLInsertRow) : Prop :=
  ∀ p v, StdMap.find s.raw_dimensions p = some v → v ≠ ""

/-- The dimension source of every written indexed position is the canonical string of
the value written there, where the value has one. -/
def SourcesCanonical (E : External) (s : SQLInsertRow) : Prop :=
  ∀ p v str, s.rb.buf[p]? = some v → s.indexed p → canonical E v = some str →
    StdMap.find s.raw_dimensions p = some str

/-- The canonical string of the value written at position `p`; the empty string when
nothing is written there or the value has no canonical string. -/
def SQLInsertRow.canonicalAt (E : External) (s : SQLInsertRow) (p : Nat) : String :=
  ((s.rb.buf[p]?).bind (canonical E)).getD ""

/-- A table with the columns colA (32-bit integer), colB and colC (strings) and the
explicit index definitions [colA, colB] and [colC]. -/
def Sample.twoGroupTable : TableInfo :=
  { column_desc_v1 :=
      [⟨"colA", .kInt, false, false⟩, ⟨"colB", .kVarchar, false, false⟩,
        ⟨"colC", .kString, false, false⟩]
    column_key := [⟨["colA", "colB"]⟩, ⟨["colC"]⟩] }

/-- The fresh row of `Sample.twoGroupTable`, without defaults. -/
def Sample.twoGroupRow0 : SQLInsertRow :=
  SQLInsertRow.new External.sample Sample.twoGroupTable [] 0

/-- The row after `AppendInt32(7)` at colA. -/
def Sample.twoGroupRow1 : SQLInsertRow :=
  rowAfter Sample.twoGroupRow0 (SQLInsertRow.AppendInt32 External.sample 1 Sample.twoGroupRow0 7)

/-- The row after `AppendNULL()` at colB. -/
def Sample.twoGroupRow2 : SQLInsertRow :=
  rowAfter Sample.twoGroupRow1 (SQLInsertRow.AppendNULL External.sample 1 Sample.twoGroupRow1)

/-- The row after `AppendString("x")` at colC. -/
def Sample.twoGroupRow3 : SQLInsertRow :=
  rowAfter Sample.twoGroupRow2
    (SQLInsertRow.AppendString External.sample 1 Sample.twoGroupRow2 "x")

/-- A table with the single 64-bit integer column `t` that carries both legacy flags,
`is_ts_col` and `add_ts_idx`, and no explicit index definition. -/
def Sample.legacyTimeTable : TableInfo :=
  { column_desc_v1 := [⟨"t", .kBigInt, true, true⟩], column_key := [] }

/-- A table with the 64-bit integer time column `t`, indexed by the explicit definition
[t], followed by a plain string column `s`. -/
def Sample.timeIndexTable : TableInfo :=
  { column_desc_v1 := [⟨"t", .kBigInt, true, false⟩, ⟨"s", .kVarchar, false, false⟩]
    column_key := [⟨["t"]⟩] }

/-- A table with the single date column `d`, indexed by the legacy flag. -/
def Sample.indexedDateTable : TableInfo :=
  { column_desc_v1 := [⟨"d", .kDate, false, true⟩], column_key := [] }

/-- A table with two 64-bit integer time columns, `t` and `u`, of which `t` is indexed by
the explicit definition [t]. -/
def Sample.twoTimeTable : TableInfo :=
  { column_desc_v1 := [⟨"t", .kBigInt, true, false⟩, ⟨"u", .kBigInt, true, false⟩]
    column_key := [⟨["t"]⟩] }

/-- A non-null default entry whose 64-bit value is `v`. -/
def Sample.longDefault (v : Int) : ConstNode :=
  { IsNull := false, GetInt := 0, GetSmallInt := 0, GetLong := v, GetFloat := 0,
    GetDouble := 0, GetStr := "" }

/-- A table of five columns, of which the caller supplies the first and the last. -/
def Sample.fiveColumnTable : TableInfo :=
  { column_desc_v1 :=
      [⟨"c1", .kInt, false, false⟩, ⟨"c2", .kBigInt, false, false⟩,
        ⟨"c3", .kVarchar, false, false⟩, ⟨"c4", .kBool, false, false⟩,
        ⟨"c5", .kString, false, false⟩]
    column_key := [] }

/-- Defaults for the three columns in the middle of `Sample.fiveColumnTable`: the 64-bit
value 9, null, and a boolean read from the integer 1. -/
def Sample.middleDefaults : List (Nat × ConstNode) :=
  [(1, Sample.longDefault 9),
    (2, { IsNull := true, GetInt := 0, GetSmallInt := 0, GetLong := 0, GetFloat := 0,
          GetDouble := 0, GetStr := "" }),
    (3, { IsNull := false, GetInt := 1, GetSmallInt := 0, GetLong := 0, GetFloat := 0,
          GetDouble := 0, GetStr := "" })]

/-- The fresh row of `Sample.fiveColumnTable` with `Sample.middleDefaults`. -/
def Sample.fiveColumnRow0 : SQLInsertRow :=
  SQLInsertRow.new External.sample Sample.fiveColumnTable Sample.middleDefaults 0

/-- The row after `Init(0)`. -/
def Sample.fiveColumnRow1 : SQLInsertRow :=
  rowAfter Sample.fiveColumnRow0 (SQLInsertRow.Init External.sample 6 Sample.fiveColumnRow0 0)

/-- The row after `AppendInt32(1)` at the first column. -/
def Sample.fiveColumnRow2 : SQLInsertRow :=
  rowAfter Sample.fiveColumnRow1
    ((AppendCall.AppendInt32 1).run External.sample 6 Sample.fiveColumnRow1)

/-- The members of `SQLInsertRows` that `NewRow` reads or writes.  The rows are held by
shared pointer, so `rows` shows each row as it currently is. -/
structure SQLInsertRows where
  table_info : TableInfo
  default_map : List (Nat × ConstNode)
  default_str_length : Nat
  rows : List SQLInsertRow
  deriving DecidableEq, Repr

/-- The constructor `SQLInsertRows::SQLInsertRows` (lines 30-37): no row yet. -/
def SQLInsertRows.new (table_info : TableInfo) (default_map : List (Nat × ConstNode))
    (default_str_length : Nat) : SQLInsertRows :=
  { table_info := table_info, default_map := default_map,
    default_str_length := default_str_length, rows := [] }

/-- The member `SQLInsertRows::NewRow` (lines 39-47): the row handed out, if any, and the
batch after the call.  `rows_.back()` is read only when `rows_` is not empty. -/
def SQLInsertRows.NewRow (E : External) (b : SQLInsertRows) :
    Option SQLInsertRow × SQLInsertRows :=
  match b.rows.getLast? with
  | some back =>
    if !back.IsComplete then (none, b)
    else
      let row := SQLInsertRow.new E b.table_info b.default_map b.default_str_length
      (some row, { b with rows := b.rows ++ [row] })
  | none =>
    let row := SQLInsertRow.new E b.table_info b.default_map b.default_str_length
    (some row, { b with rows := b.rows ++ [row] })

/-- A batch for `Sample.twoGroupTable` whose only row has one of its three columns
written. -/
def Sample.openBatch : SQLInsertRows :=
  { table_info := Sample.twoGroupTable, default_map := [], default_str_length := 0,
    rows := [Sample.twoGroupRow1] }

/-- A batch for `Sample.twoGroupTable` whose only row has all three columns written. -/
def Sample.closedBatch : SQLInsertRows :=
  { table_info := Sample.twoGroupTable, default_map := [], default_str_length := 0,
    rows := [Sample.twoGroupRow3] }

/-- A table whose single column `b` has a type without an append path. -/
def Sample.unsupportedTable : TableInfo :=
  { column_desc_v1 := [⟨"b", .kOther, false, false⟩], column_key := [] }

/-- A table with an integer column `a` followed by a column `b` of a type without an
append path. -/
def Sample.unsupportedSecondTable : TableInfo :=
  { column_desc_v1 := [⟨"a", .kInt, false, false⟩, ⟨"b", .kOther, false, false⟩]
    column_key := [] }

/-- The fields are inside the ranges that `AppendDate(year, month, day)` checks. -/
def dateInRange (year month day : Nat) : Prop :=
  1900 ≤ year ∧ year ≤ 9999 ∧ 1 ≤ month ∧ month ≤ 12 ∧ 1 ≤ day ∧ day ≤ 31

/-- The row `s2` is what the row `s1` has become after some sequence of `Init`, calls of
the `Append*` family and `GetDimensions`, whatever they returned. -/
inductive Steps (E : External) : SQLInsertRow → SQLInsertRow → Prop
  | refl (s : SQLInsertRow) : Steps E s s
  | Init (s1 s : SQLInsertRow) (fuel : Nat) (str_length : Int) (r : Bool × SQLInsertRow) :
      Steps E s1 s → SQLInsertRow.Init E fuel s str_length = some r → Steps E s1 r.2
  | Append (s1 s : SQLInsertRow) (fuel : Nat) (c : AppendCall) (r : Bool × SQLInsertRow) :
      Steps E s1 s → c.run E fuel s = some r → Steps E s1 r.2
  | GetDimensions (s1 s : SQLInsertRow) :
      Steps E s1 s → Steps E s1 (SQLInsertRow.GetDimensions s).2

/-- The row `Sample.twoGroupRow1` after a first call of `GetDimensions`. -/
def Sample.memoRow1 : SQLInsertRow := (SQLInsertRow.GetDimensions Sample.twoGroupRow1).2

/-- The row after the further `AppendNULL()` at colB. -/
def Sample.memoRow2 : SQLInsertRow :=
  rowAfter Sample.memoRow1 (AppendCall.AppendNULL.run External.sample 1 Sample.memoRow1)

/-- The row after the further `AppendString("x")` at colC. -/
def Sample.memoRow3 : SQLInsertRow :=
  rowAfter Sample.memoRow2
    ((AppendCall.AppendString "x").run External.sample 1 Sample.memoRow2)

/-- A table without columns whose explicit index definition names the column `x`. -/
def Sample.noColumnTable : TableInfo :=
  { column_desc_v1 := [], column_key := [⟨["x"]⟩] }

/-- A table with the columns `a` and `b` whose explicit index definition names `b` and the
undeclared column `x`. -/
def Sample.undeclaredKeyTable : TableInfo :=
  { column_desc_v1 := [⟨"a", .kInt, false, false⟩, ⟨"b", .kVarchar, false, false⟩]
    column_key := [⟨["b", "x"]⟩] }

/-- The row `Sample.fiveColumnRow1` with its first column written and the default chain
not yet run: the cursor is at 1. -/
def Sample.fiveColumnFirstWritten : SQLInsertRow :=
  { Sample.fiveColumnRow1 with
    rb := { schema := Sample.fiveColumnTable.column_desc_v1, buf := [Value.int32 1] } }

/-- The timestamps that the call itself passes on to the timestamp sequence: the operand
of `AppendInt64`/`AppendTimestamp` when the cursor is at a time column, nothing
otherwise. -/
def AppendCall.ownTimestamps (s : SQLInsertRow) (c : AppendCall) : List Nat :=
  match c.tsValue with
  | some t => if s.rb.GetAppendPos ∈ s.ts_set then [t] else []
  | none => []

/-- Every entry of the Default Value Table that sits at a time column is null. -/
def noTimeDefaults (dm : List (Nat × ConstNode)) (ts_set : List Nat) : Bool :=
  dm.all (fun kv => kv.2.IsNull || !(decide (kv.1 ∈ ts_set)))

/-- A table with the plain 64-bit integer column `a` followed by the 64-bit integer time
column `u`. -/
def Sample.timeSecondTable : TableInfo :=
  { column_desc_v1 := [⟨"a", .kBigInt, false, false⟩, ⟨"u", .kBigInt, true, false⟩]
    column_key := [] }

/-- A table with the 64-bit integer time column `t` followed by the plain string column
`s`. -/
def Sample.timeFirstTable : TableInfo :=
  { column_desc_v1 := [⟨"t", .kBigInt, true, false⟩, ⟨"s", .kVarchar, false, false⟩]
    column_key := [] }

end rtidb

namespace rtidb

/-! ## Facts about ordered maps -/

theorem StdMap.find_assign_self {α : Type} (m : List (Nat × α)) (k : Nat) (v : α) :
    StdMap.find (StdMap.assign m k v) k = some v := by
  induction m with
  | nil => simp [StdMap.assign, StdMap.find]
  | cons hd tl ih =>
    obtain ⟨k1, v1⟩ := hd
    unfold StdMap.assign
    by_cases h1 : k < k1
    · simp [h1, StdMap.find]
    · by_cases h2 : k = k1
      · simp [h2, StdMap.find]
      · simp [h1, h2, StdMap.find, ih]

theorem StdMap.find_assign_ne {α : Type} (m : List (Nat × α)) (k p : Nat) (v : α)
    (h : p ≠ k) : StdMap.find (StdMap.assign m k v) p = StdMap.find m p := by
  induction m with
  | nil => simp [StdMap.assign, StdMap.find, h]
  | cons hd tl ih =>
    obtain ⟨k1, v1⟩ := hd
    unfold StdMap.assign
    by_cases h1 : k < k1
    · simp [h1, StdMap.find, h]
    · by_cases h2 : k = k1
      · subst h2
        simp [StdMap.find, h]
      · simp [h1, h2, StdMap.find, ih]

theorem StdMap.mem_keys_assign {α : Type} (m : List (Nat × α)) (k p : Nat) (v : α) :
    p ∈ StdMap.keys (StdMap.assign m k v) ↔ p = k ∨ p ∈ StdMap.keys m := by
  induction m with
  | nil => simp [StdMap.assign, StdMap.keys]
  | cons hd tl ih =>
    obtain ⟨k1, v1⟩ := hd
    unfold StdMap.assign
    by_cases h1 : k < k1
    · simp [h1, StdMap.keys]
    · by_cases h2 : k = k1
      · subst h2
        simp [StdMap.keys]
      · simp only [h1, h2, if_false, StdMap.keys, List.map_cons, List.mem_cons] at ih ⊢
        rw [ih]
        tauto

theorem StdMap.find_isSome_iff {α : Type} (m : List (Nat × α)) (k : Nat) :
    (StdMap.find m k).isSome = true ↔ k ∈ StdMap.keys m := by
  induction m with
  | nil => simp [StdMap.find, StdMap.keys]
  | cons hd tl ih =>
    obtain ⟨k1, v1⟩ := hd
    by_cases h : k = k1
    · simp [StdMap.find, StdMap.keys, h]
    · simp only [StdMap.find, h, if_false, StdMap.keys, List.map_cons, List.mem_cons,
        false_or] at ih ⊢
      exact ih

theorem StdMap.find_mem {α : Type} (m : List (Nat × α)) (k : Nat) (v : α)
    (h : StdMap.find m k = some v) : (k, v) ∈ m := by
  induction m with
  | nil => simp [StdMap.find] at h
  | cons hd tl ih =>
    obtain ⟨k1, v1⟩ := hd
    by_cases h1 : k = k1
    · simp [StdMap.find, h1] at h
      simp [h1, h]
    · simp only [StdMap.find, h1, if_false] at h
      exact List.mem_cons_of_mem _ (ih h)

theorem StdMap.find_none_of_lt {α : Type} (m : List (Nat × α)) (k : Nat)
    (h : ∀ kv ∈ m, kv.1 < k) : StdMap.find m k = none := by
  induction m with
  | nil => rfl
  | cons hd tl ih =>
    obtain ⟨k1, v1⟩ := hd
    have h1 : k1 < k := h (k1, v1) (List.mem_cons_self _ _)
    have h2 : k ≠ k1 := by omega
    simp only [StdMap.find, h2, if_false]
    exact ih (fun kv hkv => h kv (List.mem_cons_of_mem _ hkv))

theorem StdMap.assign_of_lt {α : Type} (m : List (Nat × α)) (k : Nat) (v : α)
    (h : ∀ kv ∈ m, kv.1 < k) : StdMap.assign m k v = m ++ [(k, v)] := by
  induction m with
  | nil => rfl
  | cons hd tl ih =>
    obtain ⟨k1, v1⟩ := hd
    have h1 : k1 < k := h (k1, v1) (List.mem_cons_self _ _)
    have h2 : ¬ k < k1 := by omega
    have h3 : k ≠ k1 := by omega
    simp only [StdMap.assign, h2, h3, if_false, List.cons_append]
    rw [ih (fun kv hkv => h kv (List.mem_cons_of_mem _ hkv))]

theorem StdMap.find_last {α : Type} (m : List (Nat × α)) (k : Nat) (v : α)
    (h : ∀ kv ∈ m, kv.1 < k) : StdMap.find (m ++ [(k, v)]) k = some v := by
  induction m with
  | nil => simp [StdMap.find]
  | cons hd tl ih =>
    obtain ⟨k1, v1⟩ := hd
    have h1 : k1 < k := h (k1, v1) (List.mem_cons_self _ _)
    have h3 : k ≠ k1 := by omega
    simp only [List.cons_append, StdMap.find, h3, if_false]
    exact ih (fun kv hkv => h kv (List.mem_cons_of_mem _ hkv))

theorem StdMap.assign_last {α : Type} (m : List (Nat × α)) (k : Nat) (v w : α)
    (h : ∀ kv ∈ m, kv.1 < k) : StdMap.assign (m ++ [(k, v)]) k w = m ++ [(k, w)] := by
  induction m with
  | nil => simp [StdMap.assign]
  | cons hd tl ih =>
    obtain ⟨k1, v1⟩ := hd
    have h1 : k1 < k := h (k1, v1) (List.mem_cons_self _ _)
    have h2 : ¬ k < k1 := by omega
    have h3 : k ≠ k1 := by omega
    have ih1 := ih (fun kv hkv => h kv (List.mem_cons_of_mem _ hkv))
    show StdMap.assign ((k1, v1) :: (tl ++ [(k, v)])) k w = (k1, v1) :: (tl ++ [(k, w)])
    simp only [StdMap.assign, h2, h3, if_false, ih1]

theorem StdMap.push_back_fresh (m : List (Nat × List Nat)) (k x : Nat)
    (h : ∀ kv ∈ m, kv.1 < k) : StdMap.push_back m k x = m ++ [(k, [x])] := by
  simp [StdMap.push_back, StdMap.find_none_of_lt m k h, StdMap.assign_of_lt m k _ h]

theorem StdMap.push_back_last (m : List (Nat × List Nat)) (k x : Nat) (ps : List Nat)
    (h : ∀ kv ∈ m, kv.1 < k) :
    StdMap.push_back (m ++ [(k, ps)]) k x = m ++ [(k, ps ++ [x])] := by
  simp [StdMap.push_back, StdMap.find_last m k ps h, StdMap.assign_last m k _ _ h]

end rtidb

namespace rtidb

/-! ## The constructor -/

theorem ctorColumns_index_map (E : External) (cols : List ColumnDesc) :
    ∀ (idx : Nat) (st : CtorState), (∀ kv ∈ st.index_map, kv.1 < st.index_cnt) →
      (ctorColumns E cols idx st).index_map =
        st.index_map ++ singletonGroups (legacyIndexColumns cols idx) st.index_cnt := by
  induction cols with
  | nil => intro idx st _; simp [ctorColumns, legacyIndexColumns, singletonGroups]
  | cons col rest ih =>
    intro idx st hst
    unfold ctorColumns legacyIndexColumns
    by_cases hts : col.is_ts_col = true
    · have hstep : ∀ kv ∈ (ctorColumn E st idx col).index_map,
          kv.1 < (ctorColumn E st idx col).index_cnt := by
        simpa [ctorColumn, hts] using hst
      rw [ih (idx + 1) _ hstep]
      simp [ctorColumn, hts]
    · by_cases hidx : col.add_ts_idx = true
      · have hmap : (ctorColumn E st idx col).index_map = st.index_map ++ [(st.index_cnt, [idx])] := by
          simp [ctorColumn, hts, hidx, StdMap.push_back_fresh _ _ _ hst]
        have hcnt : (ctorColumn E st idx col).index_cnt = st.index_cnt + 1 := by
          simp [ctorColumn, hts, hidx]
        have hstep : ∀ kv ∈ (ctorColumn E st idx col).index_map,
            kv.1 < (ctorColumn E st idx col).index_cnt := by
          rw [hmap, hcnt]
          intro kv hkv
          rcases List.mem_append.1 hkv with h | h
          · exact Nat.lt_succ_of_lt (hst kv h)
          · simp at h; subst h; simp
        rw [ih (idx + 1) _ hstep, hmap, hcnt]
        simp [hts, hidx, singletonGroups]
      · have hstep : ∀ kv ∈ (ctorColumn E st idx col).index_map,
            kv.1 < (ctorColumn E st idx col).index_cnt := by
          simpa [ctorColumn, hts, hidx] using hst
        rw [ih (idx + 1) _ hstep]
        simp [ctorColumn, hts, hidx]

theorem nameMap_lookup_insert (m : List (String × Nat)) (name n : String) (idx : Nat) :
    (nameMapInsert m n idx).lookup name =
      match m.lookup name with
      | some p => some p
      | none => if name = n then some idx else none := by
  unfold nameMapInsert
  by_cases hn : (m.lookup n).isSome = true
  · simp only [hn, if_true]
    cases hl : m.lookup name with
    | some p => rfl
    | none =>
      by_cases hnn : name = n
      · subst hnn; simp [hl] at hn
      · simp [hnn]
  · simp only [hn, if_false]
    induction m with
    | nil =>
      by_cases hnn : name = n
      · simp [List.lookup, hnn]
      · have : (name == n) = false := by simpa using hnn
        simp [List.lookup, hnn, this]
    | cons hd tl ih =>
      obtain ⟨a, b⟩ := hd
      by_cases ha : name = a
      · subst ha; simp [List.lookup]
      · have hb : (name == a) = false := by simpa using ha
        have hn2 : ¬ (List.lookup n tl).isSome = true := by
          intro hc
          apply hn
          by_cases hna : n = a
          · subst hna; simp [List.lookup]
          · have : (n == a) = false := by simpa using hna
            simp [List.lookup, this, hc]
        simp only [List.cons_append, List.lookup, hb]
        exact ih hn2

theorem ctorColumn_name_map (E : External) (st : CtorState) (idx : Nat) (col : ColumnDesc) :
    (ctorColumn E st idx col).column_name_map = nameMapInsert st.column_name_map col.name idx := by
  unfold ctorColumn
  by_cases hts : col.is_ts_col = true
  · simp [hts]
  · by_cases hidx : col.add_ts_idx = true <;> simp [hts, hidx]

theorem ctorColumns_lookup (E : External) (cols : List ColumnDesc) (name : String) :
    ∀ (idx : Nat) (st : CtorState),
      (ctorColumns E cols idx st).column_name_map.lookup name =
        match st.column_name_map.lookup name with
        | some p => some p
        | none =>
          if cols.any (fun c => decide (c.name = name)) then
            some (idx + columnPosition cols name)
          else none := by
  induction cols with
  | nil =>
    intro idx st
    cases h : st.column_name_map.lookup name <;> simp [ctorColumns, h]
  | cons col rest ih =>
    intro idx st
    unfold ctorColumns
    rw [ih (idx + 1), ctorColumn_name_map, nameMap_lookup_insert]
    cases h : st.column_name_map.lookup name with
    | some p => simp
    | none =>
      by_cases hc : name = col.name
      · simp [hc, columnPosition]
      · have hc2 : ¬ col.name = name := fun h => hc h.symm
        by_cases hr : rest.any (fun c => decide (c.name = name)) = true
        · simp only [hc, if_false, hr, if_true, columnPosition, hc2, List.any_cons,
            decide_False, Bool.false_or]
          congr 1
          omega
        · simp only [hc, if_false, hr, columnPosition, hc2, List.any_cons,
            decide_False, Bool.false_or]
          simp

end rtidb

namespace rtidb

theorem nameMapAt_ctorColumns (E : External) (cols : List ColumnDesc) (name : String)
    (st : CtorState) (hst : st.column_name_map = []) :
    nameMapAt (ctorColumns E cols 0 st).column_name_map name = columnPosition cols name := by
  unfold nameMapAt
  rw [ctorColumns_lookup, hst]
  by_cases h : cols.any (fun c => decide (c.name = name)) = true
  · simp [List.lookup, h]
  · simp only [List.lookup, h]
    cases cols with
    | nil => simp [columnPosition]
    | cons col rest =>
      simp only [List.any_cons, Bool.or_eq_true, decide_eq_true_eq, not_or] at h
      simp [columnPosition, h.1, h.2]

theorem ctorColumns_ts_set (E : External) (cols : List ColumnDesc) (p : Nat) :
    ∀ (idx : Nat) (st : CtorState),
      p ∈ (ctorColumns E cols idx st).ts_set ↔
        p ∈ st.ts_set ∨ (idx ≤ p ∧ ∃ c, cols[p - idx]? = some c ∧ c.is_ts_col = true) := by
  induction cols with
  | nil => intro idx st; simp [ctorColumns]
  | cons col rest ih =>
    intro idx st
    unfold ctorColumns
    rw [ih (idx + 1)]
    have hset : p ∈ (ctorColumn E st idx col).ts_set ↔
        p ∈ st.ts_set ∨ (p = idx ∧ col.is_ts_col = true) := by
      unfold ctorColumn tsSetInsert
      by_cases hts : col.is_ts_col = true
      · by_cases hmem : idx ∈ st.ts_set
        · simp only [hts, if_true, hmem]
          constructor
          · intro h; exact Or.inl h
          · rintro (h | ⟨h, _⟩)
            · exact h
            · subst h; exact hmem
        · simp [hts, hmem]
      · by_cases hidx : col.add_ts_idx = true <;> simp [hts, hidx]
    rw [hset]
    constructor
    · rintro ((h | ⟨h, hts⟩) | ⟨hle, c, hc, hcts⟩)
      · exact Or.inl h
      · subst h
        exact Or.inr ⟨le_refl _, col, by simp, hts⟩
      · refine Or.inr ⟨by omega, c, ?_, hcts⟩
        have : p - idx = (p - (idx + 1)) + 1 := by omega
        rw [this]
        simpa using hc
    · rintro (h | ⟨hle, c, hc, hcts⟩)
      · exact Or.inl (Or.inl h)
      · by_cases hp : p = idx
        · subst hp
          simp at hc
          subst hc
          exact Or.inl (Or.inr ⟨rfl, hcts⟩)
        · refine Or.inr ⟨by omega, c, ?_, hcts⟩
          have : p - idx = (p - (idx + 1)) + 1 := by omega
          rw [this] at hc
          simpa using hc

theorem ctorColumns_raw (E : External) (cols : List ColumnDesc) :
    ∀ (idx : Nat) (st : CtorState), (∀ kv ∈ st.raw_dimensions, kv.1 < idx) →
      (ctorColumns E cols idx st).raw_dimensions =
        st.raw_dimensions ++ (legacyIndexColumns cols idx).map (fun p => (p, E.NONETOKEN)) := by
  induction cols with
  | nil => intro idx st _; simp [ctorColumns, legacyIndexColumns]
  | cons col rest ih =>
    intro idx st hst
    unfold ctorColumns legacyIndexColumns
    by_cases hts : col.is_ts_col = true
    · have hraw : (ctorColumn E st idx col).raw_dimensions = st.raw_dimensions := by
        simp [ctorColumn, hts]
      rw [ih (idx + 1) _ (by rw [hraw]; intro kv hkv; exact Nat.lt_succ_of_lt (hst kv hkv)), hraw]
      simp [hts]
    · by_cases hidx : col.add_ts_idx = true
      · have hraw : (ctorColumn E st idx col).raw_dimensions =
            st.raw_dimensions ++ [(idx, E.NONETOKEN)] := by
          simp [ctorColumn, hts, hidx, StdMap.assign_of_lt _ _ _ hst]
        rw [ih (idx + 1) _ (by
          rw [hraw]
          intro kv hkv
          rcases List.mem_append.1 hkv with h | h
          · exact Nat.lt_succ_of_lt (hst kv h)
          · simp at h; subst h; simp), hraw]
        simp [hts, hidx]
      · have hraw : (ctorColumn E st idx col).raw_dimensions = st.raw_dimensions := by
          simp [ctorColumn, hts, hidx]
        rw [ih (idx + 1) _ (by rw [hraw]; intro kv hkv; exact Nat.lt_succ_of_lt (hst kv hkv)), hraw]
        simp [hts, hidx]

theorem ctorKeyColumns_eq (E : External) (idx : Nat) (names : List String) :
    ∀ st : CtorState, ctorKeyColumns E idx names st =
      { st with
        index_map := List.foldl (fun m p => StdMap.push_back m idx p) st.index_map
          (names.map (nameMapAt st.column_name_map))
        raw_dimensions := List.foldl (fun r p => StdMap.assign r p E.NONETOKEN)
          st.raw_dimensions (names.map (nameMapAt st.column_name_map)) } := by
  induction names with
  | nil => intro st; simp [ctorKeyColumns]
  | cons n rest ih =>
    intro st
    unfold ctorKeyColumns
    rw [ih]
    simp

theorem foldl_push_back_last (idx : Nat) (qs : List Nat) :
    ∀ (m : List (Nat × List Nat)) (ps : List Nat), (∀ kv ∈ m, kv.1 < idx) →
      List.foldl (fun m p => StdMap.push_back m idx p) (m ++ [(idx, ps)]) qs =
        m ++ [(idx, ps ++ qs)] := by
  induction qs with
  | nil => intro m ps _; simp
  | cons q rest ih =>
    intro m ps hm
    simp only [List.foldl_cons]
    rw [StdMap.push_back_last m idx q ps hm, ih m _ hm]
    simp

theorem foldl_push_back_fresh (idx : Nat) (q : Nat) (qs : List Nat)
    (m : List (Nat × List Nat)) (hm : ∀ kv ∈ m, kv.1 < idx) :
    List.foldl (fun m p => StdMap.push_back m idx p) m (q :: qs) = m ++ [(idx, q :: qs)] := by
  simp only [List.foldl_cons]
  rw [StdMap.push_back_fresh m idx q hm, foldl_push_back_last idx qs m [q] hm]
  simp

theorem ctorKeys_fields (E : External) (keys : List ColumnKey) :
    ∀ (idx : Nat) (st : CtorState),
      (ctorKeys E keys idx st).column_name_map = st.column_name_map ∧
      (ctorKeys E keys idx st).ts_set = st.ts_set ∧
      (ctorKeys E keys idx st).raw_dimensions =
        List.foldl (fun r p => StdMap.assign r p E.NONETOKEN) st.raw_dimensions
          ((keys.map (fun key => key.col_name.map (nameMapAt st.column_name_map))).flatten) := by
  induction keys with
  | nil => intro idx st; simp [ctorKeys]
  | cons key rest ih =>
    intro idx st
    unfold ctorKeys
    obtain ⟨h1, h2, h3⟩ := ih (idx + 1) (ctorKeyColumns E idx key.col_name st)
    rw [h1, h2, h3, ctorKeyColumns_eq]
    simp

theorem ctorKeys_index_map (E : External) (cols : List ColumnDesc) (keys : List ColumnKey) :
    ∀ (idx : Nat) (st : CtorState), (∀ kv ∈ st.index_map, kv.1 < idx) →
      (∀ n, nameMapAt st.column_name_map n = columnPosition cols n) →
      (ctorKeys E keys idx st).index_map = st.index_map ++ definedGroups cols keys idx := by
  induction keys with
  | nil => intro idx st _ _; simp [ctorKeys, definedGroups]
  | cons key rest ih =>
    intro idx st hst hf
    unfold ctorKeys definedGroups
    have hfun : (nameMapAt st.column_name_map) = columnPosition cols := funext hf
    cases hn : key.col_name with
    | nil =>
      have hstep : ctorKeyColumns E idx [] st = st := rfl
      rw [hstep, ih (idx + 1) st (fun kv hkv => Nat.lt_succ_of_lt (hst kv hkv)) hf]
      simp
    | cons n ns =>
      have hmap : (ctorKeyColumns E idx (n :: ns) st).index_map =
          st.index_map ++ [(idx, (n :: ns).map (columnPosition cols))] := by
        rw [ctorKeyColumns_eq]
        simp only [List.map_cons, hfun]
        exact foldl_push_back_fresh idx _ _ st.index_map hst
      have hcnm : (ctorKeyColumns E idx (n :: ns) st).column_name_map = st.column_name_map := by
        rw [ctorKeyColumns_eq]
      rw [ih (idx + 1) _ (by
        rw [hmap]
        intro kv hkv
        rcases List.mem_append.1 hkv with h | h
        · exact Nat.lt_succ_of_lt (hst kv h)
        · simp at h; subst h; simp) (by rw [hcnm]; exact hf), hmap]
      simp

end rtidb

namespace rtidb

theorem ctorBody_cnm (E : External) (T : TableInfo) (name : String) :
    nameMapAt (ctorColumns E T.column_desc_v1 0
      { index_cnt := 0, ts_set := [], index_map := [], raw_dimensions := [],
        column_name_map := [] }).column_name_map name =
      columnPosition T.column_desc_v1 name :=
  nameMapAt_ctorColumns E T.column_desc_v1 name _ rfl

theorem ctorBody_legacy (E : External) (T : TableInfo) (h : T.column_key = []) :
    (ctorBody E T).index_map = singletonGroups (legacyIndexColumns T.column_desc_v1 0) 0 ∧
    (ctorBody E T).raw_dimensions =
      (legacyIndexColumns T.column_desc_v1 0).map (fun p => (p, E.NONETOKEN)) := by
  unfold ctorBody
  simp only [h, List.length_nil, gt_iff_lt, lt_self_iff_false, if_false]
  constructor
  · rw [ctorColumns_index_map E _ 0 _ (by simp)]
    simp
  · rw [ctorColumns_raw E _ 0 _ (by simp)]
    simp

theorem ctorBody_modern (E : External) (T : TableInfo) (h : T.column_key ≠ []) :
    (ctorBody E T).index_map = definedGroups T.column_desc_v1 T.column_key 0 ∧
    (ctorBody E T).raw_dimensions =
      List.foldl (fun r p => StdMap.assign r p E.NONETOKEN) []
        ((T.column_key.map
          (fun key => key.col_name.map (columnPosition T.column_desc_v1))).flatten) := by
  unfold ctorBody
  have hlen : T.column_key.length > 0 := List.length_pos.2 h
  simp only [hlen, if_true]
  have hf := ctorBody_cnm E T
  have hfun : nameMapAt (ctorColumns E T.column_desc_v1 0
      { index_cnt := 0, ts_set := [], index_map := [], raw_dimensions := [],
        column_name_map := [] }).column_name_map = columnPosition T.column_desc_v1 :=
    funext hf
  constructor
  · have h1 := ctorKeys_index_map E T.column_desc_v1 T.column_key 0
      { (ctorColumns E T.column_desc_v1 0
          { index_cnt := 0, ts_set := [], index_map := [], raw_dimensions := [],
            column_name_map := [] }) with index_map := [], raw_dimensions := [] }
      (by simp) hf
    simpa using h1
  · have h2 := (ctorKeys_fields E T.column_key 0
      { (ctorColumns E T.column_desc_v1 0
          { index_cnt := 0, ts_set := [], index_map := [], raw_dimensions := [],
            column_name_map := [] }) with index_map := [], raw_dimensions := [] }).2.2
    rw [h2]
    simp only [hfun]

theorem ctorBody_ts_set (E : External) (T : TableInfo) (p : Nat) :
    p ∈ (ctorBody E T).ts_set ↔
      ∃ c, T.column_desc_v1[p]? = some c ∧ c.is_ts_col = true := by
  have hcols := ctorColumns_ts_set E T.column_desc_v1 p 0
    { index_cnt := 0, ts_set := [], index_map := [], raw_dimensions := [],
      column_name_map := [] }
  unfold ctorBody
  by_cases h : T.column_key.length > 0
  · simp only [h, if_true]
    have h2 := (ctorKeys_fields E T.column_key 0
      { (ctorColumns E T.column_desc_v1 0
          { index_cnt := 0, ts_set := [], index_map := [], raw_dimensions := [],
            column_name_map := [] }) with index_map := [], raw_dimensions := [] }).2.1
    rw [h2]
    simpa using hcols
  · simp only [h, if_false]
    simpa using hcols

theorem columnPosition_congr (cols cols2 : List ColumnDesc)
    (h : cols.map ColumnDesc.name = cols2.map ColumnDesc.name) (name : String) :
    columnPosition cols name = columnPosition cols2 name := by
  induction cols generalizing cols2 with
  | nil =>
    cases cols2 with
    | nil => rfl
    | cons c2 r2 => simp at h
  | cons c r ih =>
    cases cols2 with
    | nil => simp at h
    | cons c2 r2 =>
      simp only [List.map_cons, List.cons.injEq] at h
      have hany : r.any (fun c => decide (c.name = name)) =
          r2.any (fun c => decide (c.name = name)) := by
        have h1 : ∀ l : List ColumnDesc, l.any (fun c => decide (c.name = name)) =
            (l.map ColumnDesc.name).any (fun n => decide (n = name)) := by
          intro l
          induction l with
          | nil => rfl
          | cons a l iha => simp [List.any_cons, iha]
        rw [h1 r, h1 r2, h.2]
      simp only [columnPosition, h.1, hany, ih r2 h.2]

theorem columnPosition_declared (cols : List ColumnDesc) (name : String)
    (h : ∃ c ∈ cols, c.name = name) :
    ∃ c, cols[columnPosition cols name]? = some c ∧ c.name = name ∧
      ∀ q c2, q < columnPosition cols name → cols[q]? = some c2 → c2.name ≠ name := by
  induction cols with
  | nil => simp at h
  | cons col rest ih =>
    by_cases hc : col.name = name
    · refine ⟨col, by simp [columnPosition, hc], hc, ?_⟩
      intro q c2 hq
      simp [columnPosition, hc] at hq
    · have hrest : ∃ c ∈ rest, c.name = name := by
        obtain ⟨c, hmem, hcn⟩ := h
        rcases List.mem_cons.1 hmem with h1 | h1
        · subst h1; exact absurd hcn hc
        · exact ⟨c, h1, hcn⟩
      have hany : rest.any (fun c => decide (c.name = name)) = true := by
        simpa using hrest
      obtain ⟨c, hget, hcn, hfirst⟩ := ih hrest
      refine ⟨c, by simpa [columnPosition, hc, hany] using hget, hcn, ?_⟩
      intro q c2 hq hq2
      simp only [columnPosition, hc, hany, if_false, if_true] at hq
      cases q with
      | zero =>
        simp at hq2
        subst hq2
        exact hc
      | succ q1 =>
        simp at hq2
        exact hfirst q1 c2 (by omega) (by simpa using hq2)

theorem legacyIndexColumns_mem (cols : List ColumnDesc) (p : Nat) :
    ∀ idx : Nat, p ∈ legacyIndexColumns cols idx ↔
      idx ≤ p ∧ ∃ c, cols[p - idx]? = some c ∧ c.add_ts_idx = true ∧
        c.is_ts_col = false := by
  induction cols with
  | nil => intro idx; simp [legacyIndexColumns]
  | cons col rest ih =>
    intro idx
    have hstep : ∀ q, idx + 1 ≤ q → (col :: rest)[q - idx]? = rest[q - (idx + 1)]? := by
      intro q hq
      have : q - idx = (q - (idx + 1)) + 1 := by omega
      rw [this]
      simp
    have hhere : p ∈ legacyIndexColumns (col :: rest) idx ↔
        (p = idx ∧ col.add_ts_idx = true ∧ col.is_ts_col = false) ∨
          p ∈ legacyIndexColumns rest (idx + 1) := by
      rw [legacyIndexColumns]
      by_cases hts : col.is_ts_col = true
      · simp [hts]
      · by_cases hidx : col.add_ts_idx = true
        · simp [hts, hidx]
        · simp [hts, hidx]
    rw [hhere, ih (idx + 1)]
    constructor
    · rintro (⟨hp, h1, h2⟩ | ⟨hle, c, hc, h1, h2⟩)
      · subst hp
        exact ⟨le_refl _, col, by simp, h1, h2⟩
      · exact ⟨by omega, c, by rw [hstep p hle]; exact hc, h1, h2⟩
    · rintro ⟨hle, c, hc, h1, h2⟩
      by_cases hp : p = idx
      · subst hp
        simp at hc
        subst hc
        exact Or.inl ⟨rfl, h1, h2⟩
      · have hle2 : idx + 1 ≤ p := by omega
        exact Or.inr ⟨hle2, c, by rw [← hstep p hle2]; exact hc, h1, h2⟩

theorem legacyIndexColumns_sorted (cols : List ColumnDesc) :
    ∀ idx : Nat, (legacyIndexColumns cols idx).Pairwise (· < ·) := by
  induction cols with
  | nil => intro idx; simp [legacyIndexColumns]
  | cons col rest ih =>
    intro idx
    rw [legacyIndexColumns]
    by_cases h : (!col.is_ts_col && col.add_ts_idx) = true
    · simp only [h, if_true, List.pairwise_cons]
      refine ⟨?_, ih (idx + 1)⟩
      intro q hq
      have := ((legacyIndexColumns_mem rest q (idx + 1)).1 hq).1
      omega
    · simp only [h]
      exact ih (idx + 1)

theorem legacy_eq_flagged (cols : List ColumnDesc)
    (h : ∀ c ∈ cols, c.is_ts_col = true → c.add_ts_idx = false) :
    ∀ idx : Nat, legacyIndexColumns cols idx = flaggedIndexColumns cols idx := by
  induction cols with
  | nil => intro idx; rfl
  | cons col rest ih =>
    intro idx
    have hr := ih (fun c hc => h c (List.mem_cons_of_mem _ hc)) (idx + 1)
    have hcol := h col (List.mem_cons_self _ _)
    rw [legacyIndexColumns, flaggedIndexColumns, hr]
    by_cases hts : col.is_ts_col = true
    · simp [hts, hcol hts]
    · simp [hts]

end rtidb

namespace rtidb

theorem definedGroups_eq_groupPerDefinition (cols : List ColumnDesc) (keys : List ColumnKey)
    (h : ∀ key ∈ keys, key.col_name ≠ []) :
    ∀ idx : Nat, definedGroups cols keys idx = groupPerDefinition cols keys idx := by
  induction keys with
  | nil => intro idx; rfl
  | cons key rest ih =>
    intro idx
    rw [definedGroups, groupPerDefinition,
      ih (fun k hk => h k (List.mem_cons_of_mem _ hk)) (idx + 1)]
    simp [h key (List.mem_cons_self _ _)]

theorem definedGroups_congr (cols cols2 : List ColumnDesc)
    (h : cols.map ColumnDesc.name = cols2.map ColumnDesc.name) (keys : List ColumnKey) :
    ∀ idx : Nat, definedGroups cols keys idx = definedGroups cols2 keys idx := by
  have hpos : columnPosition cols = columnPosition cols2 :=
    funext (columnPosition_congr cols cols2 h)
  induction keys with
  | nil => intro idx; rfl
  | cons key rest ih =>
    intro idx
    rw [definedGroups, definedGroups, ih (idx + 1), hpos]

/-- C6, as stated, fails.  The table has one column, flagged both `is_ts_col` and
`add_ts_idx`, and no explicit index definition: the constructor builds no group at all,
where the claim asks for the singleton group of position 0 under id 0. -/
theorem legacy_groups_counterexample :
    (TableInfo.mk [⟨"t", .kBigInt, true, true⟩] []).column_key = [] ∧
    (SQLInsertRow.new External.sample (TableInfo.mk [⟨"t", .kBigInt, true, true⟩] [])
      [] 0).index_map = [] ∧
    singletonGroups (flaggedIndexColumns [⟨"t", .kBigInt, true, true⟩] 0) 0 = [(0, [0])] := by
  decide

/-- C6 (amended).  For a table without explicit index definitions the index map built by
the constructor holds exactly one group per column whose `add_ts_idx` flag is set and
whose `is_ts_col` flag is not, each the singleton of that column's position, with the
ids 0, 1, 2, ... in ascending column position.  Where no column carries both flags,
that is one group per column with `add_ts_idx` set. -/
theorem legacy_index_groups (E : External) (T : TableInfo) (dm : List (Nat × ConstNode))
    (dsl : Nat) (h : T.column_key = []) :
    (SQLInsertRow.new E T dm dsl).index_map =
      singletonGroups (legacyIndexColumns T.column_desc_v1 0) 0 ∧
    (legacyIndexColumns T.column_desc_v1 0).Pairwise (· < ·) ∧
    (∀ p, p ∈ legacyIndexColumns T.column_desc_v1 0 ↔
      ∃ c, T.column_desc_v1[p]? = some c ∧ c.add_ts_idx = true ∧ c.is_ts_col = false) ∧
    ((∀ c ∈ T.column_desc_v1, c.is_ts_col = true → c.add_ts_idx = false) →
      (SQLInsertRow.new E T dm dsl).index_map =
        singletonGroups (flaggedIndexColumns T.column_desc_v1 0) 0) := by
  have hmap : (SQLInsertRow.new E T dm dsl).index_map =
      singletonGroups (legacyIndexColumns T.column_desc_v1 0) 0 := (ctorBody_legacy E T h).1
  refine ⟨hmap, legacyIndexColumns_sorted _ 0, ?_, ?_⟩
  · intro p
    rw [legacyIndexColumns_mem]
    simp
  · intro hflags
    rw [hmap, legacy_eq_flagged _ hflags 0]

/-- C6 (amended), at a table with the columns a (indexed), t (time column that also
carries the index flag), b (indexed), c (neither): the groups are 0 ↦ [0] and 1 ↦ [2]. -/
theorem legacy_index_groups_witness :
    (TableInfo.mk [⟨"a", .kInt, false, true⟩, ⟨"t", .kBigInt, true, true⟩,
      ⟨"b", .kVarchar, false, true⟩, ⟨"c", .kDouble, false, false⟩] []).column_key = [] ∧
    (SQLInsertRow.new External.sample
      (TableInfo.mk [⟨"a", .kInt, false, true⟩, ⟨"t", .kBigInt, true, true⟩,
        ⟨"b", .kVarchar, false, true⟩, ⟨"c", .kDouble, false, false⟩] []) [] 0).index_map =
      [(0, [0]), (1, [2])] :=
  ⟨rfl, (legacy_index_groups External.sample
    (TableInfo.mk [⟨"a", .kInt, false, true⟩, ⟨"t", .kBigInt, true, true⟩,
      ⟨"b", .kVarchar, false, true⟩, ⟨"c", .kDouble, false, false⟩] []) [] 0 rfl).1.trans
    (by decide)⟩

/-- C7, as stated, fails.  The table declares the column `a` and two explicit index
definitions, the first without a column name, the second naming `a`: the constructor
builds one group (id 1), where the claim asks for one group per definition. -/
theorem explicit_groups_counterexample :
    (TableInfo.mk [⟨"a", .kInt, false, false⟩] [⟨[]⟩, ⟨["a"]⟩]).column_key.length = 2 ∧
    (SQLInsertRow.new External.sample
      (TableInfo.mk [⟨"a", .kInt, false, false⟩] [⟨[]⟩, ⟨["a"]⟩]) [] 0).index_map =
      [(1, [0])] ∧
    groupPerDefinition [⟨"a", .kInt, false, false⟩] [⟨[]⟩, ⟨["a"]⟩] 0 =
      [(0, []), (1, [0])] := by
  decide

/-- C7 (amended).  For a table that declares at least one explicit index definition, the
index map built by the constructor has exactly one group per definition that names at
least one column, group i holding the positions of the column names of definition i in
their declared order (the position of a declared name is that of the first column so
called); when every definition names a column, that is one group per definition.  The
index map and the dimension-source map do not depend on the `add_ts_idx` flags. -/
theorem explicit_index_groups (E : External) (T : TableInfo) (dm : List (Nat × ConstNode))
    (dsl : Nat) (h : T.column_key ≠ []) :
    (SQLInsertRow.new E T dm dsl).index_map =
      definedGroups T.column_desc_v1 T.column_key 0 ∧
    ((∀ key ∈ T.column_key, key.col_name ≠ []) →
      (SQLInsertRow.new E T dm dsl).index_map =
        groupPerDefinition T.column_desc_v1 T.column_key 0) ∧
    (∀ name, (∃ c ∈ T.column_desc_v1, c.name = name) →
      ∃ c, T.column_desc_v1[columnPosition T.column_desc_v1 name]? = some c ∧
        c.name = name ∧
        ∀ q c2, q < columnPosition T.column_desc_v1 name →
          T.column_desc_v1[q]? = some c2 → c2.name ≠ name) ∧
    (∀ T2 : TableInfo, sameUpToIndexFlags T T2 →
      (SQLInsertRow.new E T2 dm dsl).index_map = (SQLInsertRow.new E T dm dsl).index_map ∧
      (SQLInsertRow.new E T2 dm dsl).raw_dimensions =
        (SQLInsertRow.new E T dm dsl).raw_dimensions) := by
  have hmap : (SQLInsertRow.new E T dm dsl).index_map =
      definedGroups T.column_desc_v1 T.column_key 0 := (ctorBody_modern E T h).1
  refine ⟨hmap, ?_, ?_, ?_⟩
  · intro hne
    rw [hmap, definedGroups_eq_groupPerDefinition _ _ hne 0]
  · intro name hname
    exact columnPosition_declared _ name hname
  · intro T2 hsame
    obtain ⟨hkeys, hcols⟩ := hsame
    have h2 : T2.column_key ≠ [] := by rw [hkeys]; exact h
    have hnames : T2.column_desc_v1.map ColumnDesc.name = T.column_desc_v1.map ColumnDesc.name := by
      have := congrArg (List.map Prod.fst) hcols
      simpa [List.map_map, Function.comp_def] using this
    have hpos : columnPosition T2.column_desc_v1 = columnPosition T.column_desc_v1 :=
      funext (columnPosition_congr _ _ hnames)
    constructor
    · show (ctorBody E T2).index_map = (ctorBody E T).index_map
      rw [(ctorBody_modern E T2 h2).1, (ctorBody_modern E T h).1, hkeys,
        definedGroups_congr _ _ hnames]
    · show (ctorBody E T2).raw_dimensions = (ctorBody E T).raw_dimensions
      rw [(ctorBody_modern E T2 h2).2, (ctorBody_modern E T h).2, hkeys, hpos]

/-- C7 (amended), at a table with the columns a, b, c (a and c carry the legacy flag) and
the definitions [b, a] and [c]: the groups are 0 ↦ [1, 0] and 1 ↦ [2]. -/
theorem explicit_index_groups_witness :
    (TableInfo.mk [⟨"a", .kInt, false, true⟩, ⟨"b", .kVarchar, false, false⟩,
      ⟨"c", .kBigInt, true, true⟩] [⟨["b", "a"]⟩, ⟨["c"]⟩]).column_key ≠ [] ∧
    (SQLInsertRow.new External.sample
      (TableInfo.mk [⟨"a", .kInt, false, true⟩, ⟨"b", .kVarchar, false, false⟩,
        ⟨"c", .kBigInt, true, true⟩] [⟨["b", "a"]⟩, ⟨["c"]⟩]) [] 0).index_map =
      [(0, [1, 0]), (1, [2])] :=
  ⟨by decide, (explicit_index_groups External.sample
    (TableInfo.mk [⟨"a", .kInt, false, true⟩, ⟨"b", .kVarchar, false, false⟩,
      ⟨"c", .kBigInt, true, true⟩] [⟨["b", "a"]⟩, ⟨["c"]⟩]) [] 0 (by decide)).1.trans
    (by decide)⟩

end rtidb

namespace rtidb

/-! ## The shape shared by the `Append*` family -/

theorem AppendCall.run_eq_runK (E : External) (fuel : Nat) (s : SQLInsertRow)
    (c : AppendCall) : c.run E fuel s = c.runK E (SQLInsertRow.MakeDefault E fuel) s := by
  cases c <;> rfl

theorem AppendCall.runK_eq (E : External) (k : SQLInsertRow → Option (Bool × SQLInsertRow))
    (s : SQLInsertRow) (c : AppendCall) :
    c.runK E k s =
      if c.returnsEarly s = true then some (false, s)
      else SQLInsertRow.writeThen k (c.prepare E s) c.value := by
  cases c with
  | AppendBool val =>
    simp only [AppendCall.runK, SQLInsertRow.AppendBoolK, AppendCall.returnsEarly,
      AppendCall.prepare, AppendCall.dimString, AppendCall.tsValue, AppendCall.value]
    simp
  | AppendInt16 val =>
    simp only [AppendCall.runK, SQLInsertRow.AppendInt16K, AppendCall.returnsEarly,
      AppendCall.prepare, AppendCall.dimString, AppendCall.tsValue, AppendCall.value]
    simp
  | AppendInt32 val =>
    simp only [AppendCall.runK, SQLInsertRow.AppendInt32K, AppendCall.returnsEarly,
      AppendCall.prepare, AppendCall.dimString, AppendCall.tsValue, AppendCall.value]
    simp
  | AppendInt64 val =>
    simp only [AppendCall.runK, SQLInsertRow.AppendInt64K, AppendCall.returnsEarly,
      AppendCall.prepare, AppendCall.dimString, AppendCall.tsValue, AppendCall.value]
    simp
  | AppendTimestamp val =>
    simp only [AppendCall.runK, SQLInsertRow.AppendTimestampK, AppendCall.returnsEarly,
      AppendCall.prepare, AppendCall.dimString, AppendCall.tsValue, AppendCall.value]
    simp
  | AppendFloat val =>
    simp only [AppendCall.runK, SQLInsertRow.AppendFloatK, AppendCall.returnsEarly,
      AppendCall.prepare, AppendCall.dimString, AppendCall.tsValue, AppendCall.value]
    simp
  | AppendDouble val =>
    simp only [AppendCall.runK, SQLInsertRow.AppendDoubleK, AppendCall.returnsEarly,
      AppendCall.prepare, AppendCall.dimString, AppendCall.tsValue, AppendCall.value]
    simp
  | AppendString val =>
    simp only [AppendCall.runK, SQLInsertRow.AppendStringK, AppendCall.returnsEarly,
      AppendCall.prepare, AppendCall.dimString, AppendCall.tsValue, AppendCall.value]
    by_cases hd : s.IsDimension = true <;> by_cases hv : val = "" <;> simp [hd, hv]
  | AppendStringN val length =>
    simp only [AppendCall.runK, SQLInsertRow.AppendStringNK, AppendCall.returnsEarly,
      AppendCall.prepare, AppendCall.dimString, AppendCall.tsValue, AppendCall.value]
    by_cases hd : s.IsDimension = true <;> by_cases hv : 0 = length <;> simp [hd, hv]
  | AppendDateYMD year month day =>
    simp only [AppendCall.runK, SQLInsertRow.AppendDateYMDK, AppendCall.returnsEarly,
      AppendCall.prepare, AppendCall.dimString, AppendCall.tsValue, AppendCall.value]
    by_cases hd : s.IsDimension = true
    · by_cases hy : year < 1900 ∨ year > 9999
      · simp [hd, hy]
      · by_cases hm : month < 1 ∨ month > 12
        · simp only [hd, hy, hm, if_true, if_false, Bool.true_and, false_or, true_or,
            decide_True]
        · by_cases hday : day < 1 ∨ day > 31
          · simp only [hd, hy, hm, hday, if_true, if_false, Bool.true_and, false_or, or_true,
              decide_True]
          · simp only [hd, hy, hm, hday, if_true, if_false, Bool.true_and, false_or,
              decide_False, Bool.false_eq_true]
    · simp [hd]
  | AppendDate date =>
    simp only [AppendCall.runK, SQLInsertRow.AppendDateK, AppendCall.returnsEarly,
      AppendCall.prepare, AppendCall.dimString, AppendCall.tsValue, AppendCall.value]
    simp
  | AppendNULL =>
    simp only [AppendCall.runK, SQLInsertRow.AppendNULLK, AppendCall.returnsEarly,
      AppendCall.prepare, AppendCall.dimString, AppendCall.tsValue, AppendCall.value]
    simp

theorem MakeDefault_succ (E : External) (fuel : Nat) (s : SQLInsertRow) :
    SQLInsertRow.MakeDefault E (fuel + 1) s =
      match StdMap.find s.default_map s.rb.GetAppendPos with
      | some it =>
        match defaultCall it
            ((s.table_info.column_desc_v1[s.rb.GetAppendPos]?).map ColumnDesc.data_type) with
        | some c => c.runK E (SQLInsertRow.MakeDefault E fuel) s
        | none => some (false, s)
      | none => some (true, s) := by
  rw [SQLInsertRow.MakeDefault]
  cases hfind : StdMap.find s.default_map s.rb.GetAppendPos with
  | none => rfl
  | some it =>
    simp only []
    by_cases hnull : it.IsNull = true
    · simp [defaultCall, hnull, AppendCall.runK]
    · simp only [defaultCall, hnull, if_false]
      cases hty : (s.table_info.column_desc_v1[s.rb.GetAppendPos]?).map
          ColumnDesc.data_type with
      | none => simp
      | some ty => cases ty <;> simp [AppendCall.runK]

end rtidb

namespace rtidb

theorem AppendCall.prepare_frame (E : External) (s : SQLInsertRow) (c : AppendCall) :
    (c.prepare E s).table_info = s.table_info ∧
    (c.prepare E s).default_map = s.default_map ∧
    (c.prepare E s).default_string_length = s.default_string_length ∧
    (c.prepare E s).rb = s.rb ∧
    (c.prepare E s).index_map = s.index_map ∧
    (c.prepare E s).ts_set = s.ts_set ∧
    (c.prepare E s).dimensions = s.dimensions := by
  unfold AppendCall.prepare SQLInsertRow.PackTs SQLInsertRow.PackDimension
  cases c.dimString E <;> cases c.tsValue <;> by_cases hd : s.IsDimension = true <;>
    simp only [hd, if_true, if_false] <;> (try split_ifs) <;> simp

theorem AppendCall.prepare_raw (E : External) (s : SQLInsertRow) (c : AppendCall) :
    (c.prepare E s).raw_dimensions =
      match c.dimString E with
      | some str =>
        if s.IsDimension = true then StdMap.assign s.raw_dimensions s.rb.GetAppendPos str
        else s.raw_dimensions
      | none => s.raw_dimensions := by
  unfold AppendCall.prepare SQLInsertRow.PackTs SQLInsertRow.PackDimension
  cases c.dimString E <;> cases c.tsValue <;> by_cases hd : s.IsDimension = true <;>
    simp only [hd, if_true, if_false] <;> (try split_ifs) <;> simp

theorem AppendCall.prepare_ts (E : External) (s : SQLInsertRow) (c : AppendCall) :
    (c.prepare E s).ts =
      match c.tsValue with
      | some t => if s.rb.GetAppendPos ∈ s.ts_set then s.ts ++ [t] else s.ts
      | none => s.ts := by
  unfold AppendCall.prepare SQLInsertRow.PackTs SQLInsertRow.PackDimension
  cases c.dimString E <;> cases c.tsValue <;> by_cases hd : s.IsDimension = true <;>
    simp only [hd, if_true, if_false] <;> (try split_ifs) <;> simp_all

theorem AppendCall.prepare_eq_self (E : External) (s : SQLInsertRow) (c : AppendCall)
    (hd : s.IsDimension = false) (hts : c.tsValue = none ∨ s.rb.GetAppendPos ∉ s.ts_set) :
    c.prepare E s = s := by
  unfold AppendCall.prepare SQLInsertRow.PackTs
  cases hc : c.tsValue with
  | none => cases c.dimString E <;> simp [hd]
  | some t =>
    have hnot : s.rb.GetAppendPos ∉ s.ts_set := by
      rcases hts with h | h
      · rw [hc] at h; cases h
      · exact h
    cases c.dimString E <;> simp [hd, hnot]

/-- C1, as stated, fails.  The table has one varchar column `k`, a time column that the
explicit index definition [k] makes an index column.  On the fresh row `AppendInt64(5)` is
rejected by the writer (a 64-bit operand at a varchar column) and returns false with the
cursor still at 0, yet the dimension source of position 0 has become "5" and the
timestamp sequence has become [5]. -/
theorem rejected_append_counterexample :
    (SQLInsertRow.new External.sample Sample.timeKeyTable [] 0).rb.Append
      (AppendCall.AppendInt64 5).value = none ∧
    (SQLInsertRow.new External.sample Sample.timeKeyTable [] 0).raw_dimensions =
      [(0, "!N@U#L$L%")] ∧
    (SQLInsertRow.new External.sample Sample.timeKeyTable [] 0).ts = [] ∧
    observe (SQLInsertRow.AppendInt64 External.sample 1
      (SQLInsertRow.new External.sample Sample.timeKeyTable [] 0) 5) =
        some (false, 0, [(0, "5")], [5]) := by
  decide

/-- C1 (amended).  For every row state and every typed Append that the writer rejects, the
call returns false and leaves the writer (cursor and buffer), the index map, the set of
time columns and the memoized dimensions as they were; the dimension-source map is
unchanged at every position other than the cursor's, and the timestamp sequence is either
unchanged or, for `AppendInt64`/`AppendTimestamp` at a time column, extended by the
operand.  When the cursor is neither at an indexed position nor (for those two calls) at
a time column, the whole row state is unchanged. -/
theorem rejected_append_effects (E : External) (fuel : Nat) (s : SQLInsertRow)
    (c : AppendCall) (h : s.rb.Append c.value = none) :
    ∃ s2, c.run E fuel s = some (false, s2) ∧
      s2.rb = s.rb ∧ s2.index_map = s.index_map ∧ s2.ts_set = s.ts_set ∧
      s2.dimensions = s.dimensions ∧
      (∀ p, p ≠ s.rb.GetAppendPos →
        StdMap.find s2.raw_dimensions p = StdMap.find s.raw_dimensions p) ∧
      (s.IsDimension = false → s2.raw_dimensions = s.raw_dimensions) ∧
      (s2.ts = s.ts ∨
        ∃ t, c.tsValue = some t ∧ s.rb.GetAppendPos ∈ s.ts_set ∧ s2.ts = s.ts ++ [t]) ∧
      (s.IsDimension = false → (c.tsValue = none ∨ s.rb.GetAppendPos ∉ s.ts_set) →
        s2 = s) := by
  rw [AppendCall.run_eq_runK, AppendCall.runK_eq]
  by_cases hearly : c.returnsEarly s = true
  · refine ⟨s, by simp [hearly], rfl, rfl, rfl, rfl, fun _ _ => rfl, fun _ => rfl,
      Or.inl rfl, fun _ _ => rfl⟩
  · obtain ⟨_, _, _, hrb, hidx, htss, hdim⟩ := AppendCall.prepare_frame E s c
    have hw : SQLInsertRow.writeThen (SQLInsertRow.MakeDefault E fuel) (c.prepare E s) c.value =
        some (false, c.prepare E s) := by
      unfold SQLInsertRow.writeThen
      rw [hrb, h]
    refine ⟨c.prepare E s, by simp [hearly, hw], hrb, hidx, htss, hdim, ?_, ?_, ?_, ?_⟩
    · intro p hp
      rw [AppendCall.prepare_raw]
      cases c.dimString E with
      | none => rfl
      | some str =>
        by_cases hd : s.IsDimension = true
        · simp only [hd, if_true]
          exact StdMap.find_assign_ne _ _ _ _ hp
        · simp [hd]
    · intro hd
      rw [AppendCall.prepare_raw]
      cases c.dimString E <;> simp [hd]
    · rw [AppendCall.prepare_ts]
      cases hc : c.tsValue with
      | none => exact Or.inl rfl
      | some t =>
        by_cases hm : s.rb.GetAppendPos ∈ s.ts_set
        · exact Or.inr ⟨t, rfl, hm, by simp [hm]⟩
        · exact Or.inl (by simp [hm])
    · intro hd hts
      exact AppendCall.prepare_eq_self E s c hd hts

/-- C1 (amended), at the row of the counterexample: the writer rejects `AppendInt64(5)`,
the call returns false, and the writer of the row after it is the writer before it. -/
theorem rejected_append_effects_witness :
    (SQLInsertRow.new External.sample Sample.timeKeyTable [] 0).rb.Append
      (AppendCall.AppendInt64 5).value = none ∧
    Option.map Prod.fst ((AppendCall.AppendInt64 5).run External.sample 1
      (SQLInsertRow.new External.sample Sample.timeKeyTable [] 0)) = some false ∧
    (rowAfter (SQLInsertRow.new External.sample Sample.timeKeyTable [] 0)
      ((AppendCall.AppendInt64 5).run External.sample 1
        (SQLInsertRow.new External.sample Sample.timeKeyTable [] 0))).rb =
      (SQLInsertRow.new External.sample Sample.timeKeyTable [] 0).rb := by
  obtain ⟨s2, h1, h2, _⟩ := rejected_append_effects External.sample 1
    (SQLInsertRow.new External.sample Sample.timeKeyTable [] 0)
    (AppendCall.AppendInt64 5) (by decide)
  refine ⟨by decide, ?_, ?_⟩
  · rw [h1]; rfl
  · rw [h1]; exact h2

end rtidb

namespace rtidb

/-! ## Induction over the default chain -/

theorem RowBuilder.Append_some (rb rb2 : RowBuilder) (v : Value) (h : rb.Append v = some rb2) :
    rb2.schema = rb.schema ∧ rb2.buf = rb.buf ++ [v] ∧
      ∃ col, rb.schema[rb.buf.length]? = some col ∧ v.fits col.data_type = true := by
  unfold RowBuilder.Append at h
  cases hcol : rb.schema[rb.buf.length]? with
  | none => simp [hcol] at h
  | some col =>
    by_cases hfit : v.fits col.data_type = true
    · simp only [hcol, hfit, if_true, Option.some.injEq] at h
      subst h
      exact ⟨rfl, rfl, col, rfl, hfit⟩
    · simp [hcol, hfit] at h

theorem RowBuilder.Append_pos (rb rb2 : RowBuilder) (v : Value) (h : rb.Append v = some rb2) :
    rb2.GetAppendPos = rb.GetAppendPos + 1 ∧ rb.GetAppendPos < rb.schema.length := by
  obtain ⟨_, hbuf, col, hcol, _⟩ := RowBuilder.Append_some rb rb2 v h
  constructor
  · simp [RowBuilder.GetAppendPos, hbuf]
  · by_contra hge
    have hnone : rb.schema[rb.buf.length]? = none :=
      List.getElem?_eq_none (by simpa [RowBuilder.GetAppendPos] using hge)
    rw [hnone] at hcol
    cases hcol

theorem AppendCall.runK_cases (E : External) (k : SQLInsertRow → Option (Bool × SQLInsertRow))
    (s : SQLInsertRow) (c : AppendCall) (r : Bool × SQLInsertRow)
    (h : c.runK E k s = some r) :
    (c.returnsEarly s = true ∧ r = (false, s)) ∨
    (c.returnsEarly s = false ∧ s.rb.Append c.value = none ∧ r = (false, c.prepare E s)) ∨
    (c.returnsEarly s = false ∧
      ∃ rb, s.rb.Append c.value = some rb ∧ k (c.written E s rb) = some r) := by
  rw [AppendCall.runK_eq] at h
  by_cases hearly : c.returnsEarly s = true
  · simp only [hearly, if_true, Option.some.injEq] at h
    exact Or.inl ⟨hearly, h.symm⟩
  · have hearly2 : c.returnsEarly s = false := by simpa using hearly
    rw [if_neg hearly] at h
    unfold SQLInsertRow.writeThen at h
    rw [(AppendCall.prepare_frame E s c).2.2.2.1] at h
    cases hw : s.rb.Append c.value with
    | none =>
      simp only [hw, Option.some.injEq] at h
      exact Or.inr (Or.inl ⟨hearly2, rfl, h.symm⟩)
    | some rb =>
      simp only [hw] at h
      exact Or.inr (Or.inr ⟨hearly2, rb, rfl, h⟩)

theorem MakeDefault_induct (E : External) (P : SQLInsertRow → Prop)
    (Q : Bool × SQLInsertRow → Prop)
    (hdone : ∀ s, P s → StdMap.find s.default_map s.rb.GetAppendPos = none → Q (true, s))
    (hnocall : ∀ s it, P s → StdMap.find s.default_map s.rb.GetAppendPos = some it →
      defaultCall it s.cursorType = none → Q (false, s))
    (hearly : ∀ s it c, P s → StdMap.find s.default_map s.rb.GetAppendPos = some it →
      defaultCall it s.cursorType = some c → c.returnsEarly s = true → Q (false, s))
    (hreject : ∀ s it c, P s → StdMap.find s.default_map s.rb.GetAppendPos = some it →
      defaultCall it s.cursorType = some c → c.returnsEarly s = false →
      s.rb.Append c.value = none → Q (false, c.prepare E s))
    (hstep : ∀ s it c rb, P s → StdMap.find s.default_map s.rb.GetAppendPos = some it →
      defaultCall it s.cursorType = some c → c.returnsEarly s = false →
      s.rb.Append c.value = some rb → P (c.written E s rb)) :
    ∀ (fuel : Nat) (s : SQLInsertRow) (r : Bool × SQLInsertRow),
      P s → SQLInsertRow.MakeDefault E fuel s = some r → Q r := by
  intro fuel
  induction fuel with
  | zero => intro s r _ h; simp [SQLInsertRow.MakeDefault] at h
  | succ fuel ih =>
    intro s r hP h
    rw [MakeDefault_succ] at h
    cases hfind : StdMap.find s.default_map s.rb.GetAppendPos with
    | none =>
      simp only [hfind, Option.some.injEq] at h
      rw [← h]
      exact hdone s hP hfind
    | some it =>
      simp only [hfind] at h
      cases hcall : defaultCall it s.cursorType with
      | none =>
        have hcall2 := hcall
        unfold SQLInsertRow.cursorType at hcall2
        simp only [hcall2, Option.some.injEq] at h
        rw [← h]
        exact hnocall s it hP hfind hcall
      | some c =>
        have hcall2 := hcall
        unfold SQLInsertRow.cursorType at hcall2
        simp only [hcall2] at h
        rcases AppendCall.runK_cases E _ s c r h with ⟨he, hr⟩ | ⟨he, hw, hr⟩ | ⟨he, rb, hw, hk⟩
        · rw [hr]; exact hearly s it c hP hfind hcall he
        · rw [hr]; exact hreject s it c hP hfind hcall he hw
        · exact ih _ r (hstep s it c rb hP hfind hcall he hw) hk

theorem MakeDefault_fuel_mono (E : External) :
    ∀ (fuel : Nat) (s : SQLInsertRow) (r : Bool × SQLInsertRow),
      SQLInsertRow.MakeDefault E fuel s = some r →
      SQLInsertRow.MakeDefault E (fuel + 1) s = some r := by
  intro fuel
  induction fuel with
  | zero => intro s r h; simp [SQLInsertRow.MakeDefault] at h
  | succ fuel ih =>
    intro s r h
    rw [MakeDefault_succ] at h ⊢
    cases hfind : StdMap.find s.default_map s.rb.GetAppendPos with
    | none => rw [hfind] at h; exact h
    | some it =>
      rw [hfind] at h
      dsimp only at h
      show (match defaultCall it
          ((s.table_info.column_desc_v1[s.rb.GetAppendPos]?).map ColumnDesc.data_type) with
        | some c => c.runK E (SQLInsertRow.MakeDefault E (fuel + 1)) s
        | none => some (false, s)) = some r
      cases hcall : defaultCall it
          ((s.table_info.column_desc_v1[s.rb.GetAppendPos]?).map ColumnDesc.data_type) with
      | none => rw [hcall] at h; exact h
      | some c =>
        rw [hcall] at h
        show c.runK E (SQLInsertRow.MakeDefault E (fuel + 1)) s = some r
        have h2 : c.runK E (SQLInsertRow.MakeDefault E fuel) s = some r := h
        rw [AppendCall.runK_eq] at h2 ⊢
        by_cases hearly : c.returnsEarly s = true
        · rw [if_pos hearly] at h2 ⊢; exact h2
        · rw [if_neg hearly] at h2 ⊢
          unfold SQLInsertRow.writeThen at h2 ⊢
          cases hw : (c.prepare E s).rb.Append c.value with
          | none => rw [hw] at h2; exact h2
          | some rb =>
            rw [hw] at h2
            exact ih _ r h2

end rtidb

namespace rtidb

/-! ## Invariants of reachable rows -/

theorem calls_preserve (E : External) (P : SQLInsertRow → Prop)
    (hprep : ∀ (s : SQLInsertRow) (c : AppendCall), P s → P (c.prepare E s))
    (hwrite : ∀ (s : SQLInsertRow) (c : AppendCall) (rb : RowBuilder), P s →
      c.returnsEarly s = false → s.rb.Append c.value = some rb → P (c.written E s rb)) :
    (∀ (fuel : Nat) (s : SQLInsertRow) (r : Bool × SQLInsertRow), P s →
      SQLInsertRow.MakeDefault E fuel s = some r → P r.2) ∧
    (∀ (fuel : Nat) (s : SQLInsertRow) (c : AppendCall) (r : Bool × SQLInsertRow), P s →
      c.run E fuel s = some r → P r.2) := by
  have hmd : ∀ fuel s r, P s → SQLInsertRow.MakeDefault E fuel s = some r → P r.2 :=
    MakeDefault_induct E P (fun r => P r.2)
      (fun s hP _ => hP) (fun s _ hP _ _ => hP) (fun s _ _ hP _ _ _ => hP)
      (fun s _ c hP _ _ _ _ => hprep s c hP)
      (fun s _ c rb hP _ _ he hw => hwrite s c rb hP he hw)
  refine ⟨hmd, ?_⟩
  intro fuel s c r hP h
  rw [AppendCall.run_eq_runK] at h
  rcases AppendCall.runK_cases E _ s c r h with ⟨_, hr⟩ | ⟨_, _, hr⟩ | ⟨he, rb, hw, hk⟩
  · rw [hr]; exact hP
  · rw [hr]; exact hprep s c hP
  · exact hmd fuel _ r (hwrite s c rb hP he hw) hk

theorem dimensionKey_found (ms : List Nat) :
    ∀ (key : String) (raw : List (Nat × String)),
      (∀ p ∈ ms, (StdMap.find raw p).isSome = true) →
      (SQLInsertRow.dimensionKey ms key raw).2 = raw := by
  induction ms with
  | nil => intro key raw _; rfl
  | cons p rest ih =>
    intro key raw h
    have hp := h p (List.mem_cons_self _ _)
    cases hfind : StdMap.find raw p with
    | none => rw [hfind] at hp; cases hp
    | some v =>
      rw [SQLInsertRow.dimensionKey]
      simp only [hfind]
      exact ih _ raw (fun q hq => h q (List.mem_cons_of_mem _ hq))

theorem dimensionLoop_found (groups : List (Nat × List Nat)) :
    ∀ (raw : List (Nat × String)) (dims : List (String × Nat)),
      (∀ kv ∈ groups, ∀ p ∈ kv.2, (StdMap.find raw p).isSome = true) →
      (SQLInsertRow.dimensionLoop groups raw dims).1 = raw ∧
      (SQLInsertRow.dimensionLoop groups raw dims).2 =
        dims ++ groups.map (fun kv => ((SQLInsertRow.dimensionKey kv.2 "" raw).1, kv.1)) := by
  induction groups with
  | nil => intro raw dims _; simp [SQLInsertRow.dimensionLoop]
  | cons kv rest ih =>
    intro raw dims h
    rw [SQLInsertRow.dimensionLoop]
    have hkey := dimensionKey_found kv.2 "" raw (h kv (List.mem_cons_self _ _))
    simp only [hkey]
    obtain ⟨h1, h2⟩ := ih raw (dims ++ [((SQLInsertRow.dimensionKey kv.2 "" raw).1, kv.1)])
      (fun kv2 hkv2 => h kv2 (List.mem_cons_of_mem _ hkv2))
    exact ⟨h1, by rw [h2]; simp⟩

theorem GetDimensions_state (s : SQLInsertRow)
    (h : ∀ p, s.indexed p → p ∈ StdMap.keys s.raw_dimensions) :
    (SQLInsertRow.GetDimensions s).2 = { s with dimensions := (SQLInsertRow.GetDimensions s).1 } ∧
    (s.dimensions = [] → (SQLInsertRow.GetDimensions s).1 =
      s.index_map.map
        (fun kv => ((SQLInsertRow.dimensionKey kv.2 "" s.raw_dimensions).1, kv.1))) := by
  have hfound : ∀ kv ∈ s.index_map, ∀ p ∈ kv.2,
      (StdMap.find s.raw_dimensions p).isSome = true := by
    intro kv hkv p hp
    exact (StdMap.find_isSome_iff _ _).2 (h p ⟨kv, hkv, hp⟩)
  obtain ⟨h1, h2⟩ := dimensionLoop_found s.index_map s.raw_dimensions s.dimensions hfound
  unfold SQLInsertRow.GetDimensions
  by_cases hlen : s.dimensions.length > 0
  · simp only [hlen, if_true, true_and]
    intro hnil
    rw [hnil] at hlen
    simp at hlen
  · simp only [hlen, if_false]
    constructor
    · rw [h1]
    · intro hnil
      rw [h2, hnil]
      simp

theorem mem_singletonGroups (ps : List Nat) (p : Nat) :
    ∀ gid : Nat, (∃ kv ∈ singletonGroups ps gid, p ∈ kv.2) ↔ p ∈ ps := by
  induction ps with
  | nil => intro gid; simp [singletonGroups]
  | cons q rest ih =>
    intro gid
    rw [singletonGroups]
    constructor
    · rintro ⟨kv, hkv, hp⟩
      rcases List.mem_cons.1 hkv with h | h
      · subst h
        simp at hp
        simp [hp]
      · exact List.mem_cons_of_mem _ ((ih (gid + 1)).1 ⟨kv, h, hp⟩)
    · intro hp
      rcases List.mem_cons.1 hp with h | h
      · exact ⟨(gid, [q]), List.mem_cons_self _ _, by simp [h]⟩
      · obtain ⟨kv, hkv, hp2⟩ := (ih (gid + 1)).2 h
        exact ⟨kv, List.mem_cons_of_mem _ hkv, hp2⟩

theorem mem_definedGroups (cols : List ColumnDesc) (keys : List ColumnKey) (p : Nat) :
    ∀ idx : Nat, (∃ kv ∈ definedGroups cols keys idx, p ∈ kv.2) ↔
      p ∈ (keys.map (fun key => key.col_name.map (columnPosition cols))).flatten := by
  induction keys with
  | nil => intro idx; simp [definedGroups]
  | cons key rest ih =>
    intro idx
    rw [definedGroups]
    simp only [List.map_cons, List.flatten_cons, List.mem_append]
    rw [← ih (idx + 1)]
    by_cases hn : key.col_name = []
    · simp [hn]
    · simp only [hn, if_false]
      constructor
      · rintro ⟨kv, hkv, hp⟩
        rcases List.mem_cons.1 hkv with h | h
        · subst h
          exact Or.inl hp
        · exact Or.inr ⟨kv, h, hp⟩
      · rintro (hp | ⟨kv, hkv, hp⟩)
        · exact ⟨_, List.mem_cons_self _ _, hp⟩
        · exact ⟨kv, List.mem_cons_of_mem _ hkv, hp⟩

theorem foldl_assign_keys (v : String) (ps : List Nat) (p : Nat) :
    ∀ raw : List (Nat × String),
      p ∈ StdMap.keys (List.foldl (fun r q => StdMap.assign r q v) raw ps) ↔
        p ∈ StdMap.keys raw ∨ p ∈ ps := by
  induction ps with
  | nil => intro raw; simp
  | cons q rest ih =>
    intro raw
    simp only [List.foldl_cons, List.mem_cons]
    rw [ih, StdMap.mem_keys_assign]
    tauto

theorem foldl_assign_values (v : String) (ps : List Nat) (p : Nat) (w : String) :
    ∀ raw : List (Nat × String),
      StdMap.find (List.foldl (fun r q => StdMap.assign r q v) raw ps) p = some w →
        w = v ∨ StdMap.find raw p = some w := by
  induction ps with
  | nil => intro raw h; exact Or.inr h
  | cons q rest ih =>
    intro raw h
    simp only [List.foldl_cons] at h
    rcases ih _ h with h1 | h1
    · exact Or.inl h1
    · by_cases hpq : p = q
      · subst hpq
        rw [StdMap.find_assign_self] at h1
        exact Or.inl (Option.some.inj h1).symm
      · rw [StdMap.find_assign_ne _ _ _ _ hpq] at h1
        exact Or.inr h1

theorem ctor_facts (E : External) (T : TableInfo) (dm : List (Nat × ConstNode)) (dsl : Nat) :
    RowInvariant E T dm dsl (SQLInsertRow.new E T dm dsl) ∧
    (∀ p v, StdMap.find (SQLInsertRow.new E T dm dsl).raw_dimensions p = some v →
      v = E.NONETOKEN) := by
  have hkeys_iff : (∀ p, p ∈ StdMap.keys (ctorBody E T).raw_dimensions ↔
      ∃ kv ∈ (ctorBody E T).index_map, p ∈ kv.2) ∧
      (∀ p v, StdMap.find (ctorBody E T).raw_dimensions p = some v → v = E.NONETOKEN) := by
    by_cases h : T.column_key = []
    · obtain ⟨h1, h2⟩ := ctorBody_legacy E T h
      rw [h1, h2]
      constructor
      · intro p
        rw [mem_singletonGroups]
        simp [StdMap.keys, Function.comp_def]
      · intro p v hfind
        have := StdMap.find_mem _ _ _ hfind
        simp only [List.mem_map, Prod.mk.injEq] at this
        obtain ⟨_, _, _, hv⟩ := this
        exact hv.symm
    · obtain ⟨h1, h2⟩ := ctorBody_modern E T h
      rw [h1, h2]
      constructor
      · intro p
        rw [mem_definedGroups, foldl_assign_keys]
        simp [StdMap.keys]
      · intro p v hfind
        rcases foldl_assign_values _ _ _ _ _ hfind with h3 | h3
        · exact h3
        · simp [StdMap.find] at h3
  exact ⟨⟨rfl, rfl, rfl, rfl, rfl, rfl, hkeys_iff.1⟩, hkeys_iff.2⟩

end rtidb

namespace rtidb

/-! ## Strings -/

theorem string_ne_empty_iff (s : String) : s ≠ "" ↔ s.data ≠ [] := by
  constructor
  · intro h hd
    apply h
    exact String.ext hd
  · intro h hs
    apply h
    rw [hs]

theorem toDigitsCore_ne_nil (b : Nat) :
    ∀ (fuel n : Nat) (ds : List Char), (fuel ≠ 0 ∨ ds ≠ []) →
      Nat.toDigitsCore b fuel n ds ≠ [] := by
  intro fuel
  induction fuel with
  | zero =>
    intro n ds h
    rcases h with h | h
    · exact absurd rfl h
    · simpa [Nat.toDigitsCore] using h
  | succ fuel ih =>
    intro n ds _
    simp only [Nat.toDigitsCore]
    split_ifs
    · simp
    · exact ih _ _ (Or.inr (by simp))

theorem toString_nat_ne_empty (n : Nat) : toString n ≠ "" := by
  rw [string_ne_empty_iff]
  show (Nat.toDigits 10 n).asString.data ≠ []
  simp only [List.asString]
  exact toDigitsCore_ne_nil 10 (n + 1) n [] (Or.inl (by simp))

theorem toString_int_ne_empty (v : Int) : toString v ≠ "" := by
  cases v with
  | ofNat m => exact toString_nat_ne_empty m
  | negSucc m =>
    rw [string_ne_empty_iff]
    show ("-" ++ toString (Nat.succ m)).data ≠ []
    simp [String.data_append]

theorem stringAt_ne_empty (val : String) (length : Nat) (h : ¬ 0 = length) :
    stringAt val length ≠ "" := by
  rw [string_ne_empty_iff]
  unfold stringAt
  simp only [ne_eq, List.map_eq_nil_iff, List.range_eq_nil]
  omega

theorem AppendCall.dimString_ne_empty (E : External) (hN : E.NONETOKEN ≠ "")
    (hE : E.EMPTY_STRING ≠ "") (c : AppendCall) (str : String)
    (h : c.dimString E = some str) : str ≠ "" := by
  cases c with
  | AppendBool val =>
    simp only [AppendCall.dimString, Option.some.injEq] at h
    subst h
    cases val <;> decide
  | AppendInt16 val =>
    simp only [AppendCall.dimString, Option.some.injEq] at h
    subst h; exact toString_int_ne_empty _
  | AppendInt32 val =>
    simp only [AppendCall.dimString, Option.some.injEq] at h
    subst h; exact toString_int_ne_empty _
  | AppendInt64 val =>
    simp only [AppendCall.dimString, Option.some.injEq] at h
    subst h; exact toString_int_ne_empty _
  | AppendTimestamp val =>
    simp only [AppendCall.dimString, Option.some.injEq] at h
    subst h; exact toString_int_ne_empty _
  | AppendFloat val => simp [AppendCall.dimString] at h
  | AppendDouble val => simp [AppendCall.dimString] at h
  | AppendString val =>
    simp only [AppendCall.dimString, Option.some.injEq] at h
    subst h
    by_cases hv : val = ""
    · simpa [hv] using hE
    · simp [hv]
  | AppendStringN val length =>
    simp only [AppendCall.dimString, Option.some.injEq] at h
    subst h
    by_cases hv : 0 = length
    · simpa [hv] using hE
    · simp only [hv, if_false]
      exact stringAt_ne_empty val length hv
  | AppendDateYMD year month day =>
    simp only [AppendCall.dimString, Option.some.injEq] at h
    subst h; exact toString_int_ne_empty _
  | AppendDate date =>
    simp only [AppendCall.dimString, Option.some.injEq] at h
    subst h; exact toString_int_ne_empty _
  | AppendNULL =>
    simp only [AppendCall.dimString, Option.some.injEq] at h
    subst h; exact hN

theorem string_append_ne_empty (a b : String) (h : b ≠ "") : a ++ b ≠ "" := by
  rw [string_ne_empty_iff] at h ⊢
  simp [String.data_append, h]

theorem intercalate_go_eq (sep : String) (srcs : List String) :
    ∀ acc : String, String.intercalate.go acc sep srcs =
      List.foldl (fun a x => a ++ sep ++ x) acc srcs := by
  induction srcs with
  | nil => intro acc; rfl
  | cons x rest ih => intro acc; simp [String.intercalate.go, ih]

theorem dimensionKey_go (ms : List Nat) (raw : List (Nat × String))
    (h : ∀ p ∈ ms, ∃ v, StdMap.find raw p = some v ∧ v ≠ "") :
    ∀ key : String, key ≠ "" →
      (SQLInsertRow.dimensionKey ms key raw).1 =
        List.foldl (fun a x => a ++ "|" ++ x) key
          (ms.map (fun p => (StdMap.find raw p).getD "")) := by
  induction ms with
  | nil => intro key _; rfl
  | cons p rest ih =>
    intro key hkey
    obtain ⟨v, hv, hne⟩ := h p (List.mem_cons_self _ _)
    rw [SQLInsertRow.dimensionKey]
    simp only [hv, hkey, if_false, List.map_cons, List.foldl_cons, Option.getD_some]
    exact ih (fun q hq => h q (List.mem_cons_of_mem _ hq)) _
      (string_append_ne_empty _ _ hne)

theorem dimensionKey_intercalate (ms : List Nat) (raw : List (Nat × String))
    (h : ∀ p ∈ ms, ∃ v, StdMap.find raw p = some v ∧ v ≠ "") :
    (SQLInsertRow.dimensionKey ms "" raw).1 =
      String.intercalate "|" (ms.map (fun p => (StdMap.find raw p).getD "")) := by
  cases ms with
  | nil => rfl
  | cons p rest =>
    obtain ⟨v, hv, hne⟩ := h p (List.mem_cons_self _ _)
    rw [SQLInsertRow.dimensionKey]
    simp only [hv, if_true, List.map_cons, Option.getD_some, String.intercalate]
    rw [intercalate_go_eq]
    have hv2 : "" ++ v = v := by
      apply String.ext
      simp [String.data_append]
    rw [hv2]
    exact dimensionKey_go rest raw (fun q hq => h q (List.mem_cons_of_mem _ hq)) v hne

end rtidb

namespace rtidb

theorem Reachable_induct (E : External) (T : TableInfo) (dm : List (Nat × ConstNode))
    (dsl : Nat) (P : SQLInsertRow → Prop)
    (hctor : P (SQLInsertRow.new E T dm dsl))
    (hprep : ∀ (s : SQLInsertRow) (c : AppendCall), P s → P (c.prepare E s))
    (hwrite : ∀ (s : SQLInsertRow) (c : AppendCall) (rb : RowBuilder), P s →
      c.returnsEarly s = false → s.rb.Append c.value = some rb → P (c.written E s rb))
    (hinit : ∀ (s : SQLInsertRow), P s → P { s with rb := { s.rb with buf := [] } })
    (hdims : ∀ (s : SQLInsertRow), P s → P (SQLInsertRow.GetDimensions s).2) :
    ∀ s, Reachable E T dm dsl s → P s := by
  obtain ⟨hmd, hrun⟩ := calls_preserve E P hprep hwrite
  intro s hs
  induction hs with
  | ctor => exact hctor
  | Init s fuel str_length r _ hr ih =>
    unfold SQLInsertRow.Init at hr
    by_cases hok : E.SetBufferOk (E.CalTotalLength (str_length + ↑s.default_string_length)) = true
    · simp only [RowBuilder.SetBuffer, hok, if_true] at hr
      cases hm : SQLInsertRow.MakeDefault E fuel { s with rb := { s.rb with buf := [] } } with
      | none => simp [hm] at hr
      | some r2 =>
        simp only [hm, Option.some.injEq] at hr
        rw [← hr]
        exact hmd fuel _ r2 (hinit s ih) hm
    · simp only [RowBuilder.SetBuffer, hok, Bool.false_eq_true, if_false,
        Option.some.injEq] at hr
      rw [← hr]
      exact ih
  | Append s fuel c r _ hr ih => exact hrun fuel s c r ih hr
  | GetDimensions s _ ih => exact hdims s ih

theorem IsDimension_iff (s : SQLInsertRow) :
    s.IsDimension = true ↔ s.indexed s.rb.GetAppendPos := by
  unfold SQLInsertRow.IsDimension SQLInsertRow.indexed
  simp [List.any_eq_true]

theorem AppendCall.prepare_keys (E : External) (s : SQLInsertRow) (c : AppendCall)
    (h : ∀ p, s.indexed p → p ∈ StdMap.keys s.raw_dimensions) (p : Nat) :
    p ∈ StdMap.keys (c.prepare E s).raw_dimensions ↔ p ∈ StdMap.keys s.raw_dimensions := by
  rw [AppendCall.prepare_raw]
  cases c.dimString E with
  | none => rfl
  | some str =>
    by_cases hd : s.IsDimension = true
    · simp only [hd, if_true]
      rw [StdMap.mem_keys_assign]
      constructor
      · rintro (h1 | h1)
        · rw [h1]; exact h _ ((IsDimension_iff s).1 hd)
        · exact h1
      · intro h1; exact Or.inr h1
    · simp [hd]

theorem RowInvariant_prepare (E : External) (T : TableInfo) (dm : List (Nat × ConstNode))
    (dsl : Nat) (s : SQLInsertRow) (c : AppendCall) (h : RowInvariant E T dm dsl s) :
    RowInvariant E T dm dsl (c.prepare E s) := by
  obtain ⟨h1, h2, h3, h4, h5, h6, h7⟩ := h
  obtain ⟨f1, f2, f3, f4, f5, f6, _⟩ := AppendCall.prepare_frame E s c
  refine ⟨f1.trans h1, f2.trans h2, f3.trans h3, by rw [f4]; exact h4, f5.trans h5,
    f6.trans h6, ?_⟩
  intro p
  rw [AppendCall.prepare_keys E s c (fun q hq => (h7 q).2 hq) p, h7 p]
  unfold SQLInsertRow.indexed
  rw [f5]

theorem RowInvariant_rb (E : External) (T : TableInfo) (dm : List (Nat × ConstNode))
    (dsl : Nat) (s : SQLInsertRow) (rb : RowBuilder) (hrb : rb.schema = s.rb.schema)
    (h : RowInvariant E T dm dsl s) : RowInvariant E T dm dsl { s with rb := rb } := by
  obtain ⟨h1, h2, h3, h4, h5, h6, h7⟩ := h
  exact ⟨h1, h2, h3, hrb.trans h4, h5, h6, h7⟩

theorem Reachable_invariant (E : External) (T : TableInfo) (dm : List (Nat × ConstNode))
    (dsl : Nat) (s : SQLInsertRow) (hs : Reachable E T dm dsl s) :
    RowInvariant E T dm dsl s := by
  refine Reachable_induct E T dm dsl (RowInvariant E T dm dsl) (ctor_facts E T dm dsl).1
    (fun s c h => RowInvariant_prepare E T dm dsl s c h) ?_ ?_ ?_ s hs
  · intro s c rb h _ hw
    have hschema := (RowBuilder.Append_some _ _ _ hw).1
    have hp := RowInvariant_prepare E T dm dsl s c h
    exact RowInvariant_rb E T dm dsl (c.prepare E s) rb
      (by rw [hschema, (AppendCall.prepare_frame E s c).2.2.2.1]) hp
  · intro s h
    exact RowInvariant_rb E T dm dsl s _ rfl h
  · intro s h
    rw [(GetDimensions_state s (fun p hp => (h.2.2.2.2.2.2 p).2 hp)).1]
    obtain ⟨h1, h2, h3, h4, h5, h6, h7⟩ := h
    exact ⟨h1, h2, h3, h4, h5, h6, h7⟩

theorem Reachable_nonempty (E : External) (T : TableInfo) (dm : List (Nat × ConstNode))
    (dsl : Nat) (hN : E.NONETOKEN ≠ "") (hE : E.EMPTY_STRING ≠ "")
    (s : SQLInsertRow) (hs : Reachable E T dm dsl s) : SourcesNonempty s := by
  have hboth : RowInvariant E T dm dsl s ∧ SourcesNonempty s := by
    refine Reachable_induct E T dm dsl
      (fun s => RowInvariant E T dm dsl s ∧ SourcesNonempty s) ?_ ?_ ?_ ?_ ?_ s hs
    · refine ⟨(ctor_facts E T dm dsl).1, ?_⟩
      intro p v hfind
      rw [(ctor_facts E T dm dsl).2 p v hfind]
      exact hN
    · intro s c h
      refine ⟨RowInvariant_prepare E T dm dsl s c h.1, ?_⟩
      intro p v hfind
      rw [AppendCall.prepare_raw] at hfind
      cases hc : c.dimString E with
      | none =>
        simp only [hc] at hfind
        exact h.2 p v hfind
      | some str =>
        simp only [hc] at hfind
        by_cases hd : s.IsDimension = true
        · simp only [hd, if_true] at hfind
          by_cases hp : p = s.rb.GetAppendPos
          · subst hp
            rw [StdMap.find_assign_self] at hfind
            rw [← Option.some.inj hfind]
            exact AppendCall.dimString_ne_empty E hN hE c str hc
          · rw [StdMap.find_assign_ne _ _ _ _ hp] at hfind
            exact h.2 p v hfind
        · simp only [hd] at hfind
          exact h.2 p v hfind
    · intro s c rb h _ hw
      have hinv := Reachable_invariant E T dm dsl
      have hprep : RowInvariant E T dm dsl (c.prepare E s) ∧ SourcesNonempty (c.prepare E s) := by
        refine ⟨RowInvariant_prepare E T dm dsl s c h.1, ?_⟩
        intro p v hfind
        rw [AppendCall.prepare_raw] at hfind
        cases hc : c.dimString E with
        | none =>
          simp only [hc] at hfind
          exact h.2 p v hfind
        | some str =>
          simp only [hc] at hfind
          by_cases hd : s.IsDimension = true
          · simp only [hd, if_true] at hfind
            by_cases hp : p = s.rb.GetAppendPos
            · subst hp
              rw [StdMap.find_assign_self] at hfind
              rw [← Option.some.inj hfind]
              exact AppendCall.dimString_ne_empty E hN hE c str hc
            · rw [StdMap.find_assign_ne _ _ _ _ hp] at hfind
              exact h.2 p v hfind
          · simp only [hd] at hfind
            exact h.2 p v hfind
      have hschema := (RowBuilder.Append_some _ _ _ hw).1
      exact ⟨RowInvariant_rb E T dm dsl (c.prepare E s) rb
        (by rw [hschema, (AppendCall.prepare_frame E s c).2.2.2.1]) hprep.1, hprep.2⟩
    · intro s h
      exact ⟨RowInvariant_rb E T dm dsl s _ rfl h.1, h.2⟩
    · intro s h
      rw [(GetDimensions_state s (fun p hp => (h.1.2.2.2.2.2.2 p).2 hp)).1]
      obtain ⟨⟨h1, h2, h3, h4, h5, h6, h7⟩, h8⟩ := h
      exact ⟨⟨h1, h2, h3, h4, h5, h6, h7⟩, h8⟩
  exact hboth.2

end rtidb

namespace rtidb

/-! ## The packed date -/

theorem toInt32_of_lt (n : Nat) (h : n < 2 ^ 31) : toInt32 n = (n : Int) := by
  unfold toInt32
  have h1 : n % 2 ^ 32 = n := Nat.mod_eq_of_lt (by omega)
  rw [h1, if_pos h]

theorem toUInt32_ofNat (n : Nat) (h : n < 2 ^ 32) : toUInt32 (n : Int) = n := by
  unfold toUInt32
  have h1 : ((n : Int) % 2 ^ 32) = (n : Int) := Int.emod_eq_of_lt (by omega) (by omega)
  rw [h1]
  simp

theorem packDate_eq_spec (year month day : Nat) (hy1 : 1900 ≤ year) (hy2 : year ≤ 9999)
    (hm1 : 1 ≤ month) (hm2 : month ≤ 12) (hd2 : day ≤ 31) :
    packDate year month day = (specPackDate year month day : Int) ∧
      specPackDate year month day < 2 ^ 31 := by
  have hys : (year - 1900) <<< 16 < 2 ^ 31 := by
    rw [Nat.shiftLeft_eq]; omega
  have hms : (month - 1) <<< 8 < 2 ^ 31 := by
    rw [Nat.shiftLeft_eq]; omega
  have hds : day < 2 ^ 31 := by omega
  have hym : (year - 1900) <<< 16 ||| (month - 1) <<< 8 < 2 ^ 31 := Nat.or_lt_two_pow hys hms
  have hymd : (year - 1900) <<< 16 ||| (month - 1) <<< 8 ||| day < 2 ^ 31 :=
    Nat.or_lt_two_pow hym hds
  have e1 : (year + 2 ^ 32 - 1900) % 2 ^ 32 = year - 1900 := by omega
  have e2 : (month + 2 ^ 32 - 1) % 2 ^ 32 = month - 1 := by omega
  have e3 : ((year - 1900) <<< 16) % 2 ^ 32 = (year - 1900) <<< 16 :=
    Nat.mod_eq_of_lt (by omega)
  have e4 : ((month - 1) <<< 8) % 2 ^ 32 = (month - 1) <<< 8 := Nat.mod_eq_of_lt (by omega)
  refine ⟨?_, hymd⟩
  unfold packDate specPackDate
  simp only [e1, e2, e3, e4]
  rw [toInt32_of_lt _ hys, toUInt32_ofNat _ (by omega), toInt32_of_lt _ hym,
    toUInt32_ofNat _ (by omega), toInt32_of_lt _ hymd]

theorem stringAt_eq_empty_iff (val : String) (length : Nat) :
    stringAt val length = "" ↔ 0 = length := by
  constructor
  · intro h
    by_contra hne
    exact stringAt_ne_empty val length hne h
  · intro h
    subst h
    rfl

theorem canonical_value (E : External) (s : SQLInsertRow) (c : AppendCall) (str : String)
    (hearly : c.returnsEarly s = false) (hd : s.IsDimension = true)
    (h : canonical E c.value = some str) : c.dimString E = some str := by
  cases c with
  | AppendBool val => exact h
  | AppendInt16 val => exact h
  | AppendInt32 val => exact h
  | AppendInt64 val => exact h
  | AppendTimestamp val => exact h
  | AppendFloat val => simp [AppendCall.value, canonical] at h
  | AppendDouble val => simp [AppendCall.value, canonical] at h
  | AppendString val => exact h
  | AppendStringN val length =>
    simp only [AppendCall.value, canonical, Option.some.injEq] at h
    simp only [AppendCall.dimString, Option.some.injEq]
    rw [← h]
    by_cases hl : 0 = length
    · simp [hl, (stringAt_eq_empty_iff val length).2 hl]
    · have hne : ¬ stringAt val length = "" := fun hc => hl ((stringAt_eq_empty_iff _ _).1 hc)
      simp [hl, hne]
  | AppendDateYMD year month day =>
    simp only [AppendCall.returnsEarly, hd, Bool.true_and, decide_eq_false_iff_not, not_or,
      not_lt, not_le] at hearly
    obtain ⟨⟨hy1, hy2⟩, ⟨hm1, hm2⟩, ⟨_, hd2⟩⟩ := hearly
    simp only [AppendCall.value, canonical, Option.some.injEq] at h
    simp only [AppendCall.dimString, Option.some.injEq]
    rw [← h, (packDate_eq_spec year month day hy1 (by omega) hm1 (by omega) (by omega)).1]
    rfl
  | AppendDate date => exact h
  | AppendNULL => exact h

end rtidb

namespace rtidb

/-! ## Dimension keys -/

theorem singletonGroups_keys (ps : List Nat) :
    ∀ gid : Nat, ((singletonGroups ps gid).map Prod.fst).Pairwise (· < ·) ∧
      ∀ k ∈ (singletonGroups ps gid).map Prod.fst, gid ≤ k := by
  induction ps with
  | nil => intro gid; simp [singletonGroups]
  | cons p rest ih =>
    intro gid
    obtain ⟨h1, h2⟩ := ih (gid + 1)
    rw [singletonGroups]
    simp only [List.map_cons, List.pairwise_cons, List.mem_cons]
    refine ⟨⟨fun k hk => ?_, h1⟩, ?_⟩
    · have := h2 k hk
      omega
    · rintro k (hk | hk)
      · omega
      · have := h2 k hk
        omega

theorem definedGroups_keys (cols : List ColumnDesc) (keys : List ColumnKey) :
    ∀ idx : Nat, ((definedGroups cols keys idx).map Prod.fst).Pairwise (· < ·) ∧
      ∀ k ∈ (definedGroups cols keys idx).map Prod.fst, idx ≤ k := by
  induction keys with
  | nil => intro idx; simp [definedGroups]
  | cons key rest ih =>
    intro idx
    obtain ⟨h1, h2⟩ := ih (idx + 1)
    rw [definedGroups]
    by_cases hn : key.col_name = []
    · simp only [hn, if_true]
      exact ⟨h1, fun k hk => by have := h2 k hk; omega⟩
    · simp only [hn, if_false, List.map_cons, List.pairwise_cons, List.mem_cons]
      refine ⟨⟨fun k hk => ?_, h1⟩, ?_⟩
      · have := h2 k hk
        omega
      · rintro k (hk | hk)
        · omega
        · have := h2 k hk
          omega

theorem ctor_index_sorted (E : External) (T : TableInfo) :
    ((ctorBody E T).index_map.map Prod.fst).Pairwise (· < ·) := by
  by_cases h : T.column_key = []
  · rw [(ctorBody_legacy E T h).1]
    exact (singletonGroups_keys _ 0).1
  · rw [(ctorBody_modern E T h).1]
    exact (definedGroups_keys _ _ 0).1

theorem GetDimensions_of_reachable (E : External) (T : TableInfo)
    (dm : List (Nat × ConstNode)) (dsl : Nat) (hN : E.NONETOKEN ≠ "")
    (hE : E.EMPTY_STRING ≠ "") (s : SQLInsertRow) (hs : Reachable E T dm dsl s)
    (hd : s.dimensions = []) :
    (SQLInsertRow.GetDimensions s).1 =
      s.index_map.map (fun kv => (String.intercalate "|" (kv.2.map s.source), kv.1)) ∧
    (SQLInsertRow.GetDimensions s).1.map Prod.snd = s.index_map.map Prod.fst ∧
    ((SQLInsertRow.GetDimensions s).1.map Prod.snd).Pairwise (· < ·) ∧
    (∀ p, s.indexed p → ∃ v, StdMap.find s.raw_dimensions p = some v ∧ s.source p = v) := by
  have hinv := Reachable_invariant E T dm dsl s hs
  have hne := Reachable_nonempty E T dm dsl hN hE s hs
  have hkeys : ∀ p, s.indexed p → p ∈ StdMap.keys s.raw_dimensions :=
    fun p hp => (hinv.2.2.2.2.2.2 p).2 hp
  have hsrc : ∀ p, s.indexed p → ∃ v, StdMap.find s.raw_dimensions p = some v ∧ v ≠ "" := by
    intro p hp
    have hsome := (StdMap.find_isSome_iff _ _).2 (hkeys p hp)
    cases hfind : StdMap.find s.raw_dimensions p with
    | none => rw [hfind] at hsome; cases hsome
    | some v => exact ⟨v, rfl, hne p v hfind⟩
  have hget : (SQLInsertRow.GetDimensions s).1 =
      s.index_map.map (fun kv => (String.intercalate "|" (kv.2.map s.source), kv.1)) := by
    rw [(GetDimensions_state s hkeys).2 hd]
    apply List.map_congr_left
    intro kv hkv
    have := dimensionKey_intercalate kv.2 s.raw_dimensions
      (fun p hp => hsrc p ⟨kv, hkv, hp⟩)
    rw [this]
    rfl
  have hsnd : (SQLInsertRow.GetDimensions s).1.map Prod.snd = s.index_map.map Prod.fst := by
    rw [hget]
    simp [List.map_map, Function.comp_def]
  refine ⟨hget, hsnd, ?_, ?_⟩
  · rw [hsnd, hinv.2.2.2.2.1]
    exact ctor_index_sorted E T
  · intro p hp
    obtain ⟨v, hv, _⟩ := hsrc p hp
    exact ⟨v, hv, by simp [SQLInsertRow.source, hv]⟩

/-- C2.  On every row that a caller can hold and on which `GetDimensions` has not yet
produced a result, `GetDimensions` returns exactly one (key, group id) pair per index
group, in strictly ascending group-id order, and each key is the "|"-join
(`String.intercalate`) of the dimension sources of the group's member positions in the
group's member order; every member position has a dimension source.  The two codec
tokens are taken to be non-empty strings. -/
theorem GetDimensions_joins_sources (E : External) (T : TableInfo)
    (dm : List (Nat × ConstNode)) (dsl : Nat) (hN : E.NONETOKEN ≠ "")
    (hE : E.EMPTY_STRING ≠ "") (s : SQLInsertRow) (hs : Reachable E T dm dsl s)
    (hd : s.dimensions = []) :
    (SQLInsertRow.GetDimensions s).1 =
      s.index_map.map (fun kv => (String.intercalate "|" (kv.2.map s.source), kv.1)) ∧
    (SQLInsertRow.GetDimensions s).1.map Prod.snd = s.index_map.map Prod.fst ∧
    ((SQLInsertRow.GetDimensions s).1.map Prod.snd).Pairwise (· < ·) ∧
    (∀ p, s.indexed p → ∃ v, StdMap.find s.raw_dimensions p = some v ∧ s.source p = v) :=
  GetDimensions_of_reachable E T dm dsl hN hE s hs hd

theorem Sample.twoGroupRow1_reachable :
    Reachable External.sample Sample.twoGroupTable [] 0 Sample.twoGroupRow1 :=
  Reachable.Append Sample.twoGroupRow0 1 (AppendCall.AppendInt32 7)
    (true, Sample.twoGroupRow1) Reachable.ctor (by decide)

/-- C2, on the row of `Sample.twoGroupTable` after `AppendInt32(7)` at colA: the keys are
"7|" followed by the token of the unwritten colB, and the token of the unwritten colC. -/
theorem GetDimensions_joins_sources_witness :
    External.sample.NONETOKEN ≠ "" ∧ External.sample.EMPTY_STRING ≠ "" ∧
    Sample.twoGroupRow1.dimensions = [] ∧
    (SQLInsertRow.GetDimensions Sample.twoGroupRow1).1 =
      [("7|!N@U#L$L%", 0), ("!N@U#L$L%", 1)] :=
  ⟨by decide, by decide, by decide,
    (GetDimensions_joins_sources External.sample Sample.twoGroupTable [] 0 (by decide)
      (by decide) Sample.twoGroupRow1 Sample.twoGroupRow1_reachable (by decide)).1.trans
      (by decide)⟩

end rtidb

namespace rtidb

theorem SourcesCanonical_prepare (E : External) (s : SQLInsertRow) (c : AppendCall)
    (h : SourcesCanonical E s) : SourcesCanonical E (c.prepare E s) := by
  obtain ⟨_, _, _, f4, f5, _, _⟩ := AppendCall.prepare_frame E s c
  intro p v str hbuf hidx hcan
  rw [f4] at hbuf
  have hidx2 : s.indexed p := by
    unfold SQLInsertRow.indexed at hidx ⊢
    rw [f5] at hidx
    exact hidx
  have hold := h p v str hbuf hidx2 hcan
  have hp : p ≠ s.rb.GetAppendPos := by
    intro hc
    have hlt : p < s.rb.buf.length := by
      by_contra hge
      rw [List.getElem?_eq_none (by omega)] at hbuf
      cases hbuf
    rw [hc] at hlt
    simp [RowBuilder.GetAppendPos] at hlt
  rw [AppendCall.prepare_raw]
  cases c.dimString E with
  | none => exact hold
  | some str2 =>
    by_cases hd : s.IsDimension = true
    · simp only [hd, if_true]
      rw [StdMap.find_assign_ne _ _ _ _ hp]
      exact hold
    · simp only [hd]
      exact hold

theorem SourcesCanonical_written (E : External) (s : SQLInsertRow) (c : AppendCall)
    (rb : RowBuilder) (h : SourcesCanonical E s) (hearly : c.returnsEarly s = false)
    (hw : s.rb.Append c.value = some rb) : SourcesCanonical E (c.written E s rb) := by
  obtain ⟨_, _, _, f4, f5, _, _⟩ := AppendCall.prepare_frame E s c
  obtain ⟨_, hbuf2, _⟩ := RowBuilder.Append_some _ _ _ hw
  have hprep := SourcesCanonical_prepare E s c h
  intro p v str hbuf hidx hcan
  have hidx1 : (c.prepare E s).indexed p := hidx
  have hidx2 : s.indexed p := by
    unfold SQLInsertRow.indexed at hidx1 ⊢
    rw [f5] at hidx1
    exact hidx1
  have hbuf3 : (s.rb.buf ++ [c.value])[p]? = some v := by
    have : (c.written E s rb).rb.buf = s.rb.buf ++ [c.value] := hbuf2
    rw [← this]
    exact hbuf
  show StdMap.find (c.prepare E s).raw_dimensions p = some str
  by_cases hlt : p < s.rb.buf.length
  · rw [List.getElem?_append_left hlt] at hbuf3
    exact hprep p v str (by rw [f4]; exact hbuf3) hidx1 hcan
  · have hple : p = s.rb.buf.length := by
      by_contra hne
      rw [List.getElem?_eq_none (by simp; omega)] at hbuf3
      cases hbuf3
    subst hple
    simp at hbuf3
    subst hbuf3
    have hd : s.IsDimension = true := (IsDimension_iff s).2 hidx2
    have hdim := canonical_value E s c str hearly hd hcan
    rw [AppendCall.prepare_raw, hdim]
    simp only [hd, if_true]
    exact StdMap.find_assign_self _ _ _

theorem Reachable_canonical (E : External) (T : TableInfo) (dm : List (Nat × ConstNode))
    (dsl : Nat) (s : SQLInsertRow) (hs : Reachable E T dm dsl s) : SourcesCanonical E s := by
  have hboth : RowInvariant E T dm dsl s ∧ SourcesCanonical E s := by
    refine Reachable_induct E T dm dsl
      (fun s => RowInvariant E T dm dsl s ∧ SourcesCanonical E s) ?_ ?_ ?_ ?_ ?_ s hs
    · refine ⟨(ctor_facts E T dm dsl).1, ?_⟩
      intro p v str hbuf _ _
      simp [SQLInsertRow.new] at hbuf
    · intro s c h
      exact ⟨RowInvariant_prepare E T dm dsl s c h.1, SourcesCanonical_prepare E s c h.2⟩
    · intro s c rb h hearly hw
      have hschema := (RowBuilder.Append_some _ _ _ hw).1
      exact ⟨RowInvariant_rb E T dm dsl (c.prepare E s) rb
        (by rw [hschema, (AppendCall.prepare_frame E s c).2.2.2.1])
        (RowInvariant_prepare E T dm dsl s c h.1),
        SourcesCanonical_written E s c rb h.2 hearly hw⟩
    · intro s h
      refine ⟨RowInvariant_rb E T dm dsl s _ rfl h.1, ?_⟩
      intro p v str hbuf _ _
      simp at hbuf
    · intro s h
      rw [(GetDimensions_state s (fun p hp => (h.1.2.2.2.2.2.2 p).2 hp)).1]
      obtain ⟨⟨h1, h2, h3, h4, h5, h6, h7⟩, h8⟩ := h
      exact ⟨⟨h1, h2, h3, h4, h5, h6, h7⟩, h8⟩
  exact hboth.2

/-- C3.  For every table with explicit index definitions and every row of it that a
caller can hold, if every indexed position has been written (by an append of a typed
value or of null) with a value that has a canonical string, and `GetDimensions` has not
yet produced a result, then the index groups are those of the definitions and the key of
each group is the "|"-join, in member order, of the canonical strings of the values
written at its members, the null token standing for a null.  The two codec tokens are
taken to be non-empty strings. -/
theorem GetDimensions_joins_canonical (E : External) (T : TableInfo)
    (dm : List (Nat × ConstNode)) (dsl : Nat) (hT : T.column_key ≠ [])
    (hN : E.NONETOKEN ≠ "") (hE : E.EMPTY_STRING ≠ "") (s : SQLInsertRow)
    (hs : Reachable E T dm dsl s) (hd : s.dimensions = [])
    (hall : ∀ p, s.indexed p → ∃ v str, s.rb.buf[p]? = some v ∧ canonical E v = some str) :
    s.index_map = definedGroups T.column_desc_v1 T.column_key 0 ∧
    (SQLInsertRow.GetDimensions s).1 =
      s.index_map.map
        (fun kv => (String.intercalate "|" (kv.2.map (s.canonicalAt E)), kv.1)) ∧
    canonical E Value.null = some E.NONETOKEN := by
  have hinv := Reachable_invariant E T dm dsl s hs
  have hcan := Reachable_canonical E T dm dsl s hs
  refine ⟨hinv.2.2.2.2.1.trans (ctorBody_modern E T hT).1, ?_, rfl⟩
  rw [(GetDimensions_of_reachable E T dm dsl hN hE s hs hd).1]
  apply List.map_congr_left
  intro kv hkv
  have hmem : kv.2.map s.source = kv.2.map (s.canonicalAt E) := by
    apply List.map_congr_left
    intro p hp
    obtain ⟨v, str, hbuf, hstr⟩ := hall p ⟨kv, hkv, hp⟩
    have hfind := hcan p v str hbuf ⟨kv, hkv, hp⟩ hstr
    simp [SQLInsertRow.source, SQLInsertRow.canonicalAt, hfind, hbuf, hstr]
  rw [hmem]

theorem Sample.twoGroupRow3_reachable :
    Reachable External.sample Sample.twoGroupTable [] 0 Sample.twoGroupRow3 :=
  Reachable.Append Sample.twoGroupRow2 1 (AppendCall.AppendString "x")
    (true, Sample.twoGroupRow3)
    (Reachable.Append Sample.twoGroupRow1 1 AppendCall.AppendNULL
      (true, Sample.twoGroupRow2) Sample.twoGroupRow1_reachable (by decide))
    (by decide)

/-- C3, on the row of the groups [colA, colB] and [colC] after `AppendInt32(7)`,
`AppendNULL()` and `AppendString("x")`: the three calls succeed and `GetDimensions`
returns the key "7|" followed by the null token for group 0 and the key "x" for group 1. -/
theorem GetDimensions_joins_canonical_witness :
    Sample.twoGroupTable.column_key ≠ [] ∧
    Option.map Prod.fst (SQLInsertRow.AppendInt32 External.sample 1 Sample.twoGroupRow0 7) =
      some true ∧
    Option.map Prod.fst (SQLInsertRow.AppendNULL External.sample 1 Sample.twoGroupRow1) =
      some true ∧
    Option.map Prod.fst (SQLInsertRow.AppendString External.sample 1 Sample.twoGroupRow2 "x") =
      some true ∧
    (SQLInsertRow.GetDimensions Sample.twoGroupRow3).1 =
      [("7|" ++ External.sample.NONETOKEN, 0), ("x", 1)] := by
  refine ⟨by decide, by decide, by decide, by decide, ?_⟩
  have h := (GetDimensions_joins_canonical External.sample Sample.twoGroupTable [] 0
    (by decide) (by decide) (by decide) Sample.twoGroupRow3 Sample.twoGroupRow3_reachable
    (by decide) (by
      rintro p ⟨kv, hkv, hp⟩
      have hkv2 : kv = (0, [0, 1]) ∨ kv = (1, [2]) := by
        have : Sample.twoGroupRow3.index_map = [(0, [0, 1]), (1, [2])] := by decide
        rw [this] at hkv
        simpa using hkv
      rcases hkv2 with h1 | h1
      · subst h1
        have hp2 : p = 0 ∨ p = 1 := by simpa using hp
        rcases hp2 with h2 | h2
        · subst h2; exact ⟨Value.int32 7, "7", by decide, by decide⟩
        · subst h2; exact ⟨Value.null, External.sample.NONETOKEN, by decide, by decide⟩
      · subst h1
        have hp2 : p = 2 := by simpa using hp
        subst hp2
        exact ⟨Value.string "x", "x", by decide, by decide⟩)).2.1
  rw [h]
  decide

end rtidb

namespace rtidb

/-! ## What a call leaves behind -/

theorem accepted_call_effects (E : External) (fuel : Nat) (s : SQLInsertRow) (c : AppendCall)
    (r : Bool × SQLInsertRow) (h : c.run E fuel s = some r) (hr : r.1 = true) :
    c.returnsEarly s = false ∧ (∃ rb, s.rb.Append c.value = some rb) ∧
    StdMap.find r.2.raw_dimensions s.rb.GetAppendPos =
      StdMap.find (c.prepare E s).raw_dimensions s.rb.GetAppendPos ∧
    (∃ rest, r.2.ts = (c.prepare E s).ts ++ rest) ∧
    (StdMap.find s.default_map (s.rb.GetAppendPos + 1) = none →
      r.2.ts = (c.prepare E s).ts) := by
  rw [AppendCall.run_eq_runK] at h
  rcases AppendCall.runK_cases E _ s c r h with ⟨_, hr2⟩ | ⟨_, _, hr2⟩ | ⟨he, rb, hw, hk⟩
  · rw [hr2] at hr; cases hr
  · rw [hr2] at hr; cases hr
  · obtain ⟨hpos, _⟩ := RowBuilder.Append_pos _ _ _ hw
    have hP := (calls_preserve E
      (fun s1 => s.rb.GetAppendPos < s1.rb.GetAppendPos ∧
        StdMap.find s1.raw_dimensions s.rb.GetAppendPos =
          StdMap.find (c.prepare E s).raw_dimensions s.rb.GetAppendPos ∧
        ∃ rest, s1.ts = (c.prepare E s).ts ++ rest)
      (by
        intro s1 c1 ⟨h1, h2, rest, h3⟩
        obtain ⟨_, _, _, f4, _, _, _⟩ := AppendCall.prepare_frame E s1 c1
        refine ⟨by rw [f4]; exact h1, ?_, ?_⟩
        · rw [← h2, AppendCall.prepare_raw]
          cases c1.dimString E with
          | none => rfl
          | some str =>
            by_cases hd : s1.IsDimension = true
            · simp only [hd, if_true]
              exact StdMap.find_assign_ne _ _ _ _ (by omega)
            · simp [hd]
        · rw [AppendCall.prepare_ts]
          cases c1.tsValue with
          | none => exact ⟨rest, h3⟩
          | some t =>
            by_cases hm : s1.rb.GetAppendPos ∈ s1.ts_set
            · exact ⟨rest ++ [t], by simp [hm, h3]⟩
            · exact ⟨rest, by simp [hm, h3]⟩)
      (by
        intro s1 c1 rb1 ⟨h1, h2, rest, h3⟩ _ hw1
        obtain ⟨hpos1, _⟩ := RowBuilder.Append_pos _ _ _ hw1
        have hrb : (c1.written E s1 rb1).rb = rb1 := rfl
        refine ⟨by rw [hrb, hpos1]; omega, ?_, ?_⟩
        · show StdMap.find (c1.prepare E s1).raw_dimensions s.rb.GetAppendPos = _
          rw [← h2, AppendCall.prepare_raw]
          cases c1.dimString E with
          | none => rfl
          | some str =>
            by_cases hd : s1.IsDimension = true
            · simp only [hd, if_true]
              exact StdMap.find_assign_ne _ _ _ _ (by omega)
            · simp [hd]
        · show ∃ rest2, (c1.prepare E s1).ts = _
          rw [AppendCall.prepare_ts]
          cases c1.tsValue with
          | none => exact ⟨rest, h3⟩
          | some t =>
            by_cases hm : s1.rb.GetAppendPos ∈ s1.ts_set
            · exact ⟨rest ++ [t], by simp [hm, h3]⟩
            · exact ⟨rest, by simp [hm, h3]⟩)).1 fuel (c.written E s rb) r
      ⟨by show s.rb.GetAppendPos < rb.GetAppendPos; omega, rfl, [], by
        show (c.prepare E s).ts = _
        simp⟩ hk
    refine ⟨he, ⟨rb, hw⟩, hP.2.1, hP.2.2, ?_⟩
    intro hnone
    have hdm : (c.prepare E s).default_map = s.default_map :=
      (AppendCall.prepare_frame E s c).2.1
    cases fuel with
    | zero => simp [SQLInsertRow.MakeDefault] at hk
    | succ fuel =>
      rw [MakeDefault_succ] at hk
      have hfind : StdMap.find (c.written E s rb).default_map (c.written E s rb).rb.GetAppendPos
          = none := by
        show StdMap.find (c.prepare E s).default_map rb.GetAppendPos = none
        rw [hdm, hpos]
        exact hnone
      rw [hfind] at hk
      simp only [Option.some.injEq] at hk
      rw [← hk]
      rfl

end rtidb

namespace rtidb

/-! ## Null, empty strings, dates and time columns -/

/-- C4, as stated, fails.  In the table of the groups [colA, colB] and [colC], the row
after `AppendInt32(7)` has colB never written, and the row after the further, successful
`AppendNULL()` has colB appended as null: both hold the same dimension source at
position 1, the token that the constructor registered. -/
theorem null_token_counterexample :
    Option.map Prod.fst (SQLInsertRow.AppendNULL External.sample 1 Sample.twoGroupRow1) =
      some true ∧
    Sample.twoGroupRow1.rb.GetAppendPos = 1 ∧
    Sample.twoGroupRow1.IsDimension = true ∧
    StdMap.find Sample.twoGroupRow2.raw_dimensions 1 = some External.sample.NONETOKEN ∧
    StdMap.find Sample.twoGroupRow1.raw_dimensions 1 = some External.sample.NONETOKEN ∧
    StdMap.find Sample.twoGroupRow0.raw_dimensions 1 = some External.sample.NONETOKEN := by
  decide

/-- C4 (amended).  For every indexed column position, the dimension source stored by a
successful `AppendNULL` at that position is the token `NONETOKEN`, the same token that
the constructor registers for every indexed position: a row in which an indexed column
was appended as null and a row in which it was never written hold the same dimension
source there.  It differs from the empty-string token whenever the two codec tokens
differ. -/
theorem null_source_is_none_token (E : External) (T : TableInfo)
    (dm : List (Nat × ConstNode)) (dsl : Nat) (fuel : Nat) (s : SQLInsertRow)
    (r : Bool × SQLInsertRow) (hd : s.IsDimension = true)
    (h : SQLInsertRow.AppendNULL E fuel s = some r) (hr : r.1 = true) :
    StdMap.find r.2.raw_dimensions s.rb.GetAppendPos = some E.NONETOKEN ∧
    (∀ p, p ∈ StdMap.keys (SQLInsertRow.new E T dm dsl).raw_dimensions →
      StdMap.find (SQLInsertRow.new E T dm dsl).raw_dimensions p = some E.NONETOKEN) ∧
    (E.NONETOKEN ≠ E.EMPTY_STRING →
      StdMap.find r.2.raw_dimensions s.rb.GetAppendPos ≠ some E.EMPTY_STRING) := by
  have hfind : StdMap.find r.2.raw_dimensions s.rb.GetAppendPos = some E.NONETOKEN := by
    rw [(accepted_call_effects E fuel s AppendCall.AppendNULL r h hr).2.2.1,
      AppendCall.prepare_raw]
    simp only [AppendCall.dimString, hd, if_true]
    exact StdMap.find_assign_self _ _ _
  refine ⟨hfind, ?_, ?_⟩
  · intro p hp
    have hsome := (StdMap.find_isSome_iff _ _).2 hp
    cases hf : StdMap.find (SQLInsertRow.new E T dm dsl).raw_dimensions p with
    | none => rw [hf] at hsome; cases hsome
    | some v => rw [(ctor_facts E T dm dsl).2 p v hf]
  · intro hne hc
    rw [hfind] at hc
    exact hne (Option.some.inj hc)

/-- C4 (amended), on the row of the counterexample: `AppendNULL()` at colB succeeds and
leaves the token `NONETOKEN` at position 1. -/
theorem null_source_is_none_token_witness :
    Sample.twoGroupRow1.IsDimension = true ∧
    SQLInsertRow.AppendNULL External.sample 1 Sample.twoGroupRow1 =
      some (true, Sample.twoGroupRow2) ∧
    StdMap.find Sample.twoGroupRow2.raw_dimensions Sample.twoGroupRow1.rb.GetAppendPos =
      some External.sample.NONETOKEN :=
  ⟨by decide, by decide,
    (null_source_is_none_token External.sample Sample.twoGroupTable [] 0 1
      Sample.twoGroupRow1 (true, Sample.twoGroupRow2) (by decide) (by decide) rfl).1⟩

end rtidb

namespace rtidb

theorem explicit_member_indexed (E : External) (T : TableInfo) (dm : List (Nat × ConstNode))
    (dsl : Nat) (s : SQLInsertRow) (hs : Reachable E T dm dsl s) (hT : T.column_key ≠ [])
    (name : String) (hkey : ∃ key ∈ T.column_key, name ∈ key.col_name) :
    s.indexed (columnPosition T.column_desc_v1 name) := by
  have hinv := Reachable_invariant E T dm dsl s hs
  unfold SQLInsertRow.indexed
  rw [hinv.2.2.2.2.1, (ctorBody_modern E T hT).1, mem_definedGroups]
  obtain ⟨key, hk, hn⟩ := hkey
  simp only [List.mem_flatten, List.mem_map]
  exact ⟨key.col_name.map (columnPosition T.column_desc_v1), ⟨key, hk, rfl⟩,
    List.mem_map.2 ⟨name, hn, rfl⟩⟩

theorem legacy_time_column_not_indexed (E : External) (T : TableInfo)
    (dm : List (Nat × ConstNode)) (dsl : Nat) (s : SQLInsertRow)
    (hs : Reachable E T dm dsl s) (hT : T.column_key = []) (p : Nat) (col : ColumnDesc)
    (hcol : T.column_desc_v1[p]? = some col) (hts : col.is_ts_col = true) :
    ¬ s.indexed p := by
  have hinv := Reachable_invariant E T dm dsl s hs
  unfold SQLInsertRow.indexed
  rw [hinv.2.2.2.2.1, (ctorBody_legacy E T hT).1, mem_singletonGroups, legacyIndexColumns_mem]
  rintro ⟨_, c, hc, _, hc2⟩
  simp only [Nat.sub_zero] at hc
  rw [hcol] at hc
  cases hc
  rw [hts] at hc2
  cases hc2

theorem toUInt64_of_nonneg (v : Int) (h0 : 0 ≤ v) (h1 : v < 2 ^ 64) :
    ((toUInt64 v : Nat) : Int) = v := by
  unfold toUInt64
  rw [Int.emod_eq_of_lt h0 h1]
  exact Int.toNat_of_nonneg h0

/-- C10, as stated, fails.  With the legacy flags, the single 64-bit column `t` carries
both `is_ts_col` and `add_ts_idx`: the successful `AppendInt64(5)` records 5 in the
timestamp sequence, but the column is in no index group and no dimension source is set.
And where the index membership comes from the explicit definition [t] and the next time
column `u` has the default 9, the successful `AppendInt64(5)` leaves the timestamp
sequence [5, 9]: the operand is not at its end. -/
theorem time_index_counterexample :
    (SQLInsertRow.new External.sample Sample.legacyTimeTable [] 0).index_map = [] ∧
    observe (SQLInsertRow.AppendInt64 External.sample 1
      (SQLInsertRow.new External.sample Sample.legacyTimeTable [] 0) 5) =
      some (true, 1, [], [5]) ∧
    observe (SQLInsertRow.AppendInt64 External.sample 2
      (SQLInsertRow.new External.sample Sample.twoTimeTable [(1, Sample.longDefault 9)] 0) 5) =
      some (true, 2, [(0, "5")], [5, 9]) := by
  refine ⟨by decide, by decide, by decide⟩

/-- C10 (amended).  For a 64-bit integer column that is flagged as a time column and is a
member of an explicit index definition, one successful `AppendInt64(v)` at that column
puts v, as the unsigned 64-bit value that `PackTs` receives, into the row's timestamp
sequence directly behind the values it held before the call (at its very end when the
next column has no default; chained default fills of later time columns come behind
it), and sets that position's dimension source to the decimal string of v.  With the
legacy per-column flags a column flagged as a time column is in no index group. -/
theorem int64_time_index_append (E : External) (T : TableInfo)
    (dm : List (Nat × ConstNode)) (dsl : Nat) (s : SQLInsertRow)
    (hs : Reachable E T dm dsl s) (fuel : Nat) (v : Int) (r : Bool × SQLInsertRow)
    (col : ColumnDesc) (hcol : T.column_desc_v1[s.rb.GetAppendPos]? = some col)
    (hts : col.is_ts_col = true)
    (h : SQLInsertRow.AppendInt64 E fuel s v = some r) (hr : r.1 = true) :
    (T.column_key ≠ [] → (∃ key ∈ T.column_key, col.name ∈ key.col_name) →
      columnPosition T.column_desc_v1 col.name = s.rb.GetAppendPos →
      StdMap.find r.2.raw_dimensions s.rb.GetAppendPos = some (toString v)) ∧
    (∃ rest, r.2.ts = s.ts ++ toUInt64 v :: rest) ∧
    (StdMap.find dm (s.rb.GetAppendPos + 1) = none → r.2.ts = s.ts ++ [toUInt64 v]) ∧
    (0 ≤ v → v < 2 ^ 64 → ((toUInt64 v : Nat) : Int) = v) ∧
    (T.column_key = [] → ¬ s.indexed s.rb.GetAppendPos) := by
  have hinv := Reachable_invariant E T dm dsl s hs
  have heff := accepted_call_effects E fuel s (AppendCall.AppendInt64 v) r h hr
  have hmem : s.rb.GetAppendPos ∈ s.ts_set := by
    rw [hinv.2.2.2.2.2.1, ctorBody_ts_set]
    exact ⟨col, hcol, hts⟩
  have hprep_ts : ((AppendCall.AppendInt64 v).prepare E s).ts = s.ts ++ [toUInt64 v] := by
    rw [AppendCall.prepare_ts]
    simp [AppendCall.tsValue, hmem]
  refine ⟨?_, ?_, ?_, toUInt64_of_nonneg v, ?_⟩
  · intro hT hkey hfirst
    have hidx := explicit_member_indexed E T dm dsl s hs hT col.name hkey
    rw [hfirst] at hidx
    have hd : s.IsDimension = true := (IsDimension_iff s).2 hidx
    rw [heff.2.2.1, AppendCall.prepare_raw]
    simp only [AppendCall.dimString, hd, if_true]
    exact StdMap.find_assign_self _ _ _
  · obtain ⟨rest, hrest⟩ := heff.2.2.2.1
    exact ⟨rest, by rw [hrest, hprep_ts]; simp⟩
  · intro hnone
    rw [heff.2.2.2.2 (by rw [hinv.2.1]; exact hnone), hprep_ts]
  · intro hT
    exact legacy_time_column_not_indexed E T dm dsl s hs hT _ col hcol hts

/-- C10 (amended), on the fresh row of a table whose 64-bit time column `t` is indexed by
the explicit definition [t]: `AppendInt64(5)` succeeds, the dimension source of position 0
is "5" and the timestamp sequence is [5]. -/
theorem int64_time_index_append_witness :
    Sample.timeIndexTable.column_desc_v1[(SQLInsertRow.new External.sample
      Sample.timeIndexTable [] 0).rb.GetAppendPos]? = some ⟨"t", .kBigInt, true, false⟩ ∧
    observe (SQLInsertRow.AppendInt64 External.sample 1
      (SQLInsertRow.new External.sample Sample.timeIndexTable [] 0) 5) =
      some (true, 1, [(0, "5")], [5]) ∧
    StdMap.find (rowAfter (SQLInsertRow.new External.sample Sample.timeIndexTable [] 0)
      (SQLInsertRow.AppendInt64 External.sample 1
        (SQLInsertRow.new External.sample Sample.timeIndexTable [] 0) 5)).raw_dimensions
      (SQLInsertRow.new External.sample Sample.timeIndexTable [] 0).rb.GetAppendPos =
      some (toString (5 : Int)) :=
  ⟨by decide, by decide,
    (int64_time_index_append External.sample Sample.timeIndexTable [] 0
      (SQLInsertRow.new External.sample Sample.timeIndexTable [] 0) Reachable.ctor 1 5
      (true, rowAfter (SQLInsertRow.new External.sample Sample.timeIndexTable [] 0)
        (SQLInsertRow.AppendInt64 External.sample 1
          (SQLInsertRow.new External.sample Sample.timeIndexTable [] 0) 5))
      ⟨"t", .kBigInt, true, false⟩ (by decide) rfl (by decide) rfl).1
      (by decide) ⟨⟨["t"]⟩, by decide, by decide⟩ (by decide)⟩

end rtidb

namespace rtidb

/-! ## The default chain -/

end rtidb

namespace rtidb

theorem Init_cases (E : External) (fuel : Nat) (s : SQLInsertRow) (str_length : Int)
    (r : Bool × SQLInsertRow) (h : SQLInsertRow.Init E fuel s str_length = some r) :
    r = (false, s) ∨
      ∃ r2, SQLInsertRow.MakeDefault E fuel { s with rb := { s.rb with buf := [] } } = some r2 ∧
        r = (true, r2.2) := by
  unfold SQLInsertRow.Init at h
  by_cases hok : E.SetBufferOk (E.CalTotalLength (str_length + ↑s.default_string_length)) = true
  · simp only [RowBuilder.SetBuffer, hok, if_true] at h
    cases hm : SQLInsertRow.MakeDefault E fuel { s with rb := { s.rb with buf := [] } } with
    | none => simp [hm] at h
    | some r2 =>
      simp only [hm, Option.some.injEq] at h
      exact Or.inr ⟨r2, rfl, h.symm⟩
  · simp only [RowBuilder.SetBuffer, hok, Bool.false_eq_true, if_false,
      Option.some.injEq] at h
    exact Or.inl h.symm

theorem Sample.fiveColumnRow1_reachable :
    Reachable External.sample Sample.fiveColumnTable Sample.middleDefaults 0
      Sample.fiveColumnRow1 :=
  Reachable.Init Sample.fiveColumnRow0 6 0 (true, Sample.fiveColumnRow1) Reachable.ctor
    (by decide)

theorem Sample.fiveColumnRow2_reachable :
    Reachable External.sample Sample.fiveColumnTable Sample.middleDefaults 0
      Sample.fiveColumnRow2 :=
  Reachable.Append Sample.fiveColumnRow1 6 (AppendCall.AppendInt32 1)
    (true, Sample.fiveColumnRow2) Sample.fiveColumnRow1_reachable (by decide)

end rtidb

namespace rtidb

/-! ## The row batch -/

theorem NewRow_cases (E : External) (b : SQLInsertRows) :
    ((SQLInsertRows.NewRow E b).1 = none ↔
      (b.rows ≠ [] ∧ ∃ back, b.rows.getLast? = some back ∧ back.IsComplete = false)) ∧
    ((SQLInsertRows.NewRow E b).1 = none → (SQLInsertRows.NewRow E b).2 = b) ∧
    ((SQLInsertRows.NewRow E b).1 ≠ none →
      (SQLInsertRows.NewRow E b).1 =
        some (SQLInsertRow.new E b.table_info b.default_map b.default_str_length) ∧
      (SQLInsertRows.NewRow E b).2.rows =
        b.rows ++ [SQLInsertRow.new E b.table_info b.default_map b.default_str_length] ∧
      (SQLInsertRows.NewRow E b).2.table_info = b.table_info ∧
      (SQLInsertRows.NewRow E b).2.default_map = b.default_map ∧
      (SQLInsertRows.NewRow E b).2.default_str_length = b.default_str_length) := by
  unfold SQLInsertRows.NewRow
  cases hlast : b.rows.getLast? with
  | none =>
    have hnil : b.rows = [] := List.getLast?_eq_none_iff.1 hlast
    simp [hnil]
  | some back =>
    have hne : b.rows ≠ [] := by
      intro hnil
      rw [hnil] at hlast
      simp at hlast
    by_cases hc : back.IsComplete = true
    · simp [hc, hne]
    · have hc2 : back.IsComplete = false := by simpa using hc
      simp [hc2, hne]

/-- C11.  For every batch state, `NewRow` returns no row exactly when the row sequence is
non-empty and its last row is incomplete, and then the batch is left as it was;
otherwise it returns a new row, built by the row constructor from the batch's table,
defaults and default string length, and the row sequence afterwards is the old sequence
with exactly that row appended at the end. -/
theorem NewRow_refuses_iff_last_incomplete (E : External) (b : SQLInsertRows) :
    ((SQLInsertRows.NewRow E b).1 = none ↔
      (b.rows ≠ [] ∧ ∃ back, b.rows.getLast? = some back ∧ back.IsComplete = false)) ∧
    ((SQLInsertRows.NewRow E b).1 = none → (SQLInsertRows.NewRow E b).2 = b) ∧
    ((SQLInsertRows.NewRow E b).1 ≠ none →
      (SQLInsertRows.NewRow E b).1 =
        some (SQLInsertRow.new E b.table_info b.default_map b.default_str_length) ∧
      (SQLInsertRows.NewRow E b).2.rows =
        b.rows ++ [SQLInsertRow.new E b.table_info b.default_map b.default_str_length] ∧
      (SQLInsertRows.NewRow E b).2.table_info = b.table_info ∧
      (SQLInsertRows.NewRow E b).2.default_map = b.default_map ∧
      (SQLInsertRows.NewRow E b).2.default_str_length = b.default_str_length) :=
  NewRow_cases E b

end rtidb

namespace rtidb

/-- C11, on two batches: with an unfinished last row `NewRow` returns no row and leaves
the batch as it was; with a finished last row it appends the fresh row. -/
theorem NewRow_refuses_iff_last_incomplete_witness :
    (SQLInsertRows.NewRow External.sample Sample.openBatch).1 = none ∧
    (SQLInsertRows.NewRow External.sample Sample.openBatch).2 = Sample.openBatch ∧
    (SQLInsertRows.NewRow External.sample Sample.closedBatch).1 ≠ none ∧
    (SQLInsertRows.NewRow External.sample Sample.closedBatch).2.rows =
      [Sample.twoGroupRow3, Sample.twoGroupRow0] :=
  ⟨by decide,
    (NewRow_refuses_iff_last_incomplete External.sample Sample.openBatch).2.1 (by decide),
    by decide,
    ((NewRow_refuses_iff_last_incomplete External.sample Sample.closedBatch).2.2
      (by decide)).2.1⟩

/-! ## The result of the default chain -/

theorem run_reports_chain (E : External) (fuel : Nat) (s : SQLInsertRow) (c : AppendCall)
    (rb : RowBuilder) (hearly : c.returnsEarly s = false)
    (hw : s.rb.Append c.value = some rb) :
    c.run E fuel s = SQLInsertRow.MakeDefault E fuel (c.written E s rb) := by
  rw [AppendCall.run_eq_runK, AppendCall.runK_eq]
  have hne : ¬ c.returnsEarly s = true := by rw [hearly]; simp
  rw [if_neg hne]
  unfold SQLInsertRow.writeThen
  rw [(AppendCall.prepare_frame E s c).2.2.2.1, hw]
  rfl

/-- C12, the code at a failing input.  The single column has a type without an append
path and a non-null default: on the fresh row the default chain, started at column 0,
reports failure, and `Init` returns true all the same.  On a table where that column
comes second, the explicit `AppendInt32(1)` at the first column triggers the same chain
and returns false. -/
theorem Init_discards_chain_failure :
    Option.map Prod.fst (SQLInsertRow.MakeDefault External.sample 2
      (SQLInsertRow.new External.sample Sample.unsupportedTable
        [(0, Sample.longDefault 9)] 0)) = some false ∧
    Option.map Prod.fst (SQLInsertRow.Init External.sample 2
      (SQLInsertRow.new External.sample Sample.unsupportedTable
        [(0, Sample.longDefault 9)] 0) 0) = some true ∧
    Option.map Prod.fst (SQLInsertRow.AppendInt32 External.sample 2
      (SQLInsertRow.new External.sample Sample.unsupportedSecondTable
        [(1, Sample.longDefault 9)] 0) 1) = some false :=
  ⟨by decide, by decide, by decide⟩

end rtidb

namespace rtidb

/-! ## Decimal strings and the packed date -/

theorem specPackDate_eq_sum (year month day : Nat) (hm : month ≤ 12) (hd : day ≤ 31) :
    specPackDate year month day = (year - 1900) * 65536 + (month - 1) * 256 + day := by
  unfold specPackDate
  rw [Nat.shiftLeft_eq, Nat.shiftLeft_eq]
  have h1 : (year - 1900) * 2 ^ 16 ||| (month - 1) * 2 ^ 8 =
      (year - 1900) * 2 ^ 16 + (month - 1) * 2 ^ 8 := by
    have := Nat.mul_add_lt_is_or (i := 16) (b := (month - 1) * 2 ^ 8) (by omega) (year - 1900)
    rw [Nat.mul_comm (2 ^ 16)] at this
    exact this.symm
  rw [h1]
  have h2 : (year - 1900) * 2 ^ 16 + (month - 1) * 2 ^ 8 =
      2 ^ 8 * ((year - 1900) * 2 ^ 8 + (month - 1)) := by ring
  rw [h2, ← Nat.mul_add_lt_is_or (i := 8) (b := day) (by omega)]
  ring

theorem specPackDate_facts (year month day : Nat) (h : dateInRange year month day) :
    packDate year month day = (specPackDate year month day : Int) ∧
    specPackDate year month day ≤ (8099 <<< 16) ||| (11 <<< 8) ||| 31 ∧
    specPackDate year month day < 2 ^ 31 ∧
    toString (packDate year month day) = toString (specPackDate year month day) := by
  obtain ⟨hy1, hy2, hm1, hm2, hd1, hd2⟩ := h
  obtain ⟨h1, h2⟩ := packDate_eq_spec year month day hy1 hy2 hm1 hm2 hd2
  refine ⟨h1, ?_, h2, by rw [h1]; rfl⟩
  have hmax : (8099 <<< 16) ||| (11 <<< 8) ||| 31 = specPackDate 9999 12 31 := by decide
  rw [hmax, specPackDate_eq_sum year month day hm2 hd2,
    specPackDate_eq_sum 9999 12 31 (by omega) (by omega)]
  omega

end rtidb

namespace rtidb

theorem dateYMD_source (E : External) (fuel : Nat) (s : SQLInsertRow) (year month day : Nat)
    (r : Bool × SQLInsertRow) (hd : s.IsDimension = true)
    (h : SQLInsertRow.AppendDateYMD E fuel s year month day = some r) (hr : r.1 = true) :
    StdMap.find r.2.raw_dimensions s.rb.GetAppendPos =
      some (toString (packDate year month day)) := by
  have h2 : (AppendCall.AppendDateYMD year month day).run E fuel s = some r := h
  rw [(accepted_call_effects E fuel s _ r h2 hr).2.2.1, AppendCall.prepare_raw]
  simp only [AppendCall.dimString, hd, if_true]
  exact StdMap.find_assign_self _ _ _

/-- C13.  For every valid date (1900 ≤ year ≤ 9999, 1 ≤ month ≤ 12, 1 ≤ day ≤ 31)
appended successfully with `AppendDate(year, month, day)` at an indexed position, the
stored dimension source is the decimal rendering of
`((year-1900)<<16) | ((month-1)<<8) | day`; the value that the code computes in
`int32_t date` is that number, it is non-negative, below 2^31, and at most
`(8099<<16) | (11<<8) | 31`. -/
theorem valid_date_source (E : External) (fuel : Nat) (s : SQLInsertRow)
    (year month day : Nat) (r : Bool × SQLInsertRow) (hrange : dateInRange year month day)
    (hd : s.IsDimension = true)
    (h : SQLInsertRow.AppendDateYMD E fuel s year month day = some r) (hr : r.1 = true) :
    StdMap.find r.2.raw_dimensions s.rb.GetAppendPos =
      some (toString (specPackDate year month day)) ∧
    packDate year month day = (specPackDate year month day : Int) ∧
    0 ≤ packDate year month day ∧
    packDate year month day < 2 ^ 31 ∧
    specPackDate year month day ≤ (8099 <<< 16) ||| (11 <<< 8) ||| 31 := by
  obtain ⟨h1, h2, h3, h4⟩ := specPackDate_facts year month day hrange
  refine ⟨?_, h1, ?_, ?_, h2⟩
  · rw [dateYMD_source E fuel s year month day r hd h hr, h4]
  · rw [h1]; exact Int.ofNat_nonneg _
  · rw [h1]; exact_mod_cast h3

/-- C13, on the fresh row of a table whose single date column is indexed:
`AppendDate(2020, 5, 17)` succeeds and stores "7865361", the decimal rendering of
`(120<<16) | (4<<8) | 17`. -/
theorem valid_date_source_witness :
    dateInRange 2020 5 17 ∧
    (SQLInsertRow.new External.sample Sample.indexedDateTable [] 0).IsDimension = true ∧
    observe (SQLInsertRow.AppendDateYMD External.sample 1
      (SQLInsertRow.new External.sample Sample.indexedDateTable [] 0) 2020 5 17) =
      some (true, 1, [(0, "7865361")], []) ∧
    StdMap.find (rowAfter (SQLInsertRow.new External.sample Sample.indexedDateTable [] 0)
      (SQLInsertRow.AppendDateYMD External.sample 1
        (SQLInsertRow.new External.sample Sample.indexedDateTable [] 0)
        2020 5 17)).raw_dimensions
      (SQLInsertRow.new External.sample Sample.indexedDateTable [] 0).rb.GetAppendPos =
      some (toString (specPackDate 2020 5 17)) :=
  ⟨⟨by decide, by decide, by decide, by decide, by decide, by decide⟩, by decide, by decide,
    (valid_date_source External.sample 1
      (SQLInsertRow.new External.sample Sample.indexedDateTable [] 0) 2020 5 17
      (true, rowAfter (SQLInsertRow.new External.sample Sample.indexedDateTable [] 0)
        (SQLInsertRow.AppendDateYMD External.sample 1
          (SQLInsertRow.new External.sample Sample.indexedDateTable [] 0) 2020 5 17))
      ⟨by decide, by decide, by decide, by decide, by decide, by decide⟩ (by decide)
      (by decide) rfl).1⟩

end rtidb

namespace rtidb

/-! ## Memoized dimensions -/

theorem Steps_induct (E : External) (s1 : SQLInsertRow) (P : SQLInsertRow → Prop)
    (hstart : P s1)
    (hprep : ∀ (s : SQLInsertRow) (c : AppendCall), P s → P (c.prepare E s))
    (hwrite : ∀ (s : SQLInsertRow) (c : AppendCall) (rb : RowBuilder), P s →
      c.returnsEarly s = false → s.rb.Append c.value = some rb → P (c.written E s rb))
    (hinit : ∀ (s : SQLInsertRow), P s → P { s with rb := { s.rb with buf := [] } })
    (hdims : ∀ (s : SQLInsertRow), P s → P (SQLInsertRow.GetDimensions s).2) :
    ∀ s, Steps E s1 s → P s := by
  obtain ⟨hmd, hrun⟩ := calls_preserve E P hprep hwrite
  intro s hs
  induction hs with
  | refl => exact hstart
  | Init s fuel str_length r _ hr ih =>
    rcases Init_cases E fuel s str_length r hr with h1 | ⟨r2, hm, h1⟩
    · rw [h1]; exact ih
    · rw [h1]; exact hmd fuel _ r2 (hinit s ih) hm
  | Append s fuel c r _ hr ih => exact hrun fuel s c r ih hr
  | GetDimensions s _ ih => exact hdims s ih

theorem dimensionLoop_length (groups : List (Nat × List Nat)) :
    ∀ (raw : List (Nat × String)) (dims : List (String × Nat)),
      (SQLInsertRow.dimensionLoop groups raw dims).2.length = dims.length + groups.length := by
  induction groups with
  | nil => intro raw dims; simp [SQLInsertRow.dimensionLoop]
  | cons kv rest ih =>
    intro raw dims
    rw [SQLInsertRow.dimensionLoop, ih]
    simp
    omega

theorem GetDimensions_first (s : SQLInsertRow) :
    (SQLInsertRow.GetDimensions s).2.dimensions = (SQLInsertRow.GetDimensions s).1 ∧
    (SQLInsertRow.GetDimensions s).2.index_map = s.index_map ∧
    ((SQLInsertRow.GetDimensions s).1 = [] → s.index_map = []) := by
  unfold SQLInsertRow.GetDimensions
  by_cases hlen : s.dimensions.length > 0
  · simp only [hlen, if_true, true_and]
    intro hnil
    rw [hnil] at hlen
    simp at hlen
  · simp only [hlen, if_false, true_and]
    intro hnil
    have hl := dimensionLoop_length s.index_map s.raw_dimensions s.dimensions
    rw [hnil] at hl
    simp at hl
    exact List.length_eq_zero.1 (by omega)

theorem GetDimensions_memo (s : SQLInsertRow) (d : List (String × Nat))
    (h1 : s.dimensions = d) (h2 : d = [] → s.index_map = []) :
    (SQLInsertRow.GetDimensions s).1 = d ∧
    (SQLInsertRow.GetDimensions s).2.dimensions = d ∧
    (SQLInsertRow.GetDimensions s).2.index_map = s.index_map := by
  unfold SQLInsertRow.GetDimensions
  by_cases hlen : s.dimensions.length > 0
  · rw [if_pos hlen]
    exact ⟨h1, h1, rfl⟩
  · have hd : d = [] := by
      rw [← h1]
      exact List.length_eq_zero.1 (by omega)
    simp only [hlen, if_false]
    rw [h2 hd, h1, hd]
    simp [SQLInsertRow.dimensionLoop]

theorem GetDimensions_stable (E : External) (s s2 : SQLInsertRow)
    (h : Steps E (SQLInsertRow.GetDimensions s).2 s2) :
    (SQLInsertRow.GetDimensions s2).1 = (SQLInsertRow.GetDimensions s).1 := by
  obtain ⟨f1, f2, f3⟩ := GetDimensions_first s
  have hP : s2.index_map = s.index_map ∧ s2.dimensions = (SQLInsertRow.GetDimensions s).1 := by
    refine Steps_induct E (SQLInsertRow.GetDimensions s).2
      (fun x => x.index_map = s.index_map ∧ x.dimensions = (SQLInsertRow.GetDimensions s).1)
      ⟨f2, f1⟩ ?_ ?_ ?_ ?_ s2 h
    · intro x c hx
      obtain ⟨_, _, _, _, g5, _, g7⟩ := AppendCall.prepare_frame E x c
      exact ⟨g5.trans hx.1, g7.trans hx.2⟩
    · intro x c rb hx _ _
      obtain ⟨_, _, _, _, g5, _, g7⟩ := AppendCall.prepare_frame E x c
      exact ⟨g5.trans hx.1, g7.trans hx.2⟩
    · intro x hx
      exact hx
    · intro x hx
      obtain ⟨_, m2, m3⟩ := GetDimensions_memo x _ hx.2 (fun hd => by rw [hx.1]; exact f3 hd)
      exact ⟨m3.trans hx.1, m2⟩
  exact (GetDimensions_memo s2 _ hP.2 (fun hd => by rw [hP.1]; exact f3 hd)).1

/-- C14.  For every row, whatever sequence of `Init`, calls of the `Append*` family
(`AppendNULL` among them) and further `GetDimensions` calls comes between them, a later
call of `GetDimensions` returns the sequence of (key, group id) pairs that the first
call returned, also when further columns were appended or the row became complete in
between. -/
theorem GetDimensions_idempotent (E : External) (s s2 : SQLInsertRow)
    (h : Steps E (SQLInsertRow.GetDimensions s).2 s2) :
    (SQLInsertRow.GetDimensions s2).1 = (SQLInsertRow.GetDimensions s).1 :=
  GetDimensions_stable E s s2 h

/-- C14, on the row of the groups [colA, colB] and [colC]: `GetDimensions` is called after
`AppendInt32(7)`, then `AppendNULL()` and `AppendString("x")` complete the row, and the
second call still returns the keys of the first. -/
theorem GetDimensions_idempotent_witness :
    (SQLInsertRow.GetDimensions Sample.twoGroupRow1).1 =
      [("7|!N@U#L$L%", 0), ("!N@U#L$L%", 1)] ∧
    Sample.memoRow3.IsComplete = true ∧
    (SQLInsertRow.GetDimensions Sample.memoRow3).1 =
      (SQLInsertRow.GetDimensions Sample.twoGroupRow1).1 :=
  ⟨by decide, by decide,
    GetDimensions_idempotent External.sample Sample.twoGroupRow1 Sample.memoRow3
      (Steps.Append Sample.memoRow1 Sample.memoRow2 1 (AppendCall.AppendString "x")
        (true, Sample.memoRow3)
        (Steps.Append Sample.memoRow1 Sample.memoRow1 1 AppendCall.AppendNULL
          (true, Sample.memoRow2) (Steps.refl Sample.memoRow1) (by decide))
        (by decide))⟩

end rtidb

namespace rtidb

/-! ## The dimension-source map of reachable rows -/

end rtidb

namespace rtidb

/-! ## Rows of a batch -/

end rtidb

namespace rtidb

end rtidb

namespace rtidb

/-! ## Positions held by the index groups -/

theorem columnPosition_lt (cols : List ColumnDesc) (name : String) (h : cols ≠ []) :
    columnPosition cols name < cols.length := by
  induction cols with
  | nil => exact absurd rfl h
  | cons col rest ih =>
    rw [columnPosition]
    by_cases hc : col.name = name
    · simp [hc]
    · simp only [hc, if_false]
      by_cases hany : rest.any (fun c => decide (c.name = name)) = true
      · simp only [hany, if_true, List.length_cons]
        have hne : rest ≠ [] := by
          intro hnil
          rw [hnil] at hany
          simp at hany
        have := ih hne
        omega
      · simp [hany]

theorem columnPosition_undeclared (cols : List ColumnDesc) (name : String)
    (h : ¬ ∃ c ∈ cols, c.name = name) : columnPosition cols name = 0 := by
  cases cols with
  | nil => rfl
  | cons col rest =>
    rw [columnPosition]
    by_cases hc : col.name = name
    · simp [hc]
    · simp only [hc, if_false]
      have hany : ¬ rest.any (fun c => decide (c.name = name)) = true := by
        intro hc2
        simp only [List.any_eq_true, decide_eq_true_eq] at hc2
        obtain ⟨c, hmem, hcn⟩ := hc2
        exact h ⟨c, List.mem_cons_of_mem _ hmem, hcn⟩
      simp [hany]

theorem ctor_positions_in_range (E : External) (T : TableInfo) (dm : List (Nat × ConstNode))
    (dsl : Nat) (h : T.column_desc_v1 ≠ [] ∨ T.column_key = []) (p : Nat)
    (hp : (SQLInsertRow.new E T dm dsl).indexed p) : p < T.column_desc_v1.length := by
  unfold SQLInsertRow.indexed at hp
  have hmap : (SQLInsertRow.new E T dm dsl).index_map = (ctorBody E T).index_map := rfl
  rw [hmap] at hp
  by_cases hkey : T.column_key = []
  · rw [(ctorBody_legacy E T hkey).1, mem_singletonGroups, legacyIndexColumns_mem] at hp
    obtain ⟨_, c, hc, _⟩ := hp
    simp only [Nat.sub_zero] at hc
    by_contra hge
    rw [List.getElem?_eq_none (by omega)] at hc
    cases hc
  · have hcols : T.column_desc_v1 ≠ [] := by
      rcases h with h1 | h1
      · exact h1
      · exact absurd h1 hkey
    rw [(ctorBody_modern E T hkey).1, mem_definedGroups] at hp
    simp only [List.mem_flatten, List.mem_map] at hp
    obtain ⟨l, ⟨key, _, hl⟩, hpl⟩ := hp
    rw [← hl] at hpl
    obtain ⟨name, _, hname⟩ := List.mem_map.1 hpl
    rw [← hname]
    exact columnPosition_lt _ name hcols

/-- C17, as stated, fails.  The table declares no column and one explicit index
definition that names the column `x`: the constructor stores position 0 in group 0,
and 0 is not smaller than the column count 0. -/
theorem index_position_counterexample :
    (SQLInsertRow.new External.sample Sample.noColumnTable [] 0).index_map = [(0, [0])] ∧
    Sample.noColumnTable.column_desc_v1.length = 0 := by
  refine ⟨by decide, by decide⟩

/-- C17 (amended).  For every table description that declares at least one column (or no
explicit index definition), including one whose explicit index definitions name a column
that the table does not declare, every position stored in every index group built by the
constructor is smaller than the table's column count; a name that no column carries is
stored as position 0. -/
theorem index_positions_in_range (E : External) (T : TableInfo) (dm : List (Nat × ConstNode))
    (dsl : Nat) (h : T.column_desc_v1 ≠ [] ∨ T.column_key = []) :
    (∀ kv ∈ (SQLInsertRow.new E T dm dsl).index_map, ∀ p ∈ kv.2,
      p < T.column_desc_v1.length) ∧
    (∀ name, (¬ ∃ c ∈ T.column_desc_v1, c.name = name) →
      columnPosition T.column_desc_v1 name = 0) :=
  ⟨fun kv hkv p hp => ctor_positions_in_range E T dm dsl h p ⟨kv, hkv, hp⟩,
    fun name hname => columnPosition_undeclared T.column_desc_v1 name hname⟩

/-- C17 (amended), on a table with the columns `a` and `b` and the definition [b, x], `x`
undeclared: group 0 holds the positions 1 and 0, both smaller than the column count 2. -/
theorem index_positions_in_range_witness :
    Sample.undeclaredKeyTable.column_desc_v1 ≠ [] ∧
    (SQLInsertRow.new External.sample Sample.undeclaredKeyTable [] 0).index_map =
      [(0, [1, 0])] ∧
    (1 : Nat) < Sample.undeclaredKeyTable.column_desc_v1.length :=
  ⟨by decide, by decide,
    (index_positions_in_range External.sample Sample.undeclaredKeyTable [] 0
      (Or.inl (by decide))).1 (0, [1, 0]) (by decide) 1 (by decide)⟩

end rtidb

namespace rtidb

/-! ## Termination of the default chain -/

theorem chain_returns_from (E : External) :
    ∀ (fuel : Nat) (s : SQLInsertRow),
      s.rb.schema.length - s.rb.GetAppendPos + 1 ≤ fuel →
      ∃ r, SQLInsertRow.MakeDefault E fuel s = some r := by
  intro fuel
  induction fuel with
  | zero => intro s h; omega
  | succ fuel ih =>
    intro s h
    rw [MakeDefault_succ]
    cases StdMap.find s.default_map s.rb.GetAppendPos with
    | none => exact ⟨_, rfl⟩
    | some it =>
      dsimp only
      cases defaultCall it
          ((s.table_info.column_desc_v1[s.rb.GetAppendPos]?).map ColumnDesc.data_type) with
      | none => exact ⟨_, rfl⟩
      | some c =>
        dsimp only
        rw [AppendCall.runK_eq]
        by_cases hearly : c.returnsEarly s = true
        · rw [if_pos hearly]; exact ⟨_, rfl⟩
        · rw [if_neg hearly]
          unfold SQLInsertRow.writeThen
          rw [(AppendCall.prepare_frame E s c).2.2.2.1]
          cases hw : s.rb.Append c.value with
          | none => exact ⟨_, rfl⟩
          | some rb =>
            dsimp only
            obtain ⟨hpos, hlt⟩ := RowBuilder.Append_pos _ _ _ hw
            have hschema := (RowBuilder.Append_some _ _ _ hw).1
            apply ih
            show rb.schema.length - rb.GetAppendPos + 1 ≤ fuel
            rw [hschema, hpos]
            omega

theorem run_returns_from (E : External) (fuel : Nat) (s : SQLInsertRow) (c : AppendCall)
    (h : s.rb.schema.length - s.rb.GetAppendPos + 1 ≤ fuel) :
    ∃ r, c.run E fuel s = some r := by
  rw [AppendCall.run_eq_runK, AppendCall.runK_eq]
  by_cases hearly : c.returnsEarly s = true
  · rw [if_pos hearly]; exact ⟨_, rfl⟩
  · rw [if_neg hearly]
    unfold SQLInsertRow.writeThen
    rw [(AppendCall.prepare_frame E s c).2.2.2.1]
    cases hw : s.rb.Append c.value with
    | none => exact ⟨_, rfl⟩
    | some rb =>
      dsimp only
      obtain ⟨hpos, hlt⟩ := RowBuilder.Append_pos _ _ _ hw
      have hschema := (RowBuilder.Append_some _ _ _ hw).1
      apply chain_returns_from
      show rb.schema.length - rb.GetAppendPos + 1 ≤ fuel
      rw [hschema, hpos]
      omega

theorem Init_returns_from (E : External) (fuel : Nat) (s : SQLInsertRow) (str_length : Int)
    (h : s.rb.schema.length + 1 ≤ fuel) :
    ∃ r, SQLInsertRow.Init E fuel s str_length = some r := by
  unfold SQLInsertRow.Init
  by_cases hok : E.SetBufferOk (E.CalTotalLength (str_length + ↑s.default_string_length)) = true
  · simp only [RowBuilder.SetBuffer, hok, if_true]
    obtain ⟨r2, hr2⟩ := chain_returns_from E fuel { s with rb := { s.rb with buf := [] } }
      (by
        show s.rb.schema.length - 0 + 1 ≤ fuel
        omega)
    rw [hr2]
    exact ⟨_, rfl⟩
  · simp only [RowBuilder.SetBuffer, hok, Bool.false_eq_true, if_false]
    exact ⟨_, rfl⟩

theorem MakeDefault_fuel_le (E : External) (s : SQLInsertRow) (r : Bool × SQLInsertRow)
    (fuel : Nat) (h : SQLInsertRow.MakeDefault E fuel s = some r) :
    ∀ extra : Nat, SQLInsertRow.MakeDefault E (fuel + extra) s = some r := by
  intro extra
  induction extra with
  | zero => exact h
  | succ extra ih => exact MakeDefault_fuel_mono E (fuel + extra) s r ih

theorem chain_fill_count (E : External) (s : SQLInsertRow) (fuel : Nat)
    (r : Bool × SQLInsertRow) (h : SQLInsertRow.MakeDefault E fuel s = some r) :
    r.2.rb.buf.length - s.rb.buf.length ≤ s.rb.schema.length - s.rb.GetAppendPos := by
  have hP := (calls_preserve E
    (fun x => x.rb.schema = s.rb.schema ∧
      (x.rb.buf.length ≤ s.rb.buf.length ∨ x.rb.buf.length ≤ s.rb.schema.length))
    (by
      intro x c hx
      rw [(AppendCall.prepare_frame E x c).2.2.2.1]
      exact hx)
    (by
      intro x c rb hx _ hw
      obtain ⟨h1, _, _⟩ := RowBuilder.Append_some _ _ _ hw
      obtain ⟨hpos, hlt⟩ := RowBuilder.Append_pos _ _ _ hw
      refine ⟨?_, Or.inr ?_⟩
      · show rb.schema = s.rb.schema
        rw [h1]; exact hx.1
      · show rb.buf.length ≤ s.rb.schema.length
        have : rb.buf.length = x.rb.buf.length + 1 := hpos
        rw [← hx.1]
        unfold RowBuilder.GetAppendPos at hlt
        omega)).1 fuel s r ⟨rfl, Or.inl (le_refl _)⟩ h
  unfold RowBuilder.GetAppendPos
  rcases hP.2 with h1 | h1 <;> omega

/-- C18.  The writer takes an append only while the row is incomplete, and a taken append
moves the cursor by exactly one.  For every schema and every Default Value Table the
mutual recursion between `MakeDefault` and the Append family terminates: started at
cursor position p with room for (column count - p) + 1 nested activations of
`MakeDefault`, that is (column count - p) nested default fills and the activation that
ends the chain, `MakeDefault` returns, and so do every call of the Append family and
(with room for column count + 1 activations) `Init`; more room does not change the
result, and the chain writes at most (column count - p) values. -/
theorem default_chain_terminates (E : External) (s : SQLInsertRow) (fuel : Nat)
    (h : s.rb.schema.length - s.rb.GetAppendPos + 1 ≤ fuel) :
    (∃ r, SQLInsertRow.MakeDefault E fuel s = some r ∧
      (∀ extra, SQLInsertRow.MakeDefault E (fuel + extra) s = some r) ∧
      r.2.rb.buf.length - s.rb.buf.length ≤ s.rb.schema.length - s.rb.GetAppendPos) ∧
    (∀ c : AppendCall, ∃ r, c.run E fuel s = some r) ∧
    (∀ str_length : Int, s.rb.schema.length + 1 ≤ fuel →
      ∃ r, SQLInsertRow.Init E fuel s str_length = some r) := by
  obtain ⟨r, hr⟩ := chain_returns_from E fuel s h
  exact ⟨⟨r, hr, MakeDefault_fuel_le E s r fuel hr, chain_fill_count E s fuel r hr⟩,
    fun c => run_returns_from E fuel s c h,
    fun str_length hf => Init_returns_from E fuel s str_length hf⟩

/-- C18, on the row of five columns with defaults on the three in the middle, after its
first column was written: the cursor is at 1, room for 5 - 1 + 1 = 5 activations is
enough, and the chain fills the three defaulted columns. -/
theorem default_chain_terminates_witness :
    Sample.fiveColumnFirstWritten.rb.schema.length -
      Sample.fiveColumnFirstWritten.rb.GetAppendPos + 1 ≤ 5 ∧
    observe (SQLInsertRow.MakeDefault External.sample 5 Sample.fiveColumnFirstWritten) =
      some (true, 4, [], []) ∧
    Option.isSome (SQLInsertRow.MakeDefault External.sample 5
      Sample.fiveColumnFirstWritten) = true := by
  refine ⟨by decide, by decide, ?_⟩
  obtain ⟨r, hr, _⟩ := (default_chain_terminates External.sample
    Sample.fiveColumnFirstWritten 5 (by decide)).1
  rw [hr]
  rfl

end rtidb

namespace rtidb

/-! ## The timestamp sequence -/

theorem defaultCall_tsValue (it : ConstNode) (ty : Option DataType) (c : AppendCall)
    (h : defaultCall it ty = some c) (hnull : it.IsNull = true) : c.tsValue = none := by
  unfold defaultCall at h
  rw [if_pos hnull] at h
  cases h
  rfl

theorem noTimeDefaults_find (dm : List (Nat × ConstNode)) (tss : List Nat)
    (h : noTimeDefaults dm tss = true) (k : Nat) (it : ConstNode)
    (hfind : StdMap.find dm k = some it) : it.IsNull = true ∨ k ∉ tss := by
  have hmem := StdMap.find_mem dm k it hfind
  unfold noTimeDefaults at h
  have := List.all_eq_true.1 h (k, it) hmem
  simpa using this

theorem prepare_ts_default (E : External) (dm : List (Nat × ConstNode)) (tss : List Nat)
    (hno : noTimeDefaults dm tss = true) (x : SQLInsertRow) (it : ConstNode) (c : AppendCall)
    (hdm : x.default_map = dm) (htss : x.ts_set = tss)
    (hfind : StdMap.find x.default_map x.rb.GetAppendPos = some it)
    (hcall : defaultCall it x.cursorType = some c) : (c.prepare E x).ts = x.ts := by
  rw [AppendCall.prepare_ts]
  rw [hdm] at hfind
  rcases noTimeDefaults_find dm tss hno _ it hfind with h1 | h1
  · rw [defaultCall_tsValue it _ c hcall h1]
  · cases c.tsValue with
    | none => rfl
    | some t =>
      rw [htss]
      simp [h1]

theorem chain_keeps_ts (E : External) (dm : List (Nat × ConstNode)) (tss : List Nat)
    (base : List Nat) (hno : noTimeDefaults dm tss = true) :
    ∀ (fuel : Nat) (x : SQLInsertRow) (r : Bool × SQLInsertRow),
      (x.default_map = dm ∧ x.ts_set = tss ∧ x.ts = base) →
      SQLInsertRow.MakeDefault E fuel x = some r → r.2.ts = base := by
  refine MakeDefault_induct E (fun x => x.default_map = dm ∧ x.ts_set = tss ∧ x.ts = base)
    (fun r => r.2.ts = base) ?_ ?_ ?_ ?_ ?_
  · intro x hx _; exact hx.2.2
  · intro x it hx _ _; exact hx.2.2
  · intro x it c hx _ _ _; exact hx.2.2
  · intro x it c hx hfind hcall _ _
    show (c.prepare E x).ts = base
    rw [prepare_ts_default E dm tss hno x it c hx.1 hx.2.1 hfind hcall]
    exact hx.2.2
  · intro x it c rb hx hfind hcall _ _
    obtain ⟨_, f2, _, _, _, f6, _⟩ := AppendCall.prepare_frame E x c
    refine ⟨?_, ?_, ?_⟩
    · show (c.prepare E x).default_map = dm
      rw [f2]; exact hx.1
    · show (c.prepare E x).ts_set = tss
      rw [f6]; exact hx.2.1
    · show (c.prepare E x).ts = base
      rw [prepare_ts_default E dm tss hno x it c hx.1 hx.2.1 hfind hcall]
      exact hx.2.2

theorem prepare_ts_own (E : External) (s : SQLInsertRow) (c : AppendCall) :
    (c.prepare E s).ts = s.ts ++ c.ownTimestamps s := by
  rw [AppendCall.prepare_ts]
  unfold AppendCall.ownTimestamps
  cases c.tsValue with
  | none => simp
  | some t =>
    by_cases hm : s.rb.GetAppendPos ∈ s.ts_set
    · simp [hm]
    · simp [hm]

theorem timestamps_after_call (E : External) (T : TableInfo) (dm : List (Nat × ConstNode))
    (dsl : Nat) (s : SQLInsertRow) (hs : Reachable E T dm dsl s) (fuel : Nat)
    (c : AppendCall) (r : Bool × SQLInsertRow) (h : c.run E fuel s = some r)
    (hr : r.1 = true) :
    (∀ p, p ∈ s.ts_set ↔ ∃ col, T.column_desc_v1[p]? = some col ∧ col.is_ts_col = true) ∧
    (∃ rest, r.2.ts = s.ts ++ c.ownTimestamps s ++ rest) ∧
    ((StdMap.find dm (s.rb.GetAppendPos + 1) = none ∨ noTimeDefaults dm s.ts_set = true) →
      r.2.ts = s.ts ++ c.ownTimestamps s) := by
  have hinv := Reachable_invariant E T dm dsl s hs
  have heff := accepted_call_effects E fuel s c r h hr
  refine ⟨?_, ?_, ?_⟩
  · intro p
    rw [hinv.2.2.2.2.2.1, ctorBody_ts_set]
  · obtain ⟨rest, hrest⟩ := heff.2.2.2.1
    exact ⟨rest, by rw [hrest, prepare_ts_own]⟩
  · rintro (hnone | hno)
    · rw [heff.2.2.2.2 (by rw [hinv.2.1]; exact hnone), prepare_ts_own]
    · obtain ⟨rb, hw⟩ := heff.2.1
      have hchain := run_reports_chain E fuel s c rb heff.1 hw
      rw [hchain] at h
      obtain ⟨_, f2, _, _, _, f6, _⟩ := AppendCall.prepare_frame E s c
      have := chain_keeps_ts E dm s.ts_set (c.prepare E s).ts hno fuel (c.written E s rb) r
        ⟨by show (c.prepare E s).default_map = dm; rw [f2]; exact hinv.2.1,
          by show (c.prepare E s).ts_set = s.ts_set; exact f6, rfl⟩ h
      rw [this, prepare_ts_own]

/-- C19, as stated, fails.  The plain 64-bit column `a` is followed by the time column `u`
with the default 9.  On the fresh row `AppendNULL()` at `a` succeeds and the timestamp
sequence becomes [9]; `AppendInt64(5)` at `a`, not a time column, succeeds and the
sequence becomes [9] as well.  And where the time column `t` is followed by the time
column `u` with the default 9, the successful `AppendInt64(5)` at `t` extends the
sequence by two elements, [5, 9]. -/
theorem timestamp_frame_counterexample :
    observe (SQLInsertRow.AppendNULL External.sample 2
      (SQLInsertRow.new External.sample Sample.timeSecondTable
        [(1, Sample.longDefault 9)] 0)) = some (true, 2, [], [9]) ∧
    observe (SQLInsertRow.AppendInt64 External.sample 2
      (SQLInsertRow.new External.sample Sample.timeSecondTable
        [(1, Sample.longDefault 9)] 0) 5) = some (true, 2, [], [9]) ∧
    (SQLInsertRow.new External.sample Sample.timeSecondTable
      [(1, Sample.longDefault 9)] 0).ts = [] ∧
    (SQLInsertRow.new External.sample Sample.timeSecondTable
      [(1, Sample.longDefault 9)] 0).ts_set = [1] ∧
    observe (SQLInsertRow.AppendInt64 External.sample 2
      (SQLInsertRow.new External.sample Sample.twoTimeTable
        [(1, Sample.longDefault 9)] 0) 5) = some (true, 2, [(0, "5")], [5, 9]) := by
  refine ⟨by decide, by decide, by decide, by decide, by decide⟩

/-- C19 (amended).  For every row that a caller can hold and every successful call of
the Append family: directly behind the values that the timestamp sequence held, the call
itself puts the operand (as the unsigned 64-bit value that `PackTs` receives) if it is
`AppendInt64(v)` or `AppendTimestamp(v)` at a column flagged as a time column, and
nothing if the column is not a time column or the call is another one, `AppendNULL`
among them; behind that come only the values that the default chain it triggers packs.
When the next column has no default entry, or no time column has a non-null default,
the chain packs nothing: the sequence grows by exactly the one element v, or is left
unchanged. -/
theorem timestamp_frame (E : External) (T : TableInfo) (dm : List (Nat × ConstNode))
    (dsl : Nat) (s : SQLInsertRow) (hs : Reachable E T dm dsl s) (fuel : Nat)
    (c : AppendCall) (r : Bool × SQLInsertRow) (h : c.run E fuel s = some r)
    (hr : r.1 = true) :
    (∀ p, p ∈ s.ts_set ↔ ∃ col, T.column_desc_v1[p]? = some col ∧ col.is_ts_col = true) ∧
    (∃ rest, r.2.ts = s.ts ++ c.ownTimestamps s ++ rest) ∧
    ((StdMap.find dm (s.rb.GetAppendPos + 1) = none ∨ noTimeDefaults dm s.ts_set = true) →
      r.2.ts = s.ts ++ c.ownTimestamps s) ∧
    (∀ v : Int, s.rb.GetAppendPos ∈ s.ts_set →
      (AppendCall.AppendInt64 v).ownTimestamps s = [toUInt64 v] ∧
      (AppendCall.AppendTimestamp v).ownTimestamps s = [toUInt64 v]) ∧
    (∀ v : Int, s.rb.GetAppendPos ∉ s.ts_set →
      (AppendCall.AppendInt64 v).ownTimestamps s = [] ∧
      (AppendCall.AppendTimestamp v).ownTimestamps s = []) ∧
    AppendCall.AppendNULL.ownTimestamps s = [] ∧
    (∀ v : Int, 0 ≤ v → v < 2 ^ 64 → ((toUInt64 v : Nat) : Int) = v) := by
  obtain ⟨h1, h2, h3⟩ := timestamps_after_call E T dm dsl s hs fuel c r h hr
  refine ⟨h1, h2, h3, ?_, ?_, rfl, toUInt64_of_nonneg⟩
  · intro v hm
    simp [AppendCall.ownTimestamps, AppendCall.tsValue, hm]
  · intro v hm
    simp [AppendCall.ownTimestamps, AppendCall.tsValue, hm]

/-- C19 (amended), on the fresh row of a table whose time column `t` is followed by a
plain string column without default: `AppendInt64(5)` succeeds and the timestamp sequence
grows by exactly the element 5. -/
theorem timestamp_frame_witness :
    observe ((AppendCall.AppendInt64 5).run External.sample 1
      (SQLInsertRow.new External.sample Sample.timeFirstTable [] 0)) =
      some (true, 1, [], [5]) ∧
    (rowAfter (SQLInsertRow.new External.sample Sample.timeFirstTable [] 0)
      ((AppendCall.AppendInt64 5).run External.sample 1
        (SQLInsertRow.new External.sample Sample.timeFirstTable [] 0))).ts =
      (SQLInsertRow.new External.sample Sample.timeFirstTable [] 0).ts ++
        (AppendCall.AppendInt64 5).ownTimestamps
          (SQLInsertRow.new External.sample Sample.timeFirstTable [] 0) :=
  ⟨by decide,
    (timestamp_frame External.sample Sample.timeFirstTable [] 0
      (SQLInsertRow.new External.sample Sample.timeFirstTable [] 0) Reachable.ctor 1
      (AppendCall.AppendInt64 5)
      (true, rowAfter (SQLInsertRow.new External.sample Sample.timeFirstTable [] 0)
        ((AppendCall.AppendInt64 5).run External.sample 1
          (SQLInsertRow.new External.sample Sample.timeFirstTable [] 0)))
      (by decide) rfl).2.2.1 (Or.inl (by decide))⟩

end rtidb
